import Mathlib

/-!
Repository data access layer of `gait` (`internal/git/service.go`), and the
two handlers of `internal/api/handlers.go` that build on it.

A shallow embedding of the Git service: the command runner, the metadata
cache, the history reader, the diff parser, the mutating operations, the
change summaries, and of the handlers `generateSimpleGait` and `GetAllData`,
followed by theorems about them.

Conventions of the embedding.

* A Go `string` is the list of its code points (`Str`).
* A Go slice is an `Option (List α)`: `none` is the `nil` slice, `some xs` an
  allocated slice holding `xs`.
* A Go `(value, error)` result is a pair whose second component is `none` for
  a `nil` error.
* A run-time panic (index out of range) is the `Except.error` branch of the
  result; the service state reached when the panic happens is still returned.
* The world outside the program (the `git` binary, the file system,
  `time.Parse`, the iteration order of a map) is the record `Env`; every
  theorem quantifies over it.
* The goroutines of `GetAllData` are run one after the other; the order in
  which their messages arrive is a parameter.
* A calendar time read by `time.Parse` is its offset in nanoseconds from the
  zero time `time.Time{}` (`Time`). The instants the cache compares are
  readings of the system clock, which does not read before the zero time,
  and such a reading plus a duration: natural numbers of nanoseconds since
  the zero time (`Instant`). Durations are natural numbers of nanoseconds.
-/

namespace Gait

/-! ## Strings -/

/-- A Go string, as the list of its code points. -/
abbrev Str := List Char

/-- The code points for which `unicode.IsSpace` holds. -/
def isSpace (c : Char) : Bool :=
  let n := c.toNat
  n == 0x09 || n == 0x0A || n == 0x0B || n == 0x0C || n == 0x0D || n == 0x20 ||
  n == 0x85 || n == 0xA0 || n == 0x1680 || (0x2000 ≤ n && n ≤ 0x200A) ||
  n == 0x2028 || n == 0x2029 || n == 0x202F || n == 0x205F || n == 0x3000

/-- Drop the longest suffix whose characters all satisfy `p`. -/
def dropRightWhile (p : Char → Bool) (s : Str) : Str :=
  ((s.reverse).dropWhile p).reverse

/-- Go `strings.TrimSpace`: leading and trailing white space removed. -/
def TrimSpace (s : Str) : Str :=
  dropRightWhile isSpace (s.dropWhile isSpace)

/-- Go `strings.Trim(s, cutset)`: leading and trailing characters of `cutset` removed. -/
def Trim (s cutset : Str) : Str :=
  dropRightWhile (fun c => cutset.contains c) (s.dropWhile (fun c => cutset.contains c))

/-- Go `strings.HasPrefix(s, p)`. -/
def HasPrefix (s p : Str) : Bool :=
  p.isPrefixOf s

/-- Worker of `Split`: `skip` counts the characters of a separator occurrence
that are still to be passed over. -/
def splitAux (sep : Str) : Str → Nat → List Str
  | [], _ => [[]]
  | _ :: cs, skip + 1 => splitAux sep cs skip
  | c :: cs, 0 =>
    if sep.isPrefixOf (c :: cs) then [] :: splitAux sep cs (sep.length - 1)
    else
      match splitAux sep cs 0 with
      | [] => [[c]]
      | p :: ps => (c :: p) :: ps

/-- Go `strings.Split(s, sep)` for a non-empty separator: the pieces of `s`
between the successive non-overlapping occurrences of `sep`, empty pieces kept. -/
def Split (s sep : Str) : List Str :=
  splitAux sep s 0

/-- Worker of `Fields`: `cur` is the field being read, reversed. -/
def fieldsAux : Str → Str → List Str
  | [], cur => if cur = [] then [] else [cur.reverse]
  | c :: cs, cur =>
    if isSpace c then
      (if cur = [] then fieldsAux cs [] else cur.reverse :: fieldsAux cs [])
    else fieldsAux cs (c :: cur)

/-- Go `strings.Fields`: the maximal runs of non-space characters. -/
def Fields (s : Str) : List Str :=
  fieldsAux s []

/-- The decimal text that `fmt.Sprintf("%d", n)` prints for `n`. -/
def fmtInt (n : Int) : Str :=
  match n with
  | Int.ofNat k => (Nat.repr k).toList
  | Int.negSucc k => '-' :: (Nat.repr (k + 1)).toList

/-! ## The world outside the program -/

/-- A calendar time: nanoseconds since the zero time `time.Time{}`. -/
abbrev Time := Int

/-- The zero value `time.Time{}`. -/
def zeroTime : Time := 0

/-- An instant of the system clock: nanoseconds since the zero time. -/
abbrev Instant := Nat

/-- The zero value `time.Time{}`, as an instant. -/
def zeroInstant : Instant := 0

/-- Go `t.Before(u)`. -/
def Before (t u : Instant) : Bool :=
  decide (t < u)

/-- One second, as a `time.Duration` (nanoseconds). -/
def Second : Nat := 1000000000

/-- What one run of the `git` binary does. -/
structure ProcResult where
  /-- Running time of the process, in nanoseconds. -/
  elapsed : Nat
  /-- The error of `cmd.Output` / `cmd.CombinedOutput`: `none` when the process
  started and exited with status 0. -/
  err : Option Str
  /-- Captured standard output. -/
  stdout : Str
  /-- Captured standard output and standard error, as interleaved by the process. -/
  combined : Str

/-- An interaction of the service with the outside world. -/
inductive Event
  | git (args : List Str)
  | readFile (repoPath filePath : Str)
  /-- Go `os.MkdirAll(filepath.Dir(filepath.Join(repoPath, filePath)), 0755)`. -/
  | mkdirAll (repoPath filePath : Str)
  /-- Go `os.WriteFile(filepath.Join(repoPath, filePath), text, 0644)`. -/
  | writeFile (repoPath filePath text : Str)
deriving DecidableEq

/-- The errors the service builds or passes on. -/
inductive GoError
  /-- `fmt.Errorf("git command failed: %v, output: %s", err, output)`. -/
  | commandFailedWithOutput (err output : Str)
  /-- `fmt.Errorf("git command failed: %v", err)`. -/
  | commandFailed (err : Str)
  /-- `fmt.Errorf("git command timed out after %v", timeout)`. -/
  | timedOut (timeout : Nat)
  /-- An error returned by `os.ReadFile`. -/
  | os (msg : Str)
  /-- `fmt.Errorf("commit message cannot be empty")`. -/
  | emptyCommitMessage
  /-- `fmt.Errorf("failed to get commit hash: %v", err)`: a new error, whose
  text holds the text of `err`. -/
  | failedToGetCommitHash (err : GoError)
  /-- `fmt.Errorf("invalid commit format")`. -/
  | invalidCommitFormat
  /-- `fmt.Errorf("failed to create directory: %v", err)`. -/
  | failedToCreateDirectory (err : Str)
  /-- `fmt.Errorf("failed to write file: %v", err)`. -/
  | failedToWriteFile (err : Str)
deriving DecidableEq

/-- A run-time panic. -/
inductive Panic
  /-- Index `i` used on a slice of length `len`. -/
  | indexOutOfRange (i len : Nat)
  /-- Go `make([]T, 0, cap)` with a negative `cap`: `makeslice: cap out of range`. -/
  | makesliceCapOutOfRange (cap : Int)
deriving DecidableEq

deriving instance DecidableEq for Except

/-- Go `(value, error)`. -/
abbrev Ret (α : Type) := α × Option GoError

/-- A Go slice: `none` is `nil`. -/
abbrev Slice (α : Type) := Option (List α)

/-- Go `len` of a slice. -/
def Slice.len {α : Type} (s : Slice α) : Nat :=
  match s with
  | none => 0
  | some xs => xs.length

/-- The elements of a slice. -/
def Slice.elems {α : Type} (s : Slice α) : List α :=
  match s with
  | none => []
  | some xs => xs

/-! ## Data model (`pkg/types/types.go`) -/

structure Author where
  Name : Str
  Email : Str
deriving DecidableEq

structure CommitStats where
  FilesChanged : Int
  Additions : Int
  Deletions : Int
deriving DecidableEq

structure FileChange where
  Path : Str
  Status : Str
  Additions : Int
  Deletions : Int
  OldPath : Str
deriving DecidableEq

structure Commit where
  Hash : Str
  ShortHash : Str
  Message : Str
  Author : Gait.Author
  Committer : Gait.Author
  Date : Time
  CommitDate : Time
  Parents : Slice Str
  Refs : Slice Str
  Stats : CommitStats
  FileChanges : Slice FileChange
  IsUncommitted : Bool
deriving DecidableEq

structure Branch where
  Name : Str
  Hash : Str
  IsRemote : Bool
  IsCurrent : Bool
  Upstream : Str
deriving DecidableEq

structure Tag where
  Name : Str
  Hash : Str
  Type_ : Str
  Message : Str
  Tagger : Gait.Author
  Date : Time
  TargetHash : Str
deriving DecidableEq

structure Remote where
  Name : Str
  FetchURL : Str
  PushURL : Str
deriving DecidableEq

structure DiffLine where
  Type_ : Str
  Content : Str
  OldNum : Int
  NewNum : Int
deriving DecidableEq

structure DiffHunk where
  OldStart : Int
  OldLines : Int
  NewStart : Int
  NewLines : Int
  Header : Str
  Lines : Slice DiffLine
deriving DecidableEq

structure FileDiff where
  Path : Str
  OldPath : Str
  Status : Str
  Additions : Int
  Deletions : Int
  Hunks : Slice DiffHunk
  OldContent : Slice Str
  NewContent : Slice Str
deriving DecidableEq

/-- The environment of the service. The index given to `git` and `readFile` is
the number of interactions that happened before, so that the same command may
behave differently each time it is run. -/
structure Env where
  /-- Behaviour of `exec.Command("git", args...)` run in the repository. -/
  git : Nat → List Str → ProcResult
  /-- Go `os.ReadFile(filepath.Join(repoPath, filePath))`. -/
  readFile : Nat → Str → Str → Except Str Str
  /-- Go `time.Parse(layout, value)`, `none` when it returns an error. -/
  timeParse : Str → Str → Option Time
  /-- The order in which `range` visits the entries of a map, given in the
  order of their first insertion. Go leaves the order unspecified. -/
  rangeOrder : List Remote → List Remote
  /-- Go `os.MkdirAll(filepath.Dir(filepath.Join(repoPath, filePath)), 0755)`:
  `none` when it returns no error. -/
  mkdirAll : Nat → Str → Str → Option Str := fun _ _ _ => none
  /-- Go `os.WriteFile(filepath.Join(repoPath, filePath), text, 0644)`: `none`
  when it returns no error. -/
  writeFile : Nat → Str → Str → Str → Option Str := fun _ _ _ _ => none
  /-- Go `unicode.ToLower`, which `strings.ToLower` maps over its argument. The
  value given here when a record leaves the field out is its ASCII part. -/
  lower : Char → Char := Char.toLower

/-! ## Service state -/

/-- Go `serviceCache` (the lock is not modelled: calls are sequential). -/
structure serviceCache where
  branches : Slice Branch
  tags : Slice Tag
  remotes : Slice Remote
  branchesExpiry : Instant
  tagsExpiry : Instant
  remotesExpiry : Instant
  cacheDuration : Nat

/-- Go `Service`, with the history of its interactions with the outside world. -/
structure Service where
  repoPath : Str
  cache : serviceCache
  trace : List Event

/-- Go `NewService`. -/
def NewService (repoPath : Str) : Service :=
  { repoPath := repoPath
    cache :=
      { branches := none, tags := none, remotes := none
        branchesExpiry := zeroInstant, tagsExpiry := zeroInstant, remotesExpiry := zeroInstant
        cacheDuration := 30 * Second }
    trace := [] }

/-! ## CommandRunner -/

/-- Go `Service.runGitCommand`. -/
def runGitCommand (E : Env) (s : Service) (args : List Str) : Ret Str × Service :=
  let r := E.git s.trace.length args
  let s1 := { s with trace := s.trace ++ [Event.git args] }
  match r.err with
  | some e => (([], some (GoError.commandFailedWithOutput e r.combined)), s1)
  | none => ((TrimSpace r.combined, none), s1)

/-- Go `Service.runGitCommandWithTimeout`: the process is abandoned when it has
not finished after `timeout` nanoseconds. -/
def runGitCommandWithTimeout (E : Env) (s : Service) (timeout : Nat) (args : List Str) :
    Ret Str × Service :=
  let r := E.git s.trace.length args
  let s1 := { s with trace := s.trace ++ [Event.git args] }
  if r.elapsed < timeout then
    match r.err with
    | some e => (([], some (GoError.commandFailed e)), s1)
    | none => ((TrimSpace r.stdout, none), s1)
  else (([], some (GoError.timedOut timeout)), s1)

/-! ## HistoryReader -/

/-- The layout given to `time.Parse`. -/
def timeLayout : Str := "2006-01-02 15:04:05 -0700".toList

/-- Go `date, _ := time.Parse(layout, value)`: the zero time when parsing fails. -/
def parseTimeOrZero (E : Env) (value : Str) : Time :=
  match E.timeParse timeLayout value with
  | some t => t
  | none => zeroTime

/-- Go `Service.getCommitRefs`. -/
def getCommitRefs (E : Env) (s : Service) (hash : Str) : Ret (Slice Str) × Service :=
  let r := runGitCommand E s
    ["log".toList, "--decorate=short".toList, "--format=%D".toList, "-1".toList, hash]
  let output := r.1.1
  if r.1.2.isSome || output.isEmpty then ((some [], none), r.2)
  else
    let refs := Split output ", ".toList
    let result := (refs.map TrimSpace).filter (fun ref => ref ≠ [])
    ((some result, none), r.2)

/-- The argument list `GetCommitsWithOffset` builds for `git`. -/
def logArgs (limit offset : Int) (branch : Str) (showAll : Bool) : List Str :=
  let args : List Str :=
    ["log".toList, "--pretty=format:%H|%h|%s|%an|%ae|%ad|%cd|%P".toList, "--date=iso".toList]
  let args := if offset > 0 then args ++ ["--skip=".toList ++ fmtInt offset] else args
  let args := if limit > 0 then args ++ ['-' :: fmtInt limit] else args
  if !showAll && branch != [] then args ++ [branch]
  else if showAll then args ++ ["--all".toList]
  else args

/-- The loop of `GetCommitsWithOffset` over the lines of the log output;
`commits` holds the commits appended so far. The accesses `parts[0]` to
`parts[6]` are in range behind the guard `len(parts) < 7`; `parts[7]` is not,
and panics on a line of exactly seven fields. -/
def commitsLoop (E : Env) : List Str → Service → List Commit →
    Except Panic (List Commit) × Service
  | [], s, commits => (Except.ok commits, s)
  | line :: rest, s, commits =>
    if line = [] then commitsLoop E rest s commits
    else
      let parts := Split line "|".toList
      if parts.length < 7 then commitsLoop E rest s commits
      else
        let date := parseTimeOrZero E (parts.getD 5 [])
        let commitDate := parseTimeOrZero E (parts.getD 6 [])
        match parts[7]? with
        | none => (Except.error (Panic.indexOutOfRange 7 parts.length), s)
        | some parentsField =>
          let parents : Slice Str :=
            if parentsField ≠ [] then some (Split parentsField " ".toList) else some []
          let r := getCommitRefs E s (parts.getD 0 [])
          let commit : Commit :=
            { Hash := parts.getD 0 []
              ShortHash := parts.getD 1 []
              Message := parts.getD 2 []
              Author := { Name := parts.getD 3 [], Email := parts.getD 4 [] }
              Committer := { Name := parts.getD 3 [], Email := parts.getD 4 [] }
              Date := date
              CommitDate := commitDate
              Parents := parents
              Refs := r.1.1
              Stats := { FilesChanged := 0, Additions := 0, Deletions := 0 }
              FileChanges := none
              IsUncommitted := false }
          commitsLoop E rest r.2 (commits ++ [commit])

/-- Go `Service.GetCommitsWithOffset`. -/
def GetCommitsWithOffset (E : Env) (s : Service) (limit offset : Int) (branch : Str)
    (showAll : Bool) : Except Panic (Ret (Slice Commit)) × Service :=
  let r := runGitCommandWithTimeout E s (10 * Second) (logArgs limit offset branch showAll)
  match r.1.2 with
  | some _ => (Except.ok (some [], none), r.2)
  | none =>
    let lines := Split r.1.1 "\n".toList
    let l := commitsLoop E lines r.2 []
    match l.1 with
    | Except.error p => (Except.error p, l.2)
    | Except.ok commits => (Except.ok (some commits, none), l.2)

/-- Go `Service.GetCommits`. -/
def GetCommits (E : Env) (s : Service) (limit : Int) (branch : Str) (showAll : Bool) :
    Except Panic (Ret (Slice Commit)) × Service :=
  GetCommitsWithOffset E s limit 0 branch showAll

/-! ## MetadataCache: branches, tags, remotes -/

/-- The body of the loop of `GetBranches`: the branch read from one line of
`git branch -v`, if the line gives one. -/
def branchOfLine (line : Str) : Option Branch :=
  if line = [] then none
  else
    let line := TrimSpace line
    let isCurrent := HasPrefix line "*".toList
    let line := if isCurrent then TrimSpace (line.drop 1) else line
    let parts := Fields line
    if 2 ≤ parts.length then
      some { Name := parts.getD 0 [], Hash := parts.getD 1 [], IsRemote := false
             IsCurrent := isCurrent, Upstream := [] }
    else none

/-- The loop of `GetBranches` over the lines of the output. -/
def parseBranches (output : Str) : List Branch :=
  (Split output "\n".toList).filterMap branchOfLine

/-- Go `Service.GetBranches`. `now` is the clock reading of the freshness
test, `later` the one taken when the result is stored. -/
def GetBranches (E : Env) (s : Service) (now later : Instant) : Ret (Slice Branch) × Service :=
  if Before now s.cache.branchesExpiry && decide (s.cache.branches.len > 0) then
    ((some s.cache.branches.elems, none), s)
  else
    let r := runGitCommandWithTimeout E s (5 * Second) ["branch".toList, "-v".toList]
    match r.1.2 with
    | some _ => ((some [], none), r.2)
    | none =>
      let branches := parseBranches r.1.1
      ((some branches, none),
        { r.2 with cache := { r.2.cache with
            branches := some branches
            branchesExpiry := later + r.2.cache.cacheDuration } })

/-- Go `Service.invalidateBranchesCache`. -/
def invalidateBranchesCache (s : Service) : Service :=
  { s with cache := { s.cache with branchesExpiry := zeroInstant } }

/-- The format `GetTags` gives to `git tag -l`. -/
def tagFormat : Str :=
  ("--format=%(refname:short)|%(objectname:short)|%(objecttype)|%(subject)|" ++
    "%(taggername)|%(taggeremail)|%(taggerdate:iso)").toList

/-- The body of the loop of `GetTags` for a line of at least three fields
`parts`. The test of the tagger reads `parts[5]` behind the guard
`len(parts) > 4` only, and panics on a line of five fields whose fifth is not empty. -/
def tagOfParts (E : Env) (parts : List Str) : Except Panic Tag :=
  let tag : Tag :=
    { Name := TrimSpace (parts.getD 0 []), Hash := TrimSpace (parts.getD 1 [])
      Type_ := TrimSpace (parts.getD 2 []), Message := []
      Tagger := { Name := [], Email := [] }, Date := zeroTime, TargetHash := [] }
  let tag := if 3 < parts.length ∧ parts.getD 3 [] ≠ [] then
    { tag with Message := parts.getD 3 [] } else tag
  let tagger : Except Panic Tag :=
    if 4 < parts.length ∧ parts.getD 4 [] ≠ [] then
      match parts[5]? with
      | none => Except.error (Panic.indexOutOfRange 5 parts.length)
      | some p5 =>
        if p5 ≠ [] then
          Except.ok { tag with Tagger := { Name := parts.getD 4 [], Email := p5 } }
        else Except.ok tag
    else Except.ok tag
  match tagger with
  | Except.error p => Except.error p
  | Except.ok tag =>
    if 6 < parts.length ∧ parts.getD 6 [] ≠ [] then
      match E.timeParse timeLayout (parts.getD 6 []) with
      | some date => Except.ok { tag with Date := date }
      | none => Except.ok tag
    else Except.ok tag

/-- The loop of `GetTags` over the lines of the output; `tags` holds the tags
appended so far. -/
def tagsLoop (E : Env) : List Str → List Tag → Except Panic (List Tag)
  | [], tags => Except.ok tags
  | line :: rest, tags =>
    if line = [] then tagsLoop E rest tags
    else
      let parts := Split line "|".toList
      if parts.length < 3 then tagsLoop E rest tags
      else
        match tagOfParts E parts with
        | Except.error p => Except.error p
        | Except.ok tag => tagsLoop E rest (tags ++ [tag])

/-- Go `Service.GetTags`. -/
def GetTags (E : Env) (s : Service) (now later : Instant) :
    Except Panic (Ret (Slice Tag)) × Service :=
  if Before now s.cache.tagsExpiry && decide (s.cache.tags.len > 0) then
    (Except.ok (some s.cache.tags.elems, none), s)
  else
    let r := runGitCommandWithTimeout E s (5 * Second) ["tag".toList, "-l".toList, tagFormat]
    match r.1.2 with
    | some _ => (Except.ok (some [], none), r.2)
    | none =>
      if (TrimSpace r.1.1).isEmpty then (Except.ok (some [], none), r.2)
      else
        match tagsLoop E (Split r.1.1 "\n".toList) [] with
        | Except.error p => (Except.error p, r.2)
        | Except.ok tags =>
          (Except.ok (some tags, none),
            { r.2 with cache := { r.2.cache with
                tags := some tags
                tagsExpiry := later + r.2.cache.cacheDuration } })

/-- Go `Service.invalidateTagsCache`. -/
def invalidateTagsCache (s : Service) : Service :=
  { s with cache := { s.cache with tagsExpiry := zeroInstant } }

/-- Set the fetch or push URL of the remote `name` in the map `m` of
`GetRemotes`, entering the remote first when the map does not have it. The map
is the list of its entries in the order of their first insertion. -/
def remoteMapSet (m : List Remote) (name url typ : Str) : List Remote :=
  let m := if m.any (fun r => r.Name = name) then m
    else m ++ [{ Name := name, FetchURL := [], PushURL := [] }]
  m.map (fun r =>
    if r.Name = name then
      (if typ = "fetch".toList then { r with FetchURL := url }
       else if typ = "push".toList then { r with PushURL := url }
       else r)
    else r)

/-- One turn of the loop of `GetRemotes`. -/
def remoteStep (m : List Remote) (line : Str) : List Remote :=
  if line = [] then m
  else
    let parts := Fields line
    if 3 ≤ parts.length then
      remoteMapSet m (parts.getD 0 []) (parts.getD 1 []) (Trim (parts.getD 2 []) "()".toList)
    else m

/-- Go `Service.GetRemotes`. -/
def GetRemotes (E : Env) (s : Service) (now later : Instant) : Ret (Slice Remote) × Service :=
  if Before now s.cache.remotesExpiry && decide (s.cache.remotes.len > 0) then
    ((some s.cache.remotes.elems, none), s)
  else
    let r := runGitCommandWithTimeout E s (5 * Second) ["remote".toList, "-v".toList]
    match r.1.2 with
    | some _ => ((some [], none), r.2)
    | none =>
      if (TrimSpace r.1.1).isEmpty then ((some [], none), r.2)
      else
        let remoteMap := (Split r.1.1 "\n".toList).foldl remoteStep []
        let remotes := E.rangeOrder remoteMap
        ((some remotes, none),
          { r.2 with cache := { r.2.cache with
              remotes := some remotes
              remotesExpiry := later + r.2.cache.cacheDuration } })

/-- Go `Service.invalidateRemotesCache`. -/
def invalidateRemotesCache (s : Service) : Service :=
  { s with cache := { s.cache with remotesExpiry := zeroInstant } }

/-! ## DiffReconstructor -/

/-- Go `Service.GetFileContent`. -/
def GetFileContent (E : Env) (s : Service) (hash filePath : Str) :
    Ret (Slice Str) × Service :=
  if hash = "uncommitted".toList then
    let s1 := { s with trace := s.trace ++ [Event.readFile s.repoPath filePath] }
    match E.readFile s.trace.length s.repoPath filePath with
    | Except.error e => ((none, some (GoError.os e)), s1)
    | Except.ok content =>
      let lines := Split content "\n".toList
      let lines := if lines.length > 0 ∧ lines.getLast? = some [] then lines.dropLast else lines
      ((some lines, none), s1)
  else
    let r := runGitCommand E s ["show".toList, hash ++ ":".toList ++ filePath]
    match r.1.2 with
    | some e => ((none, some e), r.2)
    | none =>
      let lines := Split r.1.1 "\n".toList
      let lines := if lines.length > 0 ∧ lines.getLast? = some [] then lines.dropLast else lines
      ((some lines, none), r.2)

/-- The characters the class `\d` of Go `regexp` matches. -/
def isDigit (c : Char) : Bool :=
  decide ('0' ≤ c) && decide (c ≤ '9')

/-- Drop the literal `lit` from the front of `s`, if `s` starts with it. -/
def dropLiteral (lit : Str) (s : Str) : Option Str :=
  if lit.isPrefixOf s then some (s.drop lit.length) else none

/-- Drop one comma from the front of `s`, if there is one (the pattern `,?`). -/
def dropComma (s : Str) : Str :=
  match s with
  | ',' :: t => t
  | _ => s

/-- The submatches of the pattern
`@@ -(\d+),?(\d*) \+(\d+),?(\d*) @@(.*)` matched at the start of `s`. Every
repetition takes the longest run it can: the pattern has a match at this
place only if that choice matches, and Go prefers it. -/
def matchHeaderAt (s : Str) : Option (Str × Str × Str × Str × Str) :=
  match dropLiteral "@@ -".toList s with
  | none => none
  | some s1 =>
    let g1 := s1.takeWhile isDigit
    if g1 = [] then none
    else
      let s2 := dropComma (s1.dropWhile isDigit)
      let g2 := s2.takeWhile isDigit
      match dropLiteral " +".toList (s2.dropWhile isDigit) with
      | none => none
      | some s3 =>
        let g3 := s3.takeWhile isDigit
        if g3 = [] then none
        else
          let s4 := dropComma (s3.dropWhile isDigit)
          let g4 := s4.takeWhile isDigit
          match dropLiteral " @@".toList (s4.dropWhile isDigit) with
          | none => none
          | some s5 => some (g1, g2, g3, g4, s5.takeWhile (fun c => c ≠ '\n'))

/-- Go `re.FindStringSubmatch(line)` for the hunk-header pattern: the
submatches of the leftmost match, `none` when there is no match. -/
def findHeader : Str → Option (Str × Str × Str × Str × Str)
  | [] => matchHeaderAt []
  | c :: cs =>
    match matchHeaderAt (c :: cs) with
    | some m => some m
    | none => findHeader cs

/-- The largest value of a Go `int` (64 bits). -/
def maxInt : Nat := 9223372036854775807

/-- The number a string of decimal digits writes. -/
def decimalValue (s : Str) : Nat :=
  s.foldl (fun acc c => acc * 10 + (c.toNat - 48)) 0

/-- Go `n, _ := strconv.Atoi(s)` for a string `s` of decimal digits, the only
strings the diff parser gives it: 0 for the empty string (a syntax error),
the largest `int` when the number does not fit (a range error). -/
def Atoi (s : Str) : Int :=
  if decimalValue s ≤ maxInt then (decimalValue s : Int) else (maxInt : Int)

/-- Go `n++` on an `int`: wraps around at the largest value. -/
def incr (n : Int) : Int :=
  if n = (maxInt : Int) then -(maxInt : Int) - 1 else n + 1

/-- The variables of the loop of `parseFileDiff`. -/
structure DiffState where
  /-- The slice `fileDiff.Hunks`. -/
  hunks : List DiffHunk
  currentHunk : Option DiffHunk
  oldLineNum : Int
  newLineNum : Int
deriving DecidableEq

/-- One turn of the loop of `parseFileDiff`. -/
def diffStep (st : DiffState) (line : Str) : DiffState :=
  if HasPrefix line "@@".toList then
    let hunks :=
      match st.currentHunk with
      | some h => st.hunks ++ [h]
      | none => st.hunks
    match findHeader line with
    | some (m1, m2, m3, m4, _) =>
      let oldStart := Atoi m1
      let newStart := Atoi m3
      let oldLines := Atoi m2
      let newLines := Atoi m4
      let oldLines := if oldLines = 0 then 1 else oldLines
      let newLines := if newLines = 0 then 1 else newLines
      { hunks := hunks
        currentHunk := some
          { OldStart := oldStart, OldLines := oldLines, NewStart := newStart
            NewLines := newLines, Header := line, Lines := some [] }
        oldLineNum := oldStart
        newLineNum := newStart }
    | none => { st with hunks := hunks }
  else
    match st.currentHunk with
    | none => st
    | some h =>
      if !HasPrefix line "diff".toList && !HasPrefix line "index".toList &&
          !HasPrefix line "+++".toList && !HasPrefix line "---".toList then
        if HasPrefix line "-".toList then
          { st with
            currentHunk := some { h with Lines := some (h.Lines.elems ++
              [{ Type_ := "deletion".toList, Content := line
                 OldNum := st.oldLineNum, NewNum := 0 }]) }
            oldLineNum := incr st.oldLineNum }
        else if HasPrefix line "+".toList then
          { st with
            currentHunk := some { h with Lines := some (h.Lines.elems ++
              [{ Type_ := "addition".toList, Content := line
                 OldNum := 0, NewNum := st.newLineNum }]) }
            newLineNum := incr st.newLineNum }
        else if HasPrefix line " ".toList || line.isEmpty then
          { st with
            currentHunk := some { h with Lines := some (h.Lines.elems ++
              [{ Type_ := "context".toList, Content := line
                 OldNum := st.oldLineNum, NewNum := st.newLineNum }]) }
            oldLineNum := incr st.oldLineNum
            newLineNum := incr st.newLineNum }
        else st
      else st

/-- The hunks `parseFileDiff` reads from the lines of a diff: the loop, and
the flush of the last open hunk after it. -/
def parseHunks (lines : List Str) : List DiffHunk :=
  let st := lines.foldl diffStep
    { hunks := [], currentHunk := none, oldLineNum := 0, newLineNum := 0 }
  match st.currentHunk with
  | some h => st.hunks ++ [h]
  | none => st.hunks

/-- Go `Service.parseFileDiff`. The result is a non-nil `*FileDiff`. -/
def parseFileDiff (E : Env) (s : Service) (diffOutput filePath hash : Str) :
    Ret (Option FileDiff) × Service :=
  let lines := Split diffOutput "\n".toList
  let parentHash := hash ++ "^".toList
  let n :=
    if hash = "uncommitted".toList then GetFileContent E s "uncommitted".toList filePath
    else GetFileContent E s hash filePath
  let o :=
    if hash = "uncommitted".toList then GetFileContent E n.2 "HEAD".toList filePath
    else GetFileContent E n.2 parentHash filePath
  ((some
    { Path := filePath, OldPath := [], Status := [], Additions := 0, Deletions := 0
      Hunks := some (parseHunks lines)
      OldContent := o.1.1
      NewContent := n.1.1 }, none), o.2)

/-- The diff text `GetFileDiff` makes up for an untracked file with the lines `content`. -/
def syntheticDiff (filePath : Str) (content : List Str) : Str :=
  let output := "diff --git a/".toList ++ filePath ++ " b/".toList ++ filePath ++
    "\nnew file mode 100644\nindex 0000000..1234567\n--- /dev/null\n+++ b/".toList ++ filePath ++
    "\n@@ -0,0 +1,".toList ++ fmtInt content.length ++ " @@\n".toList
  content.foldl (fun output line => output ++ "+".toList ++ line ++ "\n".toList) output

/-- The hash of the empty tree. -/
def emptyTree : Str := "4b825dc642cb6eb9a060e54bf8d69288fbee4904".toList

/-- Go `Service.GetFileDiff`. -/
def GetFileDiff (E : Env) (s : Service) (hash filePath : Str) :
    Ret (Option FileDiff) × Service :=
  if hash = "uncommitted".toList then
    let r := runGitCommand E s ["diff".toList, "HEAD".toList, "--".toList, filePath]
    match r.1.2 with
    | some e => ((none, some e), r.2)
    | none =>
      if (TrimSpace r.1.1).isEmpty then
        let st := runGitCommand E r.2
          ["status".toList, "--porcelain".toList, "--".toList, filePath]
        if st.1.2.isNone && HasPrefix (TrimSpace st.1.1) "??".toList then
          let c := GetFileContent E st.2 "uncommitted".toList filePath
          match c.1.2 with
          | none => parseFileDiff E c.2 (syntheticDiff filePath c.1.1.elems) filePath hash
          | some _ => parseFileDiff E c.2 r.1.1 filePath hash
        else parseFileDiff E st.2 r.1.1 filePath hash
      else parseFileDiff E r.2 r.1.1 filePath hash
  else
    let r := runGitCommand E s
      ["diff".toList, hash ++ "^".toList, hash, "--".toList, filePath]
    match r.1.2 with
    | none => parseFileDiff E r.2 r.1.1 filePath hash
    | some _ =>
      let r2 := runGitCommand E r.2 ["diff".toList, emptyTree, hash, "--".toList, filePath]
      match r2.1.2 with
      | some e => ((none, some e), r2.2)
      | none => parseFileDiff E r2.2 r2.1.1 filePath hash

/-! ## Mutating operations -/

/-- The text `fmt.Sprintf("stash@{%d}", index)` prints. -/
def stashRef (index : Int) : Str :=
  "stash@\x7b".toList ++ fmtInt index ++ "\x7d".toList

/-- Go `Service.CheckoutBranch`. -/
def CheckoutBranch (E : Env) (s : Service) (branch : Str) : Option GoError × Service :=
  let r := runGitCommand E s ["checkout".toList, branch]
  match r.1.2 with
  | none => (none, invalidateBranchesCache r.2)
  | some e => (some e, r.2)

/-- The argument list of `CreateBranch`. -/
def createBranchArgs (branchName startPoint : Str) : List Str :=
  let args := ["checkout".toList, "-b".toList, branchName]
  if startPoint ≠ [] then args ++ [startPoint] else args

/-- Go `Service.CreateBranch`. -/
def CreateBranch (E : Env) (s : Service) (branchName startPoint : Str) :
    Option GoError × Service :=
  let r := runGitCommand E s (createBranchArgs branchName startPoint)
  match r.1.2 with
  | none => (none, invalidateBranchesCache r.2)
  | some e => (some e, r.2)

/-- The argument list of `DeleteBranch`. -/
def deleteBranchArgs (branchName : Str) (force : Bool) : List Str :=
  ["branch".toList, if force then "-D".toList else "-d".toList, branchName]

/-- Go `Service.DeleteBranch`. -/
def DeleteBranch (E : Env) (s : Service) (branchName : Str) (force : Bool) :
    Option GoError × Service :=
  let r := runGitCommand E s (deleteBranchArgs branchName force)
  match r.1.2 with
  | none => (none, invalidateBranchesCache r.2)
  | some e => (some e, r.2)

/-- The argument list of `MergeBranch`. -/
def mergeArgs (branchName : Str) (noFastForward : Bool) : List Str :=
  let args := ["merge".toList]
  let args := if noFastForward then args ++ ["--no-ff".toList] else args
  args ++ [branchName]

/-- Go `Service.MergeBranch`. -/
def MergeBranch (E : Env) (s : Service) (branchName : Str) (noFastForward : Bool) :
    Option GoError × Service :=
  let r := runGitCommand E s (mergeArgs branchName noFastForward)
  (r.1.2, r.2)

/-- Go `Service.RenameBranch`. -/
def RenameBranch (E : Env) (s : Service) (oldName newName : Str) : Option GoError × Service :=
  let r := runGitCommand E s ["branch".toList, "-m".toList, oldName, newName]
  match r.1.2 with
  | none => (none, invalidateBranchesCache r.2)
  | some e => (some e, r.2)

/-- Go `Service.CreateBranchFromStash`. -/
def CreateBranchFromStash (E : Env) (s : Service) (branchName : Str) (stashIndex : Int) :
    Option GoError × Service :=
  let r := runGitCommand E s
    ["stash".toList, "branch".toList, branchName, stashRef stashIndex]
  match r.1.2 with
  | none => (none, invalidateBranchesCache r.2)
  | some e => (some e, r.2)

/-- The argument list of `CreateTag`. -/
def createTagArgs (tagName commitHash message : Str) (annotated : Bool) : List Str :=
  let args := ["tag".toList]
  let args :=
    if annotated && message != [] then args ++ ["-a".toList, tagName, "-m".toList, message]
    else args ++ [tagName]
  if commitHash ≠ [] then args ++ [commitHash] else args

/-- Go `Service.CreateTag`. -/
def CreateTag (E : Env) (s : Service) (tagName commitHash message : Str) (annotated : Bool) :
    Option GoError × Service :=
  let r := runGitCommand E s (createTagArgs tagName commitHash message annotated)
  match r.1.2 with
  | none => (none, invalidateTagsCache r.2)
  | some e => (some e, r.2)

/-- Go `Service.DeleteTag`. -/
def DeleteTag (E : Env) (s : Service) (tagName : Str) : Option GoError × Service :=
  let r := runGitCommand E s ["tag".toList, "-d".toList, tagName]
  match r.1.2 with
  | none => (none, invalidateTagsCache r.2)
  | some e => (some e, r.2)

/-- The argument list of `CreateStash`. -/
def createStashArgs (message : Str) (includeUntracked : Bool) : List Str :=
  let args := ["stash".toList, "push".toList]
  let args := if includeUntracked then args ++ ["-u".toList] else args
  if message ≠ [] then args ++ ["-m".toList, message] else args

/-- Go `Service.CreateStash`. -/
def CreateStash (E : Env) (s : Service) (message : Str) (includeUntracked : Bool) :
    Option GoError × Service :=
  let r := runGitCommand E s (createStashArgs message includeUntracked)
  (r.1.2, r.2)

/-- Go `Service.ApplyStash`. -/
def ApplyStash (E : Env) (s : Service) (index : Int) : Option GoError × Service :=
  let r := runGitCommand E s ["stash".toList, "apply".toList, stashRef index]
  (r.1.2, r.2)

/-- Go `Service.PopStash`. -/
def PopStash (E : Env) (s : Service) (index : Int) : Option GoError × Service :=
  let r := runGitCommand E s ["stash".toList, "pop".toList, stashRef index]
  (r.1.2, r.2)

/-- Go `Service.DropStash`. -/
def DropStash (E : Env) (s : Service) (index : Int) : Option GoError × Service :=
  let r := runGitCommand E s ["stash".toList, "drop".toList, stashRef index]
  (r.1.2, r.2)

/-- Go `Service.CreateCommit`. -/
def CreateCommit (E : Env) (s : Service) (message : Str) : Ret Str × Service :=
  if message = [] then (([], some GoError.emptyCommitMessage), s)
  else
    let r := runGitCommand E s ["commit".toList, "-m".toList, message]
    match r.1.2 with
    | some e => (([], some e), r.2)
    | none =>
      let h := runGitCommand E r.2 ["rev-parse".toList, "HEAD".toList]
      match h.1.2 with
      | some e => (([], some (GoError.failedToGetCommitHash e)), h.2)
      | none => ((TrimSpace h.1.1, none), h.2)

/-! ## Change summary of a commit -/

/-- Go `strconv.Atoi(s)` with a 64-bit `int`: `none` when it returns an
error (no digit, a character other than a digit after the optional sign, or a
number that does not fit). -/
def strconvAtoi (s : Str) : Option Int :=
  let digits :=
    match s with
    | '+' :: t => t
    | '-' :: t => t
    | _ => s
  if digits = [] ∨ digits.all isDigit = false then none
  else if s.head? = some '-' then
    (if decimalValue digits ≤ maxInt + 1 then some (-(decimalValue digits : Int)) else none)
  else
    (if decimalValue digits ≤ maxInt then some (decimalValue digits : Int) else none)

/-- The count read from a field of a numstat line: 0 for `-` and for a
field `strconv.Atoi` rejects. -/
def numstatCount (field : Str) : Int :=
  if field ≠ "-".toList then
    match strconvAtoi field with
    | some v => v
    | none => 0
  else 0

/-- The body of the numstat loop of `getCommitFileChanges` for a line of at
least three fields `parts`: the change, with the status inferred from the
counts and from what `git show` can read. -/
def numstatChange (E : Env) (s : Service) (hash : Str) (parts : List Str) :
    FileChange × Service :=
  let path := parts.getD 2 []
  let additions := numstatCount (parts.getD 0 [])
  let deletions := numstatCount (parts.getD 1 [])
  if additions > 0 ∧ deletions = 0 then
    let r := runGitCommand E s ["show".toList, hash ++ "^:".toList ++ path]
    ({ Path := path, Status := if r.1.2.isSome then "A".toList else "M".toList
       Additions := additions, Deletions := deletions, OldPath := [] }, r.2)
  else if additions = 0 ∧ deletions > 0 then
    let r := runGitCommand E s ["show".toList, hash ++ ":".toList ++ path]
    ({ Path := path, Status := if r.1.2.isSome then "D".toList else "M".toList
       Additions := additions, Deletions := deletions, OldPath := [] }, r.2)
  else
    ({ Path := path, Status := "M".toList
       Additions := additions, Deletions := deletions, OldPath := [] }, s)

/-- The numstat loop of `getCommitFileChanges`; `changes` holds the changes
appended so far. -/
def numstatLoop (E : Env) (hash : Str) : List Str → Service → List FileChange →
    List FileChange × Service
  | [], s, changes => (changes, s)
  | line :: rest, s, changes =>
    if line = [] then numstatLoop E hash rest s changes
    else
      let parts := Fields line
      if 3 ≤ parts.length then
        let c := numstatChange E s hash parts
        numstatLoop E hash rest c.2 (changes ++ [c.1])
      else numstatLoop E hash rest s changes

/-- The body of the name-status loop of `getCommitFileChanges`. -/
def nameStatusChange (line : Str) : Option FileChange :=
  if line = [] then none
  else
    let parts := Fields line
    if 2 ≤ parts.length then
      let status := parts.getD 0 []
      let path := parts.getD 1 []
      if HasPrefix status "R".toList && decide (3 ≤ parts.length) then
        some { Path := parts.getD 2 [], Status := status, Additions := 0, Deletions := 0
               OldPath := path }
      else
        some { Path := path, Status := status, Additions := 0, Deletions := 0, OldPath := [] }
    else none

/-- Go `Service.getCommitFileChanges`. -/
def getCommitFileChanges (E : Env) (s : Service) (hash : Str) :
    Ret (Slice FileChange) × Service :=
  let r := runGitCommand E s ["show".toList, "--numstat".toList, "--format=".toList, hash]
  match r.1.2 with
  | some _ => ((some [], none), r.2)
  | none =>
    let l := numstatLoop E hash (Split (TrimSpace r.1.1) "\n".toList) r.2 []
    if l.1.length = 0 then
      let n := runGitCommand E l.2
        ["show".toList, "--name-status".toList, "--format=".toList, hash]
      match n.1.2 with
      | some _ => ((some [], none), n.2)
      | none =>
        ((some ((Split (TrimSpace n.1.1) "\n".toList).filterMap nameStatusChange), none), n.2)
    else ((some l.1, none), l.2)

/-! ## Commits of a tag, details of a commit -/

/-- The argument list `GetCommitsByTagWithOffset` builds for `git`. -/
def tagLogArgs (tagName : Str) (limit offset : Int) : List Str :=
  let args : List Str :=
    ["log".toList, "--pretty=format:%H|%h|%s|%an|%ae|%ad|%cd|%P".toList, "--date=iso".toList]
  let args := if offset > 0 then args ++ ["--skip=".toList ++ fmtInt offset] else args
  let args := if limit > 0 then args ++ ['-' :: fmtInt limit] else args
  args ++ [tagName]

/-- Go `Service.GetCommitsByTagWithOffset`. Its loop over the lines of the
output is, statement for statement, the loop of `GetCommitsWithOffset`. -/
def GetCommitsByTagWithOffset (E : Env) (s : Service) (tagName : Str) (limit offset : Int) :
    Except Panic (Ret (Slice Commit)) × Service :=
  let r := runGitCommandWithTimeout E s (10 * Second) (tagLogArgs tagName limit offset)
  match r.1.2 with
  | some _ => (Except.ok (some [], none), r.2)
  | none =>
    let lines := Split r.1.1 "\n".toList
    let l := commitsLoop E lines r.2 []
    match l.1 with
    | Except.error p => (Except.error p, l.2)
    | Except.ok commits => (Except.ok (some commits, none), l.2)

/-- Go `Service.GetCommitDetails`. The whole output is split on the vertical
bar; `parts[7]` is read behind the guard `len(parts) < 7` only. -/
def GetCommitDetails (E : Env) (s : Service) (hash : Str) :
    Except Panic (Ret (Option Commit)) × Service :=
  let r := runGitCommand E s
    ["log".toList, "--pretty=format:%H|%h|%s|%an|%ae|%ad|%cd|%P".toList, "--date=iso".toList,
     "-1".toList, hash]
  match r.1.2 with
  | some e => (Except.ok (none, some e), r.2)
  | none =>
    let parts := Split r.1.1 "|".toList
    if parts.length < 7 then (Except.ok (none, some GoError.invalidCommitFormat), r.2)
    else
      let date := parseTimeOrZero E (parts.getD 5 [])
      let commitDate := parseTimeOrZero E (parts.getD 6 [])
      match parts[7]? with
      | none => (Except.error (Panic.indexOutOfRange 7 parts.length), r.2)
      | some parentsField =>
        let parents : Slice Str :=
          if parentsField ≠ [] then some (Split parentsField " ".toList) else some []
        let refs := getCommitRefs E r.2 (parts.getD 0 [])
        let fc := getCommitFileChanges E refs.2 hash
        let commit : Commit :=
          { Hash := parts.getD 0 []
            ShortHash := parts.getD 1 []
            Message := parts.getD 2 []
            Author := { Name := parts.getD 3 [], Email := parts.getD 4 [] }
            Committer := { Name := parts.getD 3 [], Email := parts.getD 4 [] }
            Date := date
            CommitDate := commitDate
            Parents := parents
            Refs := refs.1.1
            Stats := { FilesChanged := 0, Additions := 0, Deletions := 0 }
            FileChanges := match fc.1.2 with
              | none => fc.1.1
              | some _ => none
            IsUncommitted := false }
        (Except.ok (some commit, none), fc.2)

/-! ## Saving a file of the working tree -/

/-- Go `strings.Join(elems, sep)`. -/
def Join : List Str → Str → Str
  | [], _ => []
  | [a], _ => a
  | a :: b :: rest, sep => a ++ sep ++ Join (b :: rest) sep

/-- The text `SaveFileContent` writes for the lines `content`. -/
def fileText (content : Slice Str) : Str :=
  let fileContent := Join content.elems "\n".toList
  if content.len > 0 then fileContent ++ "\n".toList else fileContent

/-- Go `Service.SaveFileContent`. -/
def SaveFileContent (E : Env) (s : Service) (filePath : Str) (content : Slice Str) :
    Option GoError × Service :=
  let s1 := { s with trace := s.trace ++ [Event.mkdirAll s.repoPath filePath] }
  match E.mkdirAll s.trace.length s.repoPath filePath with
  | some e => (some (GoError.failedToCreateDirectory e), s1)
  | none =>
    let s2 := { s1 with
      trace := s1.trace ++ [Event.writeFile s.repoPath filePath (fileText content)] }
    match E.writeFile s1.trace.length s.repoPath filePath (fileText content) with
    | some e => (some (GoError.failedToWriteFile e), s2)
    | none => (none, s2)

/-! ## The gait of a commit list (`internal/api/handlers.go`) -/

structure GaitPoint where
  X : Int
  Y : Int
deriving DecidableEq

structure GaitLine where
  From : GaitPoint
  To : GaitPoint
  Color : Str
deriving DecidableEq

structure CommitGait where
  Points : Slice GaitPoint
  Lines : Slice GaitLine
  Width : Int
  Height : Int
deriving DecidableEq

/-- The slice `colors` of `generateSimpleGait`. -/
def gaitColors : List Str :=
  ["#007acc".toList, "#bc3fbc".toList, "#00bc00".toList, "#bc7c00".toList, "#bc0000".toList,
   "#00bcbc".toList]

/-- One turn of the loop of `generateSimpleGait`, for the index `i`: the slices
`points` and `lines` after it, or the panic of an index out of range. -/
def gaitStep (st : Except Panic (List GaitPoint × List GaitLine)) (i : Nat) :
    Except Panic (List GaitPoint × List GaitLine) :=
  match st with
  | Except.error p => Except.error p
  | Except.ok (points, lines) =>
    if i < points.length then
      let points := points.set i { X := 0, Y := i }
      if i > 0 then
        match gaitColors[i % gaitColors.length]? with
        | none => Except.error (Panic.indexOutOfRange (i % gaitColors.length) gaitColors.length)
        | some color =>
          Except.ok (points, lines ++
            [{ From := { X := 0, Y := (i : Int) - 1 }, To := { X := 0, Y := i }, Color := color }])
      else Except.ok (points, lines)
    else Except.error (Panic.indexOutOfRange i points.length)

/-- Go `Handler.generateSimpleGait`. The slice `lines` is made with the
capacity `len(commits)-1`, and `make` panics when a capacity is negative. -/
def generateSimpleGait (commits : Slice Commit) : Except Panic CommitGait :=
  if (commits.len : Int) - 1 < 0 then
    Except.error (Panic.makesliceCapOutOfRange ((commits.len : Int) - 1))
  else
    match (List.range commits.len).foldl gaitStep
        (Except.ok (List.replicate commits.len { X := 0, Y := 0 }, [])) with
    | Except.error p => Except.error p
    | Except.ok (points, lines) =>
      Except.ok { Points := some points, Lines := some lines, Width := 1, Height := commits.len }

/-! ## Stashes and uncommitted changes -/

structure Stash where
  Index : Int
  Message : Str
  Branch : Str
  Hash : Str
  Date : Time
  BaseHash : Str
  HasUntracked : Bool
deriving DecidableEq

/-- Go `strings.Contains(s, substr)`. -/
def Contains : Str → Str → Bool
  | [], substr => substr.isPrefixOf []
  | c :: cs, substr => substr.isPrefixOf (c :: cs) || Contains cs substr

/-- The first submatch of the pattern `On ([^:]+):` matched at the start of
`s`: the longest run of characters other than a colon after `On `, which must
not be empty and must be followed by a colon. -/
def matchOnAt (s : Str) : Option Str :=
  match dropLiteral "On ".toList s with
  | none => none
  | some rest =>
    let g := rest.takeWhile (fun c => c ≠ ':')
    if g = [] then none
    else
      match rest.dropWhile (fun c => c ≠ ':') with
      | ':' :: _ => some g
      | _ => none

/-- Go `re.FindStringSubmatch(message)` for the pattern `On ([^:]+):`: the
first submatch of the leftmost match, `none` when there is no match. -/
def findOn : Str → Option Str
  | [] => none
  | c :: cs =>
    match matchOnAt (c :: cs) with
    | some g => some g
    | none => findOn cs

/-- The loop of `GetStashes` over the lines of the output; `i` is the index of
the line, `stashes` holds the stashes appended so far, and `clock i` is the
reading of `time.Now()` taken for the line `i`. -/
def stashesLoop (clock : Nat → Time) : List Str → Nat → List Stash → List Stash
  | [], _, stashes => stashes
  | line :: rest, i, stashes =>
    if line = [] then stashesLoop clock rest (i + 1) stashes
    else
      let parts := Split line "|".toList
      if parts.length < 2 then stashesLoop clock rest (i + 1) stashes
      else
        let message := parts.getD 1 []
        let branch :=
          if Contains message "On ".toList then
            match findOn message with
            | some g => g
            | none => "main".toList
          else "main".toList
        let stash : Stash :=
          { Index := i, Message := message, Branch := branch, Hash := stashRef i
            Date := clock i, BaseHash := [], HasUntracked := false }
        stashesLoop clock rest (i + 1) (stashes ++ [stash])

/-- Go `Service.GetStashes`. -/
def GetStashes (E : Env) (s : Service) (clock : Nat → Time) : Ret (Slice Stash) × Service :=
  let r := runGitCommand E s
    ["stash".toList, "list".toList, "--format=%gd|%gs|%gD|%gt".toList]
  match r.1.2 with
  | some _ => ((some [], none), r.2)
  | none =>
    if (TrimSpace r.1.1).isEmpty then ((some [], none), r.2)
    else ((some (stashesLoop clock (Split r.1.1 "\n".toList) 0 []), none), r.2)

/-- Go `strings.ToLower`. -/
def ToLower (E : Env) (s : Str) : Str :=
  s.map E.lower

/-- The loops of `GetUncommittedChanges` over the numstat lines of the staged
(`cached`) and of the unstaged changes. The two are the same but for the flag
`--cached` of the status command and for the start of the status. -/
def changesLoop (E : Env) (cached : Bool) : List Str → Service → List FileChange →
    List FileChange × Service
  | [], s, changes => (changes, s)
  | line :: rest, s, changes =>
    if line = [] then changesLoop E cached rest s changes
    else
      let parts := Fields line
      if 3 ≤ parts.length then
        let path := parts.getD 2 []
        let additions := numstatCount (parts.getD 0 [])
        let deletions := numstatCount (parts.getD 1 [])
        let r := runGitCommand E s
          (if cached then
            ["diff".toList, "--cached".toList, "--name-status".toList, "--".toList, path]
           else ["diff".toList, "--name-status".toList, "--".toList, path])
        let status :=
          if r.1.1 ≠ [] then
            match Fields r.1.1 with
            | [] => "M".toList
            | p :: _ => p
          else "M".toList
        let change : FileChange :=
          { Path := path
            Status := (if cached then "staged-".toList else "unstaged-".toList)
              ++ ToLower E status
            Additions := additions, Deletions := deletions, OldPath := [] }
        changesLoop E cached rest r.2 (changes ++ [change])
      else changesLoop E cached rest s changes

/-- The loop of `GetUncommittedChanges` over the untracked files. -/
def untrackedLoop (E : Env) : List Str → Service → List FileChange →
    List FileChange × Service
  | [], s, changes => (changes, s)
  | line :: rest, s, changes =>
    if line = [] then untrackedLoop E rest s changes
    else
      let s1 := { s with trace := s.trace ++ [Event.readFile s.repoPath line] }
      let additions : Int :=
        match E.readFile s.trace.length s.repoPath line with
        | Except.ok content => (Split content "\n".toList).length
        | Except.error _ => 0
      untrackedLoop E rest s1
        (changes ++ [{ Path := line, Status := "untracked".toList, Additions := additions
                       Deletions := 0, OldPath := [] }])

/-- Go `Service.GetUncommittedChanges`. -/
def GetUncommittedChanges (E : Env) (s : Service) : Ret (Slice FileChange) × Service :=
  let staged := runGitCommand E s ["diff".toList, "--cached".toList, "--numstat".toList]
  let a :=
    if staged.1.2.isNone && decide (staged.1.1 ≠ []) then
      changesLoop E true (Split staged.1.1 "\n".toList) staged.2 []
    else ([], staged.2)
  let unstaged := runGitCommand E a.2 ["diff".toList, "--numstat".toList]
  let b :=
    if unstaged.1.2.isNone && decide (unstaged.1.1 ≠ []) then
      changesLoop E false (Split unstaged.1.1 "\n".toList) unstaged.2 a.1
    else (a.1, unstaged.2)
  let untracked := runGitCommand E b.2
    ["ls-files".toList, "--others".toList, "--exclude-standard".toList]
  let c :=
    if untracked.1.2.isNone && decide (untracked.1.1 ≠ []) then
      untrackedLoop E (Split untracked.1.1 "\n".toList) untracked.2 b.1
    else (b.1, untracked.2)
  ((some c.1, none), c.2)

/-! ## The aggregation endpoint (`Handler.GetAllData`) -/

/-- What a goroutine of `GetAllData` sends: its result on its own channel, or
the error on the error channel. -/
inductive Message
  | commits (v : Slice Commit)
  | branches (v : Slice Branch)
  | tags (v : Slice Tag)
  | stashes (v : Slice Stash)
  | remotes (v : Slice Remote)
  | uncommittedChanges (v : Slice FileChange)
  | err (e : GoError)
deriving DecidableEq

/-- The struct `result` of `GetAllData`. -/
structure AllResult where
  commits : Slice Commit
  branches : Slice Branch
  tags : Slice Tag
  stashes : Slice Stash
  remotes : Slice Remote
  uncommittedChanges : Slice FileChange
  err : Option GoError
deriving DecidableEq

/-- The zero value `var res result`. -/
def emptyResult : AllResult :=
  { commits := none, branches := none, tags := none, stashes := none, remotes := none
    uncommittedChanges := none, err := none }

/-- The collection loop `for completed < 6 { select ... }` of `GetAllData`,
for the messages in the order in which the `select` receives them: the result
sent on, or `none` when the loop waits for a message that never comes. -/
def collectLoop : List Message → AllResult → Nat → Option AllResult
  | [], res, completed => if completed < 6 then none else some res
  | m :: ms, res, completed =>
    if completed < 6 then
      match m with
      | Message.commits v => collectLoop ms { res with commits := v } (completed + 1)
      | Message.branches v => collectLoop ms { res with branches := v } (completed + 1)
      | Message.tags v => collectLoop ms { res with tags := v } (completed + 1)
      | Message.stashes v => collectLoop ms { res with stashes := v } (completed + 1)
      | Message.remotes v => collectLoop ms { res with remotes := v } (completed + 1)
      | Message.uncommittedChanges v =>
        collectLoop ms { res with uncommittedChanges := v } (completed + 1)
      | Message.err e => some { res with err := some e }
    else some res

/-- The message of a goroutine of `GetAllData` for the result of its fetch. -/
def messageOf {α : Type} (data : α → Message) (r : Ret α) : Message :=
  match r.2 with
  | some e => Message.err e
  | none => data r.1

/-- The six fetches of `GetAllData`, run one after the other in the order in
which their goroutines are started (one of the schedules), and the messages
they send. A panic in a goroutine ends the program. `times` gives the clock
readings of the cache tests, `clock` those of `GetStashes`. -/
def fetchAll (E : Env) (s : Service) (limit : Int) (times : Nat → Instant)
    (clock : Nat → Time) : Except Panic (List Message) × Service :=
  let c := GetCommitsWithOffset E s limit 0 [] false
  match c.1 with
  | Except.error p => (Except.error p, c.2)
  | Except.ok rc =>
    let b := GetBranches E c.2 (times 0) (times 1)
    let t := GetTags E b.2 (times 2) (times 3)
    match t.1 with
    | Except.error p => (Except.error p, t.2)
    | Except.ok rt =>
      let st := GetStashes E t.2 clock
      let r := GetRemotes E st.2 (times 4) (times 5)
      let u := GetUncommittedChanges E r.2
      (Except.ok
        [messageOf Message.commits rc, messageOf Message.branches b.1,
         messageOf Message.tags rt, messageOf Message.stashes st.1,
         messageOf Message.remotes r.1, messageOf Message.uncommittedChanges u.1], u.2)

/-- The goroutine of `GetAllData` that fetches and collects: the result it
sends on. `arrival` puts the messages in the order in which the `select` of
the collection loop receives them. -/
def collectAllData (E : Env) (s : Service) (limit : Int) (times : Nat → Instant)
    (clock : Nat → Time) (arrival : List Message → List Message) :
    Except Panic (Option AllResult) × Service :=
  let f := fetchAll E s limit times clock
  match f.1 with
  | Except.error p => (Except.error p, f.2)
  | Except.ok msgs => (Except.ok (collectLoop (arrival msgs) emptyResult 0), f.2)

/-! ## Specification helpers -/

/-- The `i`-th field of a log line, fields being separated by a vertical bar. -/
def field (line : Str) (i : Nat) : Str :=
  (Split line "|".toList).getD i []

/-- The number of fields of a log line. -/
def fieldCount (line : Str) : Nat :=
  (Split line "|".toList).length

/-- The lines the loop of `GetCommitsWithOffset` does not skip. -/
def keptLine (line : Str) : Bool :=
  decide (line ≠ []) && decide (7 ≤ fieldCount line)

/-- The parent list read from the eighth field of a log line. -/
def parentsOfField (f : Str) : Slice Str :=
  if f ≠ [] then some (Split f " ".toList) else some []

/-- The commit read from a log line of at least eight fields, decoration refs left out. -/
def commitOfLine (E : Env) (line : Str) : Commit :=
  { Hash := field line 0
    ShortHash := field line 1
    Message := field line 2
    Author := { Name := field line 3, Email := field line 4 }
    Committer := { Name := field line 3, Email := field line 4 }
    Date := parseTimeOrZero E (field line 5)
    CommitDate := parseTimeOrZero E (field line 6)
    Parents := parentsOfField (field line 7)
    Refs := none
    Stats := { FilesChanged := 0, Additions := 0, Deletions := 0 }
    FileChanges := none
    IsUncommitted := false }

/-- Forget the decoration refs of a commit. -/
def Commit.dropRefs (c : Commit) : Commit :=
  { c with Refs := none }

/-- The argument list of the log command, in the words of the specification:
the fixed head, the skip count when the offset is positive, the count cap
when the limit is positive, then `--all` when every ref is asked for, and
else the branch when one is named. -/
def logArgsSpec (limit offset : Int) (branch : Str) (all : Bool) : List Str :=
  ["log".toList, "--pretty=format:%H|%h|%s|%an|%ae|%ad|%cd|%P".toList, "--date=iso".toList]
    ++ (if offset > 0 then ["--skip=".toList ++ fmtInt offset] else [])
    ++ (if limit > 0 then ["-".toList ++ fmtInt limit] else [])
    ++ (if all then ["--all".toList] else if branch ≠ [] then [branch] else [])

/-! ## Example environments and the vocabulary of the statements -/

/-- An environment whose `git` prints `out` on every run. -/
def constEnv (out : Str) : Env :=
  { git := fun _ _ => { elapsed := 0, err := none, stdout := out, combined := out }
    readFile := fun _ _ _ => Except.error []
    timeParse := fun _ _ => none
    rangeOrder := fun rs => rs }

/-- The log line of end-to-end scenario 1. -/
def scenarioLine : Str :=
  "abc123|abc12|Fix bug|Jane|jane@x.com|2024-01-01 10:00:00 +0000|2024-01-01 10:00:00 +0000|".toList

/-- The service after a first call of `GetBranches`, at the instant 5, in a
repository without commits: `git branch -v` printed nothing, and the empty
list was stored with an expiry 30 seconds ahead. -/
def emptyFreshService : Service :=
  (GetBranches (constEnv []) (NewService []) 5 5).2

/-- The service with the cached data of the three categories dropped. -/
def dropSnapshots (s : Service) : Service :=
  { s with cache := { s.cache with branches := none, tags := none, remotes := none } }

/-- A service whose three categories are cached and fresh until the instant 100. -/
def warmService : Service :=
  { repoPath := []
    cache :=
      { branches := some [{ Name := "main".toList, Hash := "abc123".toList, IsRemote := false
                            IsCurrent := true, Upstream := [] }]
        tags := some [{ Name := "v1".toList, Hash := "abc123".toList, Type_ := "commit".toList
                        Message := [], Tagger := { Name := [], Email := [] }
                        Date := zeroTime, TargetHash := [] }]
        remotes := some [{ Name := "origin".toList, FetchURL := "u".toList, PushURL := "u".toList }]
        branchesExpiry := 100, tagsExpiry := 100, remotesExpiry := 100
        cacheDuration := 30 * Second }
    trace := [] }

/-- Whether a recorded line belongs to the old side of its hunk. -/
def DiffLine.onOldSide (l : DiffLine) : Bool :=
  decide (l.Type_ = "deletion".toList) || decide (l.Type_ = "context".toList)

/-- Whether a recorded line belongs to the new side of its hunk. -/
def DiffLine.onNewSide (l : DiffLine) : Bool :=
  decide (l.Type_ = "addition".toList) || decide (l.Type_ = "context".toList)

/-- The number of recorded lines of type deletion or context. -/
def DiffHunk.oldCount (h : DiffHunk) : Nat :=
  (h.Lines.elems.filter DiffLine.onOldSide).length

/-- The number of recorded lines of type addition or context. -/
def DiffHunk.newCount (h : DiffHunk) : Nat :=
  (h.Lines.elems.filter DiffLine.onNewSide).length

/-- The old line numbers of the recorded lines that have one. -/
def DiffHunk.oldNums (h : DiffHunk) : List Int :=
  (h.Lines.elems.filter DiffLine.onOldSide).map DiffLine.OldNum

/-- The new line numbers of the recorded lines that have one. -/
def DiffHunk.newNums (h : DiffHunk) : List Int :=
  (h.Lines.elems.filter DiffLine.onNewSide).map DiffLine.NewNum

/-- An environment with an untracked file `f.txt` holding the one line `a`:
`git diff` prints nothing, `git status --porcelain` reports the file as
untracked, no revision has the file. -/
def untrackedEnv : Env :=
  { git := fun _ args =>
      if args.head? = some "diff".toList then
        { elapsed := 0, err := none, stdout := [], combined := [] }
      else if args.head? = some "status".toList then
        { elapsed := 0, err := none, stdout := "?? f.txt\n".toList
          combined := "?? f.txt\n".toList }
      else
        { elapsed := 0, err := some "exit status 128".toList, stdout := []
          combined := "fatal: path does not exist".toList }
    readFile := fun _ _ _ => Except.ok "a\n".toList
    timeParse := fun _ _ => none
    rangeOrder := fun rs => rs }

/-- The diff text of end-to-end scenario 2. -/
def scenarioDiff : Str :=
  "@@ -10,3 +10,4 @@\n unchanged\n-removed\n+added one\n+added two".toList

/-- A line of the body of a hunk, by its kind. -/
inductive BodyLine
  /-- A space followed by `text`. -/
  | context (text : Str)
  /-- The empty line. -/
  | blank
  /-- A minus sign followed by `text`. -/
  | deletion (text : Str)
  /-- A plus sign followed by `text`. -/
  | addition (text : Str)
  /-- A backslash followed by `text`, as in `\ No newline at end of file`. -/
  | marker (text : Str)
deriving DecidableEq

/-- The text of a body line. -/
def BodyLine.render : BodyLine → Str
  | BodyLine.context t => ' ' :: t
  | BodyLine.blank => []
  | BodyLine.deletion t => '-' :: t
  | BodyLine.addition t => '+' :: t
  | BodyLine.marker t => '\\' :: t

/-- A body line the parser does not take for a line of the file header: a
deletion whose text does not start with two minus signs, an addition whose
text does not start with two plus signs, or a line of another kind. -/
def BodyLine.plain : BodyLine → Bool
  | BodyLine.deletion t => !HasPrefix t "--".toList
  | BodyLine.addition t => !HasPrefix t "++".toList
  | _ => true

/-- Body lines of the old side: context lines and deletions. -/
def BodyLine.onOld : BodyLine → Bool
  | BodyLine.context _ => true
  | BodyLine.blank => true
  | BodyLine.deletion _ => true
  | _ => false

/-- Body lines of the new side: context lines and additions. -/
def BodyLine.onNew : BodyLine → Bool
  | BodyLine.context _ => true
  | BodyLine.blank => true
  | BodyLine.addition _ => true
  | _ => false

/-- The entry recorded for a body line met with the counters `o` and `n`. -/
def BodyLine.record (o n : Int) : BodyLine → List DiffLine
  | BodyLine.context t =>
    [{ Type_ := "context".toList, Content := ' ' :: t, OldNum := o, NewNum := n }]
  | BodyLine.blank => [{ Type_ := "context".toList, Content := [], OldNum := o, NewNum := n }]
  | BodyLine.deletion t =>
    [{ Type_ := "deletion".toList, Content := '-' :: t, OldNum := o, NewNum := 0 }]
  | BodyLine.addition t =>
    [{ Type_ := "addition".toList, Content := '+' :: t, OldNum := 0, NewNum := n }]
  | BodyLine.marker _ => []

/-- The old counter after a body line. -/
def BodyLine.nextOld (o : Int) (bl : BodyLine) : Int :=
  if bl.onOld then incr o else o

/-- The new counter after a body line. -/
def BodyLine.nextNew (n : Int) (bl : BodyLine) : Int :=
  if bl.onNew then incr n else n

/-- The entries recorded for the body of a hunk whose counters start at `o` and `n`. -/
def numberLines : Int → Int → List BodyLine → List DiffLine
  | _, _, [] => []
  | o, n, bl :: rest => bl.record o n ++ numberLines (bl.nextOld o) (bl.nextNew n) rest

/-- The text of a hunk: the numbers of its header as they are written, a
length being `none` when the header omits it, and the lines of its body. -/
structure HunkText where
  oldStart : Str
  oldLen : Option Str
  newStart : Str
  newLen : Option Str
  /-- What follows the closing `@@` on the header line. -/
  trailer : Str
  body : List BodyLine

/-- The text of a length in a header: nothing, or a comma and the digits. -/
def lenText : Option Str → Str
  | none => []
  | some b => ',' :: b

/-- The header line of a hunk. -/
def HunkText.header (h : HunkText) : Str :=
  "@@ -".toList ++ (h.oldStart ++ (lenText h.oldLen ++ (" +".toList ++
    (h.newStart ++ (lenText h.newLen ++ (" @@".toList ++ h.trailer))))))

/-- The lines of a hunk: its header, then its body. -/
def HunkText.lines (h : HunkText) : List Str :=
  h.header :: h.body.map BodyLine.render

/-- The length a header declares: 1 when it omits the length. -/
def declaredLen : Option Str → Int
  | none => 1
  | some b => Atoi b

/-- The length `parseFileDiff` stores for a length written `b`. -/
def storedLen (b : Option Str) : Int :=
  if Atoi (b.getD []) = 0 then 1 else Atoi (b.getD [])

/-- The hunk `parseFileDiff` reads from the text of a hunk. -/
def HunkText.hunk (h : HunkText) : DiffHunk :=
  { OldStart := Atoi h.oldStart
    OldLines := storedLen h.oldLen
    NewStart := Atoi h.newStart
    NewLines := storedLen h.newLen
    Header := h.header
    Lines := some (numberLines (Atoi h.oldStart) (Atoi h.newStart) h.body) }

/-- The numbers of a header are strings of digits, the starts not empty, and
no body line looks like a line of the file header. -/
def HunkText.Legible (h : HunkText) : Prop :=
  h.oldStart ≠ [] ∧ (∀ c ∈ h.oldStart, isDigit c = true) ∧
  h.newStart ≠ [] ∧ (∀ c ∈ h.newStart, isDigit c = true) ∧
  (∀ c ∈ h.oldLen.getD [], isDigit c = true) ∧
  (∀ c ∈ h.newLen.getD [], isDigit c = true) ∧
  (∀ bl ∈ h.body, bl.plain = true)

instance (h : HunkText) : Decidable h.Legible := by
  unfold HunkText.Legible
  infer_instance

/-- The lengths the header of a hunk declares are not zero and are the
numbers of old-side and new-side lines of its body. -/
def HunkText.Balanced (h : HunkText) : Prop :=
  declaredLen h.oldLen ≠ 0 ∧ declaredLen h.oldLen = (h.body.countP BodyLine.onOld : Nat) ∧
  declaredLen h.newLen ≠ 0 ∧ declaredLen h.newLen = (h.body.countP BodyLine.onNew : Nat)

instance (h : HunkText) : Decidable h.Balanced := by
  unfold HunkText.Balanced
  infer_instance

/-- The hunks closed so far together with the open one. -/
def DiffState.flush (st : DiffState) : List DiffHunk :=
  match st.currentHunk with
  | some h => st.hunks ++ [h]
  | none => st.hunks

/-- A diff of two hunks after the lines of a file header; the second hunk
leaves both lengths out. -/
def twoHunkDiff : Str :=
  ("diff --git a/f b/f\nindex 1..2 100644\n--- a/f\n+++ b/f\n" ++
    "@@ -1,2 +1,2 @@ fn\n a\n-b\n+c\n@@ -10 +10 @@\n-x\n+y").toList

/-- The hunks of `twoHunkDiff`. -/
def twoHunkTexts : List HunkText :=
  [{ oldStart := "1".toList, oldLen := some "2".toList, newStart := "1".toList
     newLen := some "2".toList, trailer := " fn".toList
     body := [BodyLine.context "a".toList, BodyLine.deletion "b".toList,
              BodyLine.addition "c".toList] },
   { oldStart := "10".toList, oldLen := none, newStart := "10".toList, newLen := none
     trailer := [], body := [BodyLine.deletion "x".toList, BodyLine.addition "y".toList] }]

/-- The hunk of end-to-end scenario 2, for the texts of its four body lines. -/
def scenarioHunk (c1 c2 c3 c4 : Str) : HunkText :=
  { oldStart := "10".toList, oldLen := some "3".toList, newStart := "10".toList
    newLen := some "4".toList, trailer := []
    body := [BodyLine.context c1, BodyLine.deletion c2, BodyLine.addition c3,
             BodyLine.addition c4] }

/-- The hunk of the diff made up for an untracked file with the lines `content`. -/
def untrackedHunk (content : List Str) : HunkText :=
  { oldStart := "0".toList, oldLen := some "0".toList, newStart := "1".toList
    newLen := some (fmtInt content.length), trailer := []
    body := content.map BodyLine.addition ++ [BodyLine.blank] }

/-- Whether a recorded line is an addition. -/
def DiffLine.isAddition (l : DiffLine) : Bool :=
  decide (l.Type_ = "addition".toList)

/-- An environment whose `git` fails on every run. -/
def failEnv : Env :=
  { git := fun _ _ =>
      { elapsed := 0, err := some "exit status 1".toList, stdout := []
        combined := "fatal: not possible".toList }
    readFile := fun _ _ _ => Except.error []
    timeParse := fun _ _ => none
    rangeOrder := fun rs => rs }

/-- An environment whose `git` needs eleven seconds for every run. -/
def slowEnv : Env :=
  { git := fun _ _ =>
      { elapsed := 11 * Second, err := none, stdout := "h|s|m|n|e|d|c|p".toList
        combined := "h|s|m|n|e|d|c|p".toList }
    readFile := fun _ _ _ => Except.error []
    timeParse := fun _ _ => none
    rangeOrder := fun rs => rs }

/-- An environment in which `git commit` succeeds and `git rev-parse` fails. -/
def revParseFailsEnv : Env :=
  { git := fun _ args =>
      if args.head? = some "rev-parse".toList then
        { elapsed := 0, err := some "exit status 128".toList, stdout := []
          combined := "fatal: bad revision".toList }
      else
        { elapsed := 0, err := none, stdout := "[main abc1234] init".toList
          combined := "[main abc1234] init".toList }
    readFile := fun _ _ _ => Except.error []
    timeParse := fun _ _ => none
    rangeOrder := fun rs => rs }

/-- An environment whose `git` prints the status line of a modified file,
which starts with a space. -/
def porcelainEnv : Env := constEnv " M f.txt\n".toList

/-- An environment for a commit with three numstat rows: `git show --numstat`
prints them, and every other `git show` fails, so that no path can be read
from the parent tree or from the tree of the commit. -/
def numstatEnv : Env :=
  { git := fun _ args =>
      if args.getD 1 [] = "--numstat".toList then
        { elapsed := 0, err := none
          stdout := "3\t0\tnew.txt\n0\t2\told.txt\n1\t1\tmod.txt\n".toList
          combined := "3\t0\tnew.txt\n0\t2\told.txt\n1\t1\tmod.txt\n".toList }
      else
        { elapsed := 0, err := some "exit status 128".toList, stdout := []
          combined := "fatal: path does not exist".toList }
    readFile := fun _ _ _ => Except.error []
    timeParse := fun _ _ => none
    rangeOrder := fun rs => rs }

/-- An environment of a root commit `abc123`: `git diff abc123^ abc123` fails,
as the commit has no parent, and every other run prints the diff of the file
`f.txt`, new with the two lines `a` and `b`. -/
def rootCommitEnv : Env :=
  { git := fun _ args =>
      if args.getD 1 [] = "abc123^".toList then
        { elapsed := 0, err := some "exit status 128".toList, stdout := []
          combined := "fatal: bad revision".toList }
      else
        { elapsed := 0, err := none, stdout := "@@ -0,0 +1,2 @@\n+a\n+b".toList
          combined := "@@ -0,0 +1,2 @@\n+a\n+b".toList }
    readFile := fun _ _ _ => Except.error []
    timeParse := fun _ _ => none
    rangeOrder := fun rs => rs }

/-- What `git tag -l` prints, in the format of `GetTags`, for the lightweight
tag `v1.0` and the annotated tag `v2.0`: the third field, `%(objecttype)`, is
the type of the object the tag name points at. -/
def tagListOutput : Str :=
  "v1.0|abc1234|commit||||\nv2.0|def5678|tag|Release|Jane|jane@x.com|2024-01-01 10:00:00 +0000".toList

/-- An environment whose `git` prints `out` on every run, and whose
`time.Parse` reads the values listed in `good` and fails on every other value. -/
def datedEnv (out : Str) (good : List (Str × Time)) : Env :=
  { git := fun _ _ => { elapsed := 0, err := none, stdout := out, combined := out }
    readFile := fun _ _ _ => Except.error []
    timeParse := fun _ value => (good.find? (fun g => g.1 = value)).map (fun g => g.2)
    rangeOrder := fun rs => rs }

/-- A log of three lines; the author date of the second is not in the format
of `timeLayout` (its month is 13). -/
def badDateLog : Str :=
  ("h1|s1|one|Jane|jane@x.com|2024-01-01 10:00:00 +0000|2024-01-01 10:00:00 +0000|\n" ++
   "h2|s2|two|Jane|jane@x.com|2024-13-01 10:00:00 +0000|2024-01-02 10:00:00 +0000|h1\n" ++
   "h3|s3|three|Jane|jane@x.com|2024-01-03 10:00:00 +0000|2024-01-03 10:00:00 +0000|h2").toList

/-- The values that are in the format of `timeLayout`, among those of `badDateLog`. -/
def goodDates : List (Str × Time) :=
  [("2024-01-01 10:00:00 +0000".toList, 1704103200),
   ("2024-01-02 10:00:00 +0000".toList, 1704189600),
   ("2024-01-03 10:00:00 +0000".toList, 1704276000)]

/-- An environment whose `git` prints the decoration of a commit that is the
tip of `main`, tagged and pushed. -/
def decorationEnv : Env := constEnv "HEAD -> main, tag: v1.0, origin/main\n".toList

/-- The point of the `i`-th commit in the gait. -/
def gaitPoint (i : Nat) : GaitPoint :=
  { X := 0, Y := i }

/-- The line that joins the commit `i` to the commit before it. -/
def gaitLine (i : Nat) : GaitLine :=
  { From := { X := 0, Y := (i : Int) - 1 }, To := { X := 0, Y := i }
    Color := gaitColors.getD (i % 6) [] }

/-- A file system that holds, for every file, the three lines `a`, an empty
line and `b`, as `SaveFileContent` writes them. -/
def savedEnv : Env :=
  { git := fun _ _ => { elapsed := 0, err := none, stdout := [], combined := [] }
    readFile := fun _ _ _ => Except.ok "a\n\nb\n".toList
    timeParse := fun _ _ => none
    rangeOrder := fun rs => rs }

/-- The type `parseFileDiff` gives to a line it meets inside a hunk, `none`
for a line it does not record: the tests of the loop, in their order. -/
def lineKind (line : Str) : Option Str :=
  if !HasPrefix line "diff".toList && !HasPrefix line "index".toList &&
      !HasPrefix line "+++".toList && !HasPrefix line "---".toList then
    if HasPrefix line "-".toList then some "deletion".toList
    else if HasPrefix line "+".toList then some "addition".toList
    else if HasPrefix line " ".toList || line.isEmpty then some "context".toList
    else none
  else none

/-- The type and the content recorded for a line inside a hunk, if it is recorded. -/
def recordedAs (line : Str) : Option (Str × Str) :=
  (lineKind line).map (fun k => (k, line))

/-- The type and the content of a recorded line. -/
def DiffLine.typeAndContent (l : DiffLine) : Str × Str :=
  (l.Type_, l.Content)

/-- A hunk header line and the lines after it, up to the next line that
starts with `@@` or to the end of the input. -/
structure HunkSegment where
  header : Str
  body : List Str

/-- The lines of a segment. -/
def HunkSegment.lines (g : HunkSegment) : List Str :=
  g.header :: g.body

/-- A line that starts with `@@` and in which the hunk-header pattern has a match. -/
def isHunkHeader (line : Str) : Bool :=
  HasPrefix line "@@".toList && (findHeader line).isSome

/-- The recorded lines of a hunk are numbered from its starts: the lines of
the old side carry the start of the old side and its successors under `++`,
in order, the lines of the new side those of the new side; an addition has
no old number, a deletion no new number, and there is no other type. -/
def DiffHunk.Numbered (h : DiffHunk) : Prop :=
  h.oldNums = (List.range h.oldCount).map (fun k => Nat.iterate incr k h.OldStart) ∧
  h.newNums = (List.range h.newCount).map (fun k => Nat.iterate incr k h.NewStart) ∧
  ∀ l ∈ h.Lines.elems,
    (l.Type_ = "context".toList ∨ l.Type_ = "addition".toList ∨ l.Type_ = "deletion".toList) ∧
    (l.Type_ = "addition".toList → l.OldNum = 0) ∧
    (l.Type_ = "deletion".toList → l.NewNum = 0)

/-- The invariant of the loop of `parseFileDiff`: the hunks closed and the
hunk open are numbered from their starts, and the counters are the numbers of
the next lines of the open hunk. -/
def DiffState.Numbered (st : DiffState) : Prop :=
  (∀ h ∈ st.hunks, h.Numbered) ∧
  ∀ h, st.currentHunk = some h →
    h.Numbered ∧ st.oldLineNum = Nat.iterate incr h.oldCount h.OldStart ∧
    st.newLineNum = Nat.iterate incr h.newCount h.NewStart

/-- A diff in which a line that starts with `@@`, without being a hunk
header, follows the first line of a hunk. -/
def strayMarkerDiff : Str :=
  "@@ -1,2 +1,2 @@\n a\n@@ stray\n b".toList

/-- A diff with a deleted line whose text starts with two minus signs, as a
comment line of SQL or Lua does: the diff shows it with three. -/
def dashedLineDiff : Str :=
  "@@ -1,2 +1 @@\n keep\n--- old comment".toList

/-- The lines of `twoHunkDiff` before its first hunk header. -/
def twoHunkPreamble : List Str :=
  ["diff --git a/f b/f".toList, "index 1..2 100644".toList, "--- a/f".toList, "+++ b/f".toList]

/-- The two segments of `twoHunkDiff`. -/
def twoHunkSegments : List HunkSegment :=
  [{ header := "@@ -1,2 +1,2 @@ fn".toList, body := [" a".toList, "-b".toList, "+c".toList] },
   { header := "@@ -10 +10 @@".toList, body := ["-x".toList, "+y".toList] }]

/-- The name, the URL and the kind `GetRemotes` reads from a line of
`git remote -v`: the first two fields, and the third without its brackets;
`none` for a line the loop passes over. -/
def remoteRow (line : Str) : Option (Str × Str × Str) :=
  if line = [] then none
  else if 3 ≤ (Fields line).length then
    some ((Fields line).getD 0 [], (Fields line).getD 1 [],
      Trim ((Fields line).getD 2 []) "()".toList)
  else none

/-- The rows `GetRemotes` reads from the output of `git remote -v`. -/
def remoteRows (output : Str) : List (Str × Str × Str) :=
  (Split output "\n".toList).filterMap remoteRow

/-- The URL of the last row with the name `name` and the kind `kind`, empty
when there is no such row. -/
def lastUrl (rows : List (Str × Str × Str)) (name kind : Str) : Str :=
  rows.foldl (fun u r => if r.1 = name ∧ r.2.2 = kind then r.2.1 else u) []

/-- The map `m` is the one the loop of `GetRemotes` builds from `rows`: one
remote for every name, with the URLs of the last fetch and push rows of the name. -/
def RemoteMapOf (rows : List (Str × Str × Str)) (m : List Remote) : Prop :=
  (m.map Remote.Name).Nodup ∧
  (∀ n, n ∈ m.map Remote.Name ↔ n ∈ rows.map (fun r => r.1)) ∧
  ∀ r ∈ m, r.FetchURL = lastUrl rows r.Name "fetch".toList ∧
    r.PushURL = lastUrl rows r.Name "push".toList

/-- What `git remote -v` prints for two remotes, the second with a push URL
of its own. -/
def remotesOutput : Str :=
  ("origin\thttps://x.org/r.git (fetch)\norigin\thttps://x.org/r.git (push)\n" ++
   "up\thttps://y.org/r.git (fetch)\nup\tssh://y.org/r.git (push)").toList

/-- What `git remote -v` prints for a remote whose URL is a path with a space. -/
def spacedRemoteOutput : Str :=
  "origin\t/srv/my repo.git (fetch)\norigin\t/srv/my repo.git (push)".toList

/-- The rows the numstat loop of `getCommitFileChanges` reads from the output
of `git show --numstat`: the fields, cut at white space, of every line of the
trimmed output that is not empty and has at least three fields, in order. -/
def numstatRows (output : Str) : List (List Str) :=
  ((Split (TrimSpace output) "\n".toList).filter
    (fun l => decide (l ≠ []) && decide (3 ≤ (Fields l).length))).map Fields

/-- Whether the status of a numstat row is decided by a run of `git show`:
additions without deletions, or deletions without additions. -/
def rowProbes (parts : List Str) : Bool :=
  decide (numstatCount (parts.getD 0 []) > 0 ∧ numstatCount (parts.getD 1 []) = 0) ||
  decide (numstatCount (parts.getD 0 []) = 0 ∧ numstatCount (parts.getD 1 []) > 0)

/-- The change of a numstat row, in the words of the specification, when `k`
processes have been run before: the status is `A` when the row has additions,
no deletions, and the path cannot be read from the parent tree; `D` when it
has deletions, no additions, and the path cannot be read from the tree of the
commit; and `M` otherwise. -/
def rowChange (E : Env) (hash : Str) (k : Nat) (parts : List Str) : FileChange :=
  { Path := parts.getD 2 []
    Status :=
      if numstatCount (parts.getD 0 []) > 0 ∧ numstatCount (parts.getD 1 []) = 0 ∧
          (E.git k ["show".toList, hash ++ "^:".toList ++ parts.getD 2 []]).err ≠ none then
        "A".toList
      else if numstatCount (parts.getD 0 []) = 0 ∧ numstatCount (parts.getD 1 []) > 0 ∧
          (E.git k ["show".toList, hash ++ ":".toList ++ parts.getD 2 []]).err ≠ none then
        "D".toList
      else "M".toList
    Additions := numstatCount (parts.getD 0 [])
    Deletions := numstatCount (parts.getD 1 [])
    OldPath := [] }

/-- The changes of the numstat rows, in order, when `k` processes have been
run before the first: a row decided by a run of `git show` moves the count on. -/
def rowChanges (E : Env) (hash : Str) : Nat → List (List Str) → List FileChange
  | _, [] => []
  | k, parts :: rest =>
    rowChange E hash k parts :: rowChanges E hash (k + (if rowProbes parts then 1 else 0)) rest

/-- An environment for a commit with four numstat rows, in which the second
process run after the numstat command succeeds and every other `git show`
fails: the path of the second row can be read, the others cannot. -/
def probeOrderEnv : Env :=
  { git := fun k args =>
      if args.getD 1 [] = "--numstat".toList then
        { elapsed := 0, err := none
          stdout := "3\t0\ta.txt\n2\t0\tb.txt\n1\t1\tc.txt\n0\t4\td.txt\n".toList
          combined := "3\t0\ta.txt\n2\t0\tb.txt\n1\t1\tc.txt\n0\t4\td.txt\n".toList }
      else if k = 2 then
        { elapsed := 0, err := none, stdout := "text".toList, combined := "text".toList }
      else
        { elapsed := 0, err := some "exit status 128".toList, stdout := []
          combined := "fatal: path does not exist".toList }
    readFile := fun _ _ _ => Except.error []
    timeParse := fun _ _ => none
    rangeOrder := fun rs => rs }

/-! ## Theorems -/

/-! ### The history reader -/

/-- On log lines none of which has exactly seven fields the loop of
`GetCommitsWithOffset` finishes, and appends one commit per line it keeps, in order. -/
theorem commitsLoop_ok (E : Env) :
    ∀ (lines : List Str) (s : Service) (acc : List Commit),
      (∀ l ∈ lines, fieldCount l ≠ 7) →
      ∃ cs, (commitsLoop E lines s acc).1 = Except.ok (acc ++ cs) ∧
        cs.map Commit.dropRefs = (lines.filter keptLine).map (commitOfLine E) := by
  intro lines
  induction lines with
  | nil =>
    intro s acc _
    exact ⟨[], by simp [commitsLoop], by simp⟩
  | cons line rest ih =>
    intro s acc h
    have hrest : ∀ l ∈ rest, fieldCount l ≠ 7 := fun l hl => h l (List.mem_cons_of_mem _ hl)
    have hline : fieldCount line ≠ 7 := h line (List.mem_cons_self _ _)
    unfold commitsLoop
    by_cases h0 : line = []
    · obtain ⟨cs, h1, h2⟩ := ih s acc hrest
      refine ⟨cs, ?_, ?_⟩
      · rw [if_pos h0]; exact h1
      · simp [h0, keptLine, h2]
    · by_cases h7 : (Split line "|".toList).length < 7
      · obtain ⟨cs, h1, h2⟩ := ih s acc hrest
        refine ⟨cs, ?_, ?_⟩
        · rw [if_neg h0]; simp only []; rw [if_pos h7]; exact h1
        · have : ¬ 7 ≤ fieldCount line := by unfold fieldCount; omega
          simp [keptLine, this, h2]
      · have h8 : 7 < (Split line "|".toList).length := by
          unfold fieldCount at hline; omega
        have hget : (Split line "|".toList)[7]? = some (field line 7) := by
          unfold field
          rw [List.getD_eq_getElem?_getD, List.getElem?_eq_getElem h8]
          rfl
        rw [if_neg h0]; simp only []; rw [if_neg h7, hget]
        have hk : keptLine line = true := by
          unfold keptLine fieldCount
          rw [Bool.and_eq_true]
          exact ⟨decide_eq_true h0, decide_eq_true (by omega)⟩
        have key : ∀ (S : Service) (C : Commit), C.dropRefs = commitOfLine E line →
            ∃ cs, (commitsLoop E rest S (acc ++ [C])).1 = Except.ok (acc ++ cs) ∧
              cs.map Commit.dropRefs
                = ((line :: rest).filter keptLine).map (commitOfLine E) := by
          intro S C hC
          obtain ⟨cs, h1, h2⟩ := ih S (acc ++ [C]) hrest
          refine ⟨C :: cs, ?_, ?_⟩
          · rw [h1]; simp
          · rw [List.filter_cons_of_pos hk, List.map_cons, List.map_cons, h2, hC]
        exact key _ _ rfl

/-- What `GetCommitsWithOffset` returns when the log command succeeds and no
line of its output has exactly seven fields. -/
theorem GetCommitsWithOffset_ok (E : Env) (s : Service) (limit offset : Int) (branch : Str)
    (showAll : Bool) (output : Str)
    (hrun : (runGitCommandWithTimeout E s (10 * Second)
      (logArgs limit offset branch showAll)).1 = (output, none))
    (h7 : ∀ l ∈ Split output "\n".toList, fieldCount l ≠ 7) :
    ∃ commits, (GetCommitsWithOffset E s limit offset branch showAll).1
        = Except.ok (some commits, none) ∧
      commits.map Commit.dropRefs
        = ((Split output "\n".toList).filter keptLine).map (commitOfLine E) := by
  obtain ⟨cs, h1, h2⟩ := commitsLoop_ok E (Split output "\n".toList)
    (runGitCommandWithTimeout E s (10 * Second) (logArgs limit offset branch showAll)).2 [] h7
  refine ⟨cs, ?_, h2⟩
  unfold GetCommitsWithOffset
  generalize runGitCommandWithTimeout E s (10 * Second) (logArgs limit offset branch showAll)
    = r at hrun h1
  obtain ⟨⟨out, err⟩, s1⟩ := r
  cases hrun
  simp only [] at h1 ⊢
  rw [h1]
  rfl

/-- A list of lines that are all non-empty and have eight fields is kept whole. -/
theorem filter_keptLine_of_wellFormed (lines : List Str)
    (hwf : ∀ l ∈ lines, l ≠ [] ∧ fieldCount l = 8) : lines.filter keptLine = lines := by
  rw [List.filter_eq_self]
  intro l hl
  obtain ⟨h0, h8⟩ := hwf l hl
  unfold keptLine
  rw [Bool.and_eq_true]
  exact ⟨decide_eq_true h0, decide_eq_true (by omega)⟩

/-- C1: when the log output consists of N non-empty lines of exactly eight
fields each, `GetCommitsWithOffset` returns exactly N commits, and the hashes
of the commits are the first fields of the lines, in the order of the lines. -/
theorem GetCommitsWithOffset_one_commit_per_line (E : Env) (s : Service)
    (limit offset : Int) (branch : Str) (showAll : Bool) (output : Str)
    (hrun : (runGitCommandWithTimeout E s (10 * Second)
      (logArgs limit offset branch showAll)).1 = (output, none))
    (hwf : ∀ l ∈ Split output "\n".toList, l ≠ [] ∧ fieldCount l = 8) :
    ∃ commits, (GetCommitsWithOffset E s limit offset branch showAll).1
        = Except.ok (some commits, none) ∧
      commits.length = (Split output "\n".toList).length ∧
      commits.map Commit.Hash = (Split output "\n".toList).map (fun l => field l 0) := by
  obtain ⟨commits, h1, h2⟩ := GetCommitsWithOffset_ok E s limit offset branch showAll output hrun
    (fun l hl => by have := (hwf l hl).2; omega)
  rw [filter_keptLine_of_wellFormed _ hwf] at h2
  refine ⟨commits, h1, ?_, ?_⟩
  · have := congrArg List.length h2
    simpa using this
  · have := congrArg (List.map Commit.Hash) h2
    simpa [List.map_map, Function.comp_def, Commit.dropRefs, commitOfLine] using this

/-- Witness of C1: a log of two well-formed lines gives two commits, hashes in order. -/
theorem GetCommitsWithOffset_one_commit_per_line_witness :
    ∃ commits,
      (GetCommitsWithOffset (constEnv "h1|s1|m|n|e|d|c|p0 p1\nh2|s2|m|n|e|d|c|".toList)
        (NewService []) 10 0 [] true).1 = Except.ok (some commits, none) ∧
      commits.length = (Split "h1|s1|m|n|e|d|c|p0 p1\nh2|s2|m|n|e|d|c|".toList "\n".toList).length ∧
      commits.map Commit.Hash =
        (Split "h1|s1|m|n|e|d|c|p0 p1\nh2|s2|m|n|e|d|c|".toList "\n".toList).map
          (fun l => field l 0) :=
  GetCommitsWithOffset_one_commit_per_line
    (constEnv "h1|s1|m|n|e|d|c|p0 p1\nh2|s2|m|n|e|d|c|".toList) (NewService []) 10 0 [] true
    "h1|s1|m|n|e|d|c|p0 p1\nh2|s2|m|n|e|d|c|".toList (by rfl) (by decide)

/-- C2, as stated, fails: a log line of nine fields (a subject holding a
vertical bar) is not skipped but read as a commit, from its first eight fields. -/
theorem GetCommitsWithOffset_nine_fields_not_skipped :
    fieldCount "h|s|fix a|b|n|e|d|c|p".toList = 9 ∧
    ∃ c, (GetCommitsWithOffset (constEnv "h|s|fix a|b|n|e|d|c|p".toList)
        (NewService []) 0 0 [] false).1 = Except.ok (some [c], none) ∧
      c.Hash = "h".toList ∧ c.Message = "fix a".toList ∧ c.Author.Name = "b".toList := by
  refine ⟨by decide, _, rfl, by decide, by decide, by decide⟩

/-- C2 (amended): when no line of the log output has exactly seven fields,
`GetCommitsWithOffset` does not fail, every empty line and every line of
fewer than seven fields is skipped and contributes no commit, and the
commits returned are those of the other lines, the lines of eight or more
fields, in order, each read from the first eight fields of its line. -/
theorem GetCommitsWithOffset_skips_short_lines (E : Env) (s : Service)
    (limit offset : Int) (branch : Str) (showAll : Bool) (output : Str)
    (hrun : (runGitCommandWithTimeout E s (10 * Second)
      (logArgs limit offset branch showAll)).1 = (output, none))
    (h7 : ∀ l ∈ Split output "\n".toList, fieldCount l ≠ 7) :
    ∃ commits, (GetCommitsWithOffset E s limit offset branch showAll).1
        = Except.ok (some commits, none) ∧
      commits.map Commit.dropRefs
        = ((Split output "\n".toList).filter
            (fun l => decide (l ≠ []) && decide (8 ≤ fieldCount l))).map (commitOfLine E) := by
  obtain ⟨commits, h1, h2⟩ :=
    GetCommitsWithOffset_ok E s limit offset branch showAll output hrun h7
  refine ⟨commits, h1, ?_⟩
  rw [h2]
  congr 1
  apply List.filter_congr
  intro l hl
  have := h7 l hl
  unfold keptLine
  congr 1
  rw [decide_eq_decide]
  omega

/-- Witness of C2 (amended): of the three lines below, of eight, two and nine
fields, the second is skipped and the others give the commits `h1` and `h`. -/
theorem GetCommitsWithOffset_skips_short_lines_witness :
    ∃ commits,
      (GetCommitsWithOffset (constEnv "h1|s1|m|n|e|d|c|p\nx|y\nh|s|fix a|b|n|e|d|c|p".toList)
        (NewService []) 0 0 [] false).1 = Except.ok (some commits, none) ∧
      commits.map Commit.dropRefs
        = ((Split "h1|s1|m|n|e|d|c|p\nx|y\nh|s|fix a|b|n|e|d|c|p".toList "\n".toList).filter
            (fun l => decide (l ≠ []) && decide (8 ≤ fieldCount l))).map
          (commitOfLine (constEnv "h1|s1|m|n|e|d|c|p\nx|y\nh|s|fix a|b|n|e|d|c|p".toList)) :=
  GetCommitsWithOffset_skips_short_lines
    (constEnv "h1|s1|m|n|e|d|c|p\nx|y\nh|s|fix a|b|n|e|d|c|p".toList) (NewService []) 0 0 []
    false "h1|s1|m|n|e|d|c|p\nx|y\nh|s|fix a|b|n|e|d|c|p".toList (by rfl) (by decide)

/-- A log line of exactly seven fields passes the guard `len(parts) < 7` and
makes `GetCommitsWithOffset` panic at `parts[7]`: the commit of the
well-formed line before it is lost as well. -/
theorem GetCommitsWithOffset_seven_fields_panics :
    (GetCommitsWithOffset (constEnv "h1|s1|m|n|e|d|c|p\na|b|c|d|e|f|g".toList)
        (NewService []) 0 0 [] false).1 = Except.error (Panic.indexOutOfRange 7 7) := by
  decide

/-- C3: a log line whose eighth field is empty gives a commit whose `Parents`
is the empty, non-nil slice, and a line whose eighth field is not empty gives
the pieces of that field between single spaces, in order; the line of
scenario 1 gives one commit with `Hash` "abc123" and `Parents` empty. -/
theorem GetCommitsWithOffset_parents (E : Env) (s : Service)
    (limit offset : Int) (branch : Str) (showAll : Bool) (output : Str)
    (hrun : (runGitCommandWithTimeout E s (10 * Second)
      (logArgs limit offset branch showAll)).1 = (output, none)) :
    ((∀ l ∈ Split output "\n".toList, l ≠ [] ∧ fieldCount l = 8) →
      ∃ commits, (GetCommitsWithOffset E s limit offset branch showAll).1
          = Except.ok (some commits, none) ∧
        commits.map Commit.Parents = (Split output "\n".toList).map
          (fun l => if field l 7 = [] then some [] else some (Split (field l 7) " ".toList))) ∧
    (output = scenarioLine →
      ∃ c, (GetCommitsWithOffset E s limit offset branch showAll).1
          = Except.ok (some [c], none) ∧
        c.Hash = "abc123".toList ∧ c.Parents = some []) := by
  constructor
  · intro hwf
    obtain ⟨commits, h1, h2⟩ :=
      GetCommitsWithOffset_ok E s limit offset branch showAll output hrun
        (fun l hl => by have := (hwf l hl).2; omega)
    rw [filter_keptLine_of_wellFormed _ hwf] at h2
    refine ⟨commits, h1, ?_⟩
    have := congrArg (List.map Commit.Parents) h2
    simp only [List.map_map] at this
    rw [show (Commit.Parents ∘ Commit.dropRefs) = Commit.Parents from rfl] at this
    rw [this]
    apply List.map_congr_left
    intro l _
    simp only [Function.comp, commitOfLine, parentsOfField]
    by_cases hf : field l 7 = [] <;> simp [hf]
  · intro hout
    subst hout
    obtain ⟨commits, h1, h2⟩ :=
      GetCommitsWithOffset_ok E s limit offset branch showAll scenarioLine hrun (by decide)
    have hl : (Split scenarioLine "\n".toList).filter keptLine = [scenarioLine] := by decide
    rw [hl] at h2
    obtain ⟨c, rfl, hc⟩ : ∃ c, commits = [c] ∧ c.dropRefs = commitOfLine E scenarioLine := by
      cases commits with
      | nil => simp at h2
      | cons c t =>
        cases t with
        | nil => exact ⟨c, rfl, by simpa using h2⟩
        | cons _ _ => simp at h2
    refine ⟨c, h1, ?_, ?_⟩
    · have := congrArg Commit.Hash hc
      rw [show (c.dropRefs).Hash = c.Hash from rfl] at this
      rw [this]
      show field scenarioLine 0 = "abc123".toList
      decide
    · have := congrArg Commit.Parents hc
      rw [show (c.dropRefs).Parents = c.Parents from rfl] at this
      rw [this]
      show parentsOfField (field scenarioLine 7) = some []
      decide

set_option maxRecDepth 4000 in
/-- Witness of C3: a log of two well-formed lines, the first with two parents
and the second with none, and the line of scenario 1, printed by `git`. -/
theorem GetCommitsWithOffset_parents_witness :
    (∃ commits,
      (GetCommitsWithOffset (constEnv "h1|s1|m|n|e|d|c|p0 p1\nh2|s2|m|n|e|d|c|".toList)
        (NewService []) 10 0 [] true).1 = Except.ok (some commits, none) ∧
      commits.map Commit.Parents
        = (Split "h1|s1|m|n|e|d|c|p0 p1\nh2|s2|m|n|e|d|c|".toList "\n".toList).map
          (fun l => if field l 7 = [] then some [] else some (Split (field l 7) " ".toList))) ∧
    (∃ c, (GetCommitsWithOffset (constEnv scenarioLine) (NewService []) 0 0 [] false).1
        = Except.ok (some [c], none) ∧
      c.Hash = "abc123".toList ∧ c.Parents = some []) :=
  ⟨(GetCommitsWithOffset_parents (constEnv "h1|s1|m|n|e|d|c|p0 p1\nh2|s2|m|n|e|d|c|".toList)
      (NewService []) 10 0 [] true "h1|s1|m|n|e|d|c|p0 p1\nh2|s2|m|n|e|d|c|".toList
      (by rfl)).1 (by decide),
   (GetCommitsWithOffset_parents (constEnv scenarioLine) (NewService []) 0 0 [] false
      scenarioLine (by rfl)).2 rfl⟩

/-! ### The metadata cache -/

/-- Running a command with a timeout adds that command to the history, and
changes nothing else. -/
theorem runGitCommandWithTimeout_state (E : Env) (s : Service) (timeout : Nat)
    (args : List Str) :
    (runGitCommandWithTimeout E s timeout args).2
      = { s with trace := s.trace ++ [Event.git args] } := by
  unfold runGitCommandWithTimeout
  simp only []
  split
  · split <;> rfl
  · rfl

/-- The test `time.Now().Before(expiry)` fails on the zero expiry. -/
theorem Before_zeroInstant (now : Instant) : Before now zeroInstant = false := by
  simp [Before, zeroInstant]

/-- A call of `GetBranches` that misses the cache runs `git branch -v`. -/
theorem GetBranches_miss_trace (E : Env) (s : Service) (now later : Instant)
    (hmiss : (Before now s.cache.branchesExpiry && decide (s.cache.branches.len > 0)) = false) :
    (GetBranches E s now later).2.trace
      = s.trace ++ [Event.git ["branch".toList, "-v".toList]] := by
  unfold GetBranches
  rw [hmiss]
  simp only [Bool.false_eq_true, if_false]
  split <;> simp only [runGitCommandWithTimeout_state]

/-- A call of `GetTags` that misses the cache runs `git tag -l`. -/
theorem GetTags_miss_trace (E : Env) (s : Service) (now later : Instant)
    (hmiss : (Before now s.cache.tagsExpiry && decide (s.cache.tags.len > 0)) = false) :
    (GetTags E s now later).2.trace
      = s.trace ++ [Event.git ["tag".toList, "-l".toList, tagFormat]] := by
  unfold GetTags
  rw [hmiss]
  simp only [Bool.false_eq_true, if_false]
  split
  · simp only [runGitCommandWithTimeout_state]
  · split
    · simp only [runGitCommandWithTimeout_state]
    · split <;> simp only [runGitCommandWithTimeout_state]

/-- A call of `GetRemotes` that misses the cache runs `git remote -v`. -/
theorem GetRemotes_miss_trace (E : Env) (s : Service) (now later : Instant)
    (hmiss : (Before now s.cache.remotesExpiry && decide (s.cache.remotes.len > 0)) = false) :
    (GetRemotes E s now later).2.trace
      = s.trace ++ [Event.git ["remote".toList, "-v".toList]] := by
  unfold GetRemotes
  rw [hmiss]
  simp only [Bool.false_eq_true, if_false]
  split
  · simp only [runGitCommandWithTimeout_state]
  · split <;> simp only [runGitCommandWithTimeout_state]

/-- The result of a command depends on the service through the length of its
history only. -/
theorem runGitCommandWithTimeout_result (E : Env) (s s' : Service) (timeout : Nat)
    (args : List Str) (h : s.trace = s'.trace) :
    (runGitCommandWithTimeout E s timeout args).1
      = (runGitCommandWithTimeout E s' timeout args).1 := by
  unfold runGitCommandWithTimeout
  simp only [h]
  split
  · split <;> rfl
  · rfl

/-- What a call of `GetBranches` that misses the cache returns is read from
the output of the command. -/
theorem GetBranches_miss_result (E : Env) (s : Service) (now later : Instant)
    (hmiss : (Before now s.cache.branchesExpiry && decide (s.cache.branches.len > 0)) = false) :
    (GetBranches E s now later).1 =
      match (runGitCommandWithTimeout E s (5 * Second) ["branch".toList, "-v".toList]).1.2 with
      | some _ => (some [], none)
      | none => (some (parseBranches (runGitCommandWithTimeout E s (5 * Second)
          ["branch".toList, "-v".toList]).1.1), none) := by
  unfold GetBranches
  rw [hmiss]
  simp only [Bool.false_eq_true, if_false]
  split <;> rfl

/-- What a call of `GetTags` that misses the cache returns is read from the
output of the command. -/
theorem GetTags_miss_result (E : Env) (s : Service) (now later : Instant)
    (hmiss : (Before now s.cache.tagsExpiry && decide (s.cache.tags.len > 0)) = false) :
    (GetTags E s now later).1 =
      match (runGitCommandWithTimeout E s (5 * Second)
          ["tag".toList, "-l".toList, tagFormat]).1.2 with
      | some _ => Except.ok (some [], none)
      | none =>
        if (TrimSpace (runGitCommandWithTimeout E s (5 * Second)
            ["tag".toList, "-l".toList, tagFormat]).1.1).isEmpty then Except.ok (some [], none)
        else
          match tagsLoop E (Split (runGitCommandWithTimeout E s (5 * Second)
              ["tag".toList, "-l".toList, tagFormat]).1.1 "\n".toList) [] with
          | Except.error p => Except.error p
          | Except.ok tags => Except.ok (some tags, none) := by
  unfold GetTags
  rw [hmiss]
  simp only [Bool.false_eq_true, if_false]
  split
  · rfl
  · split
    · rfl
    · split <;> rfl

/-- What a call of `GetRemotes` that misses the cache returns is read from
the output of the command. -/
theorem GetRemotes_miss_result (E : Env) (s : Service) (now later : Instant)
    (hmiss : (Before now s.cache.remotesExpiry && decide (s.cache.remotes.len > 0)) = false) :
    (GetRemotes E s now later).1 =
      match (runGitCommandWithTimeout E s (5 * Second) ["remote".toList, "-v".toList]).1.2 with
      | some _ => (some [], none)
      | none =>
        if (TrimSpace (runGitCommandWithTimeout E s (5 * Second)
            ["remote".toList, "-v".toList]).1.1).isEmpty then (some [], none)
        else
          (some (E.rangeOrder ((Split (runGitCommandWithTimeout E s (5 * Second)
            ["remote".toList, "-v".toList]).1.1 "\n".toList).foldl remoteStep [])), none) := by
  unfold GetRemotes
  rw [hmiss]
  simp only [Bool.false_eq_true, if_false]
  split
  · rfl
  · split <;> rfl

/-- C10: whatever the cache holds and whatever the clock reads, the call of
`GetBranches`, `GetTags` or `GetRemotes` that follows the invalidation of its
category misses the cache: it runs the underlying command, and what it
returns is what it would return with no cached data at all. -/
theorem get_after_invalidate_runs_command (E : Env) (s : Service) (now later : Instant) :
    ((GetBranches E (invalidateBranchesCache s) now later).2.trace
        = s.trace ++ [Event.git ["branch".toList, "-v".toList]] ∧
      (GetBranches E (invalidateBranchesCache s) now later).1
        = (GetBranches E (dropSnapshots s) now later).1) ∧
    ((GetTags E (invalidateTagsCache s) now later).2.trace
        = s.trace ++ [Event.git ["tag".toList, "-l".toList, tagFormat]] ∧
      (GetTags E (invalidateTagsCache s) now later).1
        = (GetTags E (dropSnapshots s) now later).1) ∧
    ((GetRemotes E (invalidateRemotesCache s) now later).2.trace
        = s.trace ++ [Event.git ["remote".toList, "-v".toList]] ∧
      (GetRemotes E (invalidateRemotesCache s) now later).1
        = (GetRemotes E (dropSnapshots s) now later).1) := by
  have hb : (Before now (invalidateBranchesCache s).cache.branchesExpiry
      && decide ((invalidateBranchesCache s).cache.branches.len > 0)) = false := by
    simp [invalidateBranchesCache, Before_zeroInstant]
  have ht : (Before now (invalidateTagsCache s).cache.tagsExpiry
      && decide ((invalidateTagsCache s).cache.tags.len > 0)) = false := by
    simp [invalidateTagsCache, Before_zeroInstant]
  have hr : (Before now (invalidateRemotesCache s).cache.remotesExpiry
      && decide ((invalidateRemotesCache s).cache.remotes.len > 0)) = false := by
    simp [invalidateRemotesCache, Before_zeroInstant]
  have db : (Before now (dropSnapshots s).cache.branchesExpiry
      && decide ((dropSnapshots s).cache.branches.len > 0)) = false := by
    simp [dropSnapshots, Slice.len]
  have dt : (Before now (dropSnapshots s).cache.tagsExpiry
      && decide ((dropSnapshots s).cache.tags.len > 0)) = false := by
    simp [dropSnapshots, Slice.len]
  have dr : (Before now (dropSnapshots s).cache.remotesExpiry
      && decide ((dropSnapshots s).cache.remotes.len > 0)) = false := by
    simp [dropSnapshots, Slice.len]
  refine ⟨⟨?_, ?_⟩, ⟨?_, ?_⟩, ⟨?_, ?_⟩⟩
  · exact GetBranches_miss_trace E (invalidateBranchesCache s) now later hb
  · rw [GetBranches_miss_result E _ now later hb, GetBranches_miss_result E _ now later db,
      runGitCommandWithTimeout_result E (invalidateBranchesCache s) (dropSnapshots s) _ _ rfl]
  · exact GetTags_miss_trace E (invalidateTagsCache s) now later ht
  · rw [GetTags_miss_result E _ now later ht, GetTags_miss_result E _ now later dt,
      runGitCommandWithTimeout_result E (invalidateTagsCache s) (dropSnapshots s) _ _ rfl]
  · exact GetRemotes_miss_trace E (invalidateRemotesCache s) now later hr
  · rw [GetRemotes_miss_result E _ now later hr, GetRemotes_miss_result E _ now later dr,
      runGitCommandWithTimeout_result E (invalidateRemotesCache s) (dropSnapshots s) _ _ rfl]

/-- C8, as stated, fails: the service holds an empty branch list whose expiry
is still ahead; a call of `GetBranches` inside the window, after a first branch
appeared, runs `git branch -v`, returns the branch the command prints and not
the cached (empty) snapshot, and moves the expiry of the cache. -/
theorem GetBranches_empty_snapshot_refreshes :
    emptyFreshService.cache.branches = some [] ∧
    Before 6 emptyFreshService.cache.branchesExpiry = true ∧
    (GetBranches (constEnv "* main abc123 init".toList) emptyFreshService 6 7).2.trace
      = emptyFreshService.trace ++ [Event.git ["branch".toList, "-v".toList]] ∧
    (GetBranches (constEnv "* main abc123 init".toList) emptyFreshService 6 7).1.1
      ≠ some emptyFreshService.cache.branches.elems ∧
    (GetBranches (constEnv "* main abc123 init".toList) emptyFreshService 6 7).2.cache.branchesExpiry
      ≠ emptyFreshService.cache.branchesExpiry := by
  refine ⟨by decide, by decide, by decide, by decide, by decide⟩

/-- C8 (amended): when the cached list of a category is not empty, two
consecutive calls at times `t1 ≤ t2` before the expiry of the category both
return the cached snapshot, and leave the service as it was: no command is
run and the cache is not changed. This holds for branches, tags and remotes. -/
theorem get_twice_within_ttl (E : Env) (s : Service) (t1 t2 later1 later2 : Instant)
    (h12 : t1 ≤ t2) :
    (t2 < s.cache.branchesExpiry → 0 < s.cache.branches.len →
      GetBranches E s t1 later1 = ((some s.cache.branches.elems, none), s) ∧
      GetBranches E (GetBranches E s t1 later1).2 t2 later2
        = ((some s.cache.branches.elems, none), s)) ∧
    (t2 < s.cache.tagsExpiry → 0 < s.cache.tags.len →
      GetTags E s t1 later1 = (Except.ok (some s.cache.tags.elems, none), s) ∧
      GetTags E (GetTags E s t1 later1).2 t2 later2
        = (Except.ok (some s.cache.tags.elems, none), s)) ∧
    (t2 < s.cache.remotesExpiry → 0 < s.cache.remotes.len →
      GetRemotes E s t1 later1 = ((some s.cache.remotes.elems, none), s) ∧
      GetRemotes E (GetRemotes E s t1 later1).2 t2 later2
        = ((some s.cache.remotes.elems, none), s)) := by
  refine ⟨?_, ?_, ?_⟩
  · intro hexp hlen
    have hit : ∀ t later, t ≤ t2 →
        GetBranches E s t later = ((some s.cache.branches.elems, none), s) := by
      intro t later ht
      unfold GetBranches
      have : (Before t s.cache.branchesExpiry && decide (s.cache.branches.len > 0)) = true := by
        simp only [Before, Bool.and_eq_true, decide_eq_true_eq]
        exact ⟨Nat.lt_of_le_of_lt ht hexp, hlen⟩
      rw [this]
      rfl
    rw [hit t1 later1 h12]
    exact ⟨rfl, hit t2 later2 (le_refl _)⟩
  · intro hexp hlen
    have hit : ∀ t later, t ≤ t2 →
        GetTags E s t later = (Except.ok (some s.cache.tags.elems, none), s) := by
      intro t later ht
      unfold GetTags
      have : (Before t s.cache.tagsExpiry && decide (s.cache.tags.len > 0)) = true := by
        simp only [Before, Bool.and_eq_true, decide_eq_true_eq]
        exact ⟨Nat.lt_of_le_of_lt ht hexp, hlen⟩
      rw [this]
      rfl
    rw [hit t1 later1 h12]
    exact ⟨rfl, hit t2 later2 (le_refl _)⟩
  · intro hexp hlen
    have hit : ∀ t later, t ≤ t2 →
        GetRemotes E s t later = ((some s.cache.remotes.elems, none), s) := by
      intro t later ht
      unfold GetRemotes
      have : (Before t s.cache.remotesExpiry && decide (s.cache.remotes.len > 0)) = true := by
        simp only [Before, Bool.and_eq_true, decide_eq_true_eq]
        exact ⟨Nat.lt_of_le_of_lt ht hexp, hlen⟩
      rw [this]
      rfl
    rw [hit t1 later1 h12]
    exact ⟨rfl, hit t2 later2 (le_refl _)⟩

/-- Witness of C8 (amended): the branches, tags and remotes of a warm service,
read at the instants 10 and 20. -/
theorem get_twice_within_ttl_witness :
    (GetBranches (constEnv []) warmService 10 11
        = ((some warmService.cache.branches.elems, none), warmService) ∧
      GetBranches (constEnv []) (GetBranches (constEnv []) warmService 10 11).2 20 21
        = ((some warmService.cache.branches.elems, none), warmService)) ∧
    (GetTags (constEnv []) warmService 10 11
        = (Except.ok (some warmService.cache.tags.elems, none), warmService) ∧
      GetTags (constEnv []) (GetTags (constEnv []) warmService 10 11).2 20 21
        = (Except.ok (some warmService.cache.tags.elems, none), warmService)) ∧
    (GetRemotes (constEnv []) warmService 10 11
        = ((some warmService.cache.remotes.elems, none), warmService) ∧
      GetRemotes (constEnv []) (GetRemotes (constEnv []) warmService 10 11).2 20 21
        = ((some warmService.cache.remotes.elems, none), warmService)) :=
  ⟨(get_twice_within_ttl (constEnv []) warmService 10 20 11 21 (by decide)).1
      (by decide) (by decide),
   (get_twice_within_ttl (constEnv []) warmService 10 20 11 21 (by decide)).2.1
      (by decide) (by decide),
   (get_twice_within_ttl (constEnv []) warmService 10 20 11 21 (by decide)).2.2
      (by decide) (by decide)⟩

/-- C9, as stated, fails: in a repository without commits `git branch -v`
prints nothing, the empty list it gives is never served from the cache, and a
second call of `GetBranches` one nanosecond after the first runs the command
again: two invocations. -/
theorem GetBranches_empty_output_runs_twice :
    (GetBranches (constEnv []) (GetBranches (constEnv []) (NewService []) 5 5).2 6 6).2.trace
      = [Event.git ["branch".toList, "-v".toList], Event.git ["branch".toList, "-v".toList]] := by
  decide

/-- C9 (amended): from any cache state with the 30-second duration, when the
first call of `GetBranches` misses the cache and its `git branch -v` succeeds
with an output from which at least one branch is read, a second call less
than 30 seconds after the first is a cache hit: it returns the same list and
leaves the service unchanged, so that the two calls issue exactly one
`branch -v` invocation. -/
theorem GetBranches_twice_one_invocation (E : Env) (s : Service)
    (t1 later1 t2 later2 : Instant) (out : Str)
    (hd : s.cache.cacheDuration = 30 * Second)
    (hmiss : (Before t1 s.cache.branchesExpiry && decide (s.cache.branches.len > 0)) = false)
    (hrun : (runGitCommandWithTimeout E s (5 * Second) ["branch".toList, "-v".toList]).1
      = (out, none))
    (hne : parseBranches out ≠ [])
    (hlater : t1 ≤ later1) (hlt : t2 < t1 + 30 * Second) :
    (GetBranches E s t1 later1).1 = (some (parseBranches out), none) ∧
    GetBranches E (GetBranches E s t1 later1).2 t2 later2
      = ((some (parseBranches out), none), (GetBranches E s t1 later1).2) ∧
    (GetBranches E (GetBranches E s t1 later1).2 t2 later2).2.trace
      = s.trace ++ [Event.git ["branch".toList, "-v".toList]] := by
  have hst := runGitCommandWithTimeout_state E s (5 * Second) ["branch".toList, "-v".toList]
  have h1 : GetBranches E s t1 later1 = ((some (parseBranches out), none),
      { s with
        trace := s.trace ++ [Event.git ["branch".toList, "-v".toList]]
        cache := { s.cache with
          branches := some (parseBranches out)
          branchesExpiry := later1 + s.cache.cacheDuration } }) := by
    unfold GetBranches
    rw [hmiss]
    simp only [Bool.false_eq_true, if_false]
    generalize runGitCommandWithTimeout E s (5 * Second) ["branch".toList, "-v".toList] = r
      at hrun hst
    obtain ⟨⟨o, e⟩, s1⟩ := r
    cases hrun
    simp only [] at hst
    subst hst
    rfl
  have h2 : GetBranches E (GetBranches E s t1 later1).2 t2 later2
      = ((some (parseBranches out), none), (GetBranches E s t1 later1).2) := by
    rw [h1]
    unfold GetBranches
    have hpos : 0 < (parseBranches out).length := List.length_pos.mpr hne
    have : (Before t2 (later1 + s.cache.cacheDuration)
        && decide (Slice.len (some (parseBranches out)) > 0)) = true := by
      simp only [Before, Bool.and_eq_true, decide_eq_true_eq, Slice.len]
      exact ⟨by rw [hd]; exact Nat.lt_of_lt_of_le hlt (Nat.add_le_add_right hlater _), hpos⟩
    simp only [this]
    rfl
  refine ⟨by rw [h1], h2, ?_⟩
  rw [h2, h1]

/-- Witness of C9 (amended): a fresh service, `git branch -v` printing one
branch, calls at the instants 5 and 6. -/
theorem GetBranches_twice_one_invocation_witness :
    (GetBranches (constEnv "* main abc123 init".toList) (NewService []) 5 5).1
      = (some (parseBranches "* main abc123 init".toList), none) ∧
    GetBranches (constEnv "* main abc123 init".toList)
        (GetBranches (constEnv "* main abc123 init".toList) (NewService []) 5 5).2 6 6
      = ((some (parseBranches "* main abc123 init".toList), none),
          (GetBranches (constEnv "* main abc123 init".toList) (NewService []) 5 5).2) ∧
    (GetBranches (constEnv "* main abc123 init".toList)
      (GetBranches (constEnv "* main abc123 init".toList) (NewService []) 5 5).2 6 6).2.trace
      = (NewService []).trace ++ [Event.git ["branch".toList, "-v".toList]] :=
  GetBranches_twice_one_invocation (constEnv "* main abc123 init".toList) (NewService [])
    5 5 6 6 "* main abc123 init".toList rfl (by decide) (by rfl) (by decide) (by decide)
    (by decide)

/-! ### The diff parser -/

/-- What `parseFileDiff` returns: a file diff whose hunks are those the loop reads. -/
theorem parseFileDiff_hunks (E : Env) (s : Service) (diffOutput filePath hash : Str) :
    ∃ fd, (parseFileDiff E s diffOutput filePath hash).1 = (some fd, none) ∧
      fd.Hunks = some (parseHunks (Split diffOutput "\n".toList)) :=
  ⟨_, rfl, rfl⟩

/-- C4, as stated, fails: the header below declares three old and three new
lines and one context line follows; the parser records the declared lengths
and the one line, without comparing them. -/
theorem parseFileDiff_counts_unchecked :
    ∃ fd h, (parseFileDiff (constEnv []) (NewService []) "@@ -1,3 +1,3 @@\n a".toList
        "f.txt".toList "abc123".toList).1 = (some fd, none) ∧
      fd.Hunks = some [h] ∧ h.OldLines = 3 ∧ h.NewLines = 3 ∧
      h.oldCount = 1 ∧ h.newCount = 1 := by
  refine ⟨_, _, rfl, rfl, by decide, by decide, by decide, by decide⟩

/-- C5: for the untracked file `f.txt` with the one line `a`, the diff
`GetFileDiff` makes up and parses has one hunk with two recorded lines: the
addition `+a`, and a context line for the empty piece after the last newline
of the made-up text. -/
theorem GetFileDiff_untracked_trailing_context :
    ∃ fd h, (GetFileDiff untrackedEnv (NewService []) "uncommitted".toList "f.txt".toList).1
        = (some fd, none) ∧
      fd.Hunks = some [h] ∧
      h.Lines = some
        [{ Type_ := "addition".toList, Content := "+a".toList, OldNum := 0, NewNum := 1 },
         { Type_ := "context".toList, Content := [], OldNum := 0, NewNum := 2 }] := by
  refine ⟨_, _, rfl, rfl, by decide⟩

/-- C6, as stated, fails: the four lines after the header `@@ -10,3 +10,4 @@`
have three lines on the new side, numbered 10, 11, 12; no recorded line has
the new line number 13. -/
theorem parseFileDiff_scenario_no_line_13 :
    ∃ fd h, (parseFileDiff (constEnv []) (NewService []) scenarioDiff
        "f.txt".toList "abc123".toList).1 = (some fd, none) ∧
      fd.Hunks = some [h] ∧ h.newNums ≠ [10, 11, 12, 13] ∧
      ∀ l ∈ h.Lines.elems, l.NewNum ≠ 13 := by
  refine ⟨_, _, rfl, rfl, by decide, by decide⟩

/-- C7: the header `@@ -0,0 +1,2 @@` writes the old length 0, and the hunk
`parseFileDiff` opens has `OldLines` 1: a written 0 is replaced by 1 like an
omitted length. -/
theorem parseFileDiff_written_zero_becomes_one :
    ∃ fd h, (parseFileDiff (constEnv []) (NewService []) "@@ -0,0 +1,2 @@\n+a\n+b".toList
        "f.txt".toList "abc123".toList).1 = (some fd, none) ∧
      fd.Hunks = some [h] ∧
      h.OldStart = 0 ∧ h.OldLines = 1 ∧ h.NewStart = 1 ∧ h.NewLines = 2 := by
  refine ⟨_, _, rfl, rfl, by decide, by decide, by decide, by decide⟩

/-! ### Well-formed diffs -/

/-- The run of digits at the front of a string that goes on with a character
other than a digit. -/
theorem takeWhile_isDigit_append (a : Str) (x : Char) (r : Str)
    (ha : ∀ c ∈ a, isDigit c = true) (hx : isDigit x = false) :
    (a ++ x :: r).takeWhile isDigit = a ∧ (a ++ x :: r).dropWhile isDigit = x :: r := by
  induction a with
  | nil => simp [List.takeWhile, List.dropWhile, hx]
  | cons c a ih =>
    have hc : isDigit c = true := ha c (List.mem_cons_self _ _)
    have ih := ih (fun d hd => ha d (List.mem_cons_of_mem _ hd))
    simp [List.takeWhile, List.dropWhile, hc, ih.1, ih.2]

/-- Dropping a literal from a string that starts with it. -/
theorem dropLiteral_append (lit r : Str) : dropLiteral lit (lit ++ r) = some r := by
  unfold dropLiteral
  have h : lit.isPrefixOf (lit ++ r) = true := by
    rw [List.isPrefixOf_iff_prefix]
    exact List.prefix_append _ _
  rw [if_pos h, List.drop_left]

/-- A start and an optional length written before a space, as the pattern
`(\d+),?(\d*)` reads them. -/
theorem header_segment (a : Str) (b : Option Str) (rest : Str)
    (ha : ∀ c ∈ a, isDigit c = true) (hb : ∀ b', b = some b' → ∀ c ∈ b', isDigit c = true) :
    (a ++ (lenText b ++ ' ' :: rest)).takeWhile isDigit = a ∧
    (dropComma ((a ++ (lenText b ++ ' ' :: rest)).dropWhile isDigit)).takeWhile isDigit
      = b.getD [] ∧
    (dropComma ((a ++ (lenText b ++ ' ' :: rest)).dropWhile isDigit)).dropWhile isDigit
      = ' ' :: rest := by
  have hsp : isDigit ' ' = false := by decide
  have hco : isDigit ',' = false := by decide
  cases b with
  | none =>
    have h1 := takeWhile_isDigit_append a ' ' rest ha hsp
    have h0 := takeWhile_isDigit_append [] ' ' rest (by simp) hsp
    simp only [lenText, List.nil_append, Option.getD_none] at h0 ⊢
    rw [h1.1, h1.2]
    exact ⟨rfl, h0.1, h0.2⟩
  | some b' =>
    have h1 := takeWhile_isDigit_append a ',' (b' ++ ' ' :: rest) ha hco
    have h2 := takeWhile_isDigit_append b' ' ' rest (hb b' rfl) hsp
    simp only [lenText, List.cons_append, Option.getD_some] at h1 ⊢
    rw [h1.1, h1.2]
    exact ⟨rfl, h2.1, h2.2⟩

/-- The submatches of the header of a legible hunk: the numbers as written. -/
theorem matchHeaderAt_header (h : HunkText) (hl : h.Legible) :
    matchHeaderAt h.header = some (h.oldStart, h.oldLen.getD [], h.newStart,
      h.newLen.getD [], h.trailer.takeWhile (fun c => c ≠ '\n')) := by
  obtain ⟨ha0, ha, hc0, hc, hb, hd, _⟩ := hl
  have e1 : ∀ X : Str, " +".toList ++ X = ' ' :: ("+".toList ++ X) := fun _ => rfl
  have e2 : ∀ X : Str, " @@".toList ++ X = ' ' :: ("@@".toList ++ X) := fun _ => rfl
  have l1 : ∀ X : Str, dropLiteral " +".toList (' ' :: ("+".toList ++ X)) = some X :=
    fun X => dropLiteral_append " +".toList X
  have l2 : ∀ X : Str, dropLiteral " @@".toList (' ' :: ("@@".toList ++ X)) = some X :=
    fun X => dropLiteral_append " @@".toList X
  have s1 := header_segment h.oldStart h.oldLen
    ("+".toList ++ (h.newStart ++ (lenText h.newLen ++ ' ' :: ("@@".toList ++ h.trailer)))) ha
    (fun b' e => by rw [e] at hb; exact hb)
  have s2 := header_segment h.newStart h.newLen ("@@".toList ++ h.trailer) hc
    (fun b' e => by rw [e] at hd; exact hd)
  unfold HunkText.header matchHeaderAt
  rw [dropLiteral_append]
  simp only [e1, e2]
  rw [s1.1, s1.2.1, s1.2.2, l1]
  simp only [ha0, if_false]
  rw [s2.1, s2.2.1, s2.2.2, l2]
  simp only [hc0, if_false]

/-- The leftmost match of the pattern in the header of a legible hunk is the
match at its start. -/
theorem findHeader_header (h : HunkText) (hl : h.Legible) :
    findHeader h.header = some (h.oldStart, h.oldLen.getD [], h.newStart,
      h.newLen.getD [], h.trailer.takeWhile (fun c => c ≠ '\n')) := by
  have hm := matchHeaderAt_header h hl
  generalize h.header = line at hm
  cases line with
  | nil => unfold findHeader; exact hm
  | cons c cs => unfold findHeader; rw [hm]

/-- The turn of the loop on the header of a legible hunk: the open hunk is
closed and a new one is opened, with the numbers of the header. -/
theorem diffStep_header (st : DiffState) (h : HunkText) (hl : h.Legible) :
    diffStep st h.header =
      { hunks := st.flush
        currentHunk := some { h.hunk with Lines := some [] }
        oldLineNum := Atoi h.oldStart
        newLineNum := Atoi h.newStart } := by
  have hp : HasPrefix h.header "@@".toList = true := rfl
  unfold diffStep
  rw [if_pos hp, findHeader_header h hl]
  rfl

/-- The turn of the loop on a plain body line, inside a hunk. -/
theorem diffStep_body (hunks : List DiffHunk) (a b c d : Int) (hdr : Str)
    (ls : List DiffLine) (o n : Int) (bl : BodyLine) (hp : bl.plain = true) :
    diffStep
      { hunks := hunks
        currentHunk := some { OldStart := a, OldLines := b, NewStart := c, NewLines := d
                              Header := hdr, Lines := some ls }
        oldLineNum := o, newLineNum := n } bl.render =
      { hunks := hunks
        currentHunk := some { OldStart := a, OldLines := b, NewStart := c, NewLines := d
                              Header := hdr, Lines := some (ls ++ bl.record o n) }
        oldLineNum := bl.nextOld o, newLineNum := bl.nextNew n } := by
  cases bl with
  | context t =>
    simp [diffStep, HasPrefix, BodyLine.render, BodyLine.record, BodyLine.nextOld,
      BodyLine.nextNew, BodyLine.onOld, BodyLine.onNew, Slice.elems, List.isPrefixOf]
  | blank =>
    simp [diffStep, HasPrefix, BodyLine.render, BodyLine.record, BodyLine.nextOld,
      BodyLine.nextNew, BodyLine.onOld, BodyLine.onNew, Slice.elems, List.isPrefixOf]
  | deletion t =>
    have hp2 : List.isPrefixOf ['-', '-'] t = false := by
      simpa [BodyLine.plain, HasPrefix] using hp
    simp [diffStep, HasPrefix, BodyLine.render, BodyLine.record, BodyLine.nextOld,
      BodyLine.nextNew, BodyLine.onOld, BodyLine.onNew, Slice.elems, List.isPrefixOf, hp2]
  | addition t =>
    have hp2 : List.isPrefixOf ['+', '+'] t = false := by
      simpa [BodyLine.plain, HasPrefix] using hp
    simp [diffStep, HasPrefix, BodyLine.render, BodyLine.record, BodyLine.nextOld,
      BodyLine.nextNew, BodyLine.onOld, BodyLine.onNew, Slice.elems, List.isPrefixOf, hp2]
  | marker t =>
    simp [diffStep, HasPrefix, BodyLine.render, BodyLine.record, BodyLine.nextOld,
      BodyLine.nextNew, BodyLine.onOld, BodyLine.onNew, Slice.elems, List.isPrefixOf]

/-- The loop over the body of a hunk records the body lines into the open hunk. -/
theorem foldl_diffStep_body (hunks : List DiffHunk) (a b c d : Int) (hdr : Str) :
    ∀ (body : List BodyLine) (ls : List DiffLine) (o n : Int),
      (∀ bl ∈ body, bl.plain = true) →
      ∃ o' n', (body.map BodyLine.render).foldl diffStep
          { hunks := hunks
            currentHunk := some { OldStart := a, OldLines := b, NewStart := c, NewLines := d
                                  Header := hdr, Lines := some ls }
            oldLineNum := o, newLineNum := n } =
        { hunks := hunks
          currentHunk := some { OldStart := a, OldLines := b, NewStart := c, NewLines := d
                                Header := hdr, Lines := some (ls ++ numberLines o n body) }
          oldLineNum := o', newLineNum := n' } := by
  intro body
  induction body with
  | nil =>
    intro ls o n _
    exact ⟨o, n, by simp [numberLines]⟩
  | cons bl rest ih =>
    intro ls o n hp
    obtain ⟨o', n', h⟩ := ih (ls ++ bl.record o n) (bl.nextOld o) (bl.nextNew n)
      (fun x hx => hp x (List.mem_cons_of_mem _ hx))
    refine ⟨o', n', ?_⟩
    rw [List.map_cons, List.foldl_cons,
      diffStep_body hunks a b c d hdr ls o n bl (hp bl (List.mem_cons_self _ _)), h]
    simp [numberLines]

/-- The loop over the lines of a legible hunk closes the hunk that was open
and leaves the hunk read from these lines open. -/
theorem foldl_diffStep_hunk (st : DiffState) (h : HunkText) (hl : h.Legible) :
    ∃ o' n', h.lines.foldl diffStep st =
      { hunks := st.flush, currentHunk := some h.hunk, oldLineNum := o', newLineNum := n' } := by
  obtain ⟨o', n', hb⟩ := foldl_diffStep_body st.flush (Atoi h.oldStart) (storedLen h.oldLen)
    (Atoi h.newStart) (storedLen h.newLen) h.header h.body [] (Atoi h.oldStart)
    (Atoi h.newStart) hl.2.2.2.2.2.2
  refine ⟨o', n', ?_⟩
  unfold HunkText.lines
  rw [List.foldl_cons, diffStep_header st h hl]
  exact hb

/-- The loop over the lines of legible hunks reads one hunk from each. -/
theorem foldl_diffStep_hunks :
    ∀ (hs : List HunkText) (st : DiffState), (∀ h ∈ hs, h.Legible) →
      ((hs.flatMap HunkText.lines).foldl diffStep st).flush
        = st.flush ++ hs.map HunkText.hunk := by
  intro hs
  induction hs with
  | nil => intro st _; simp
  | cons h rest ih =>
    intro st hl
    obtain ⟨o', n', h1⟩ := foldl_diffStep_hunk st h (hl h (List.mem_cons_self _ _))
    rw [List.flatMap_cons, List.foldl_append, h1,
      ih _ (fun x hx => hl x (List.mem_cons_of_mem _ hx))]
    simp [DiffState.flush]

/-- Before the first header the loop skips every line. -/
theorem foldl_diffStep_preamble :
    ∀ (pre : List Str) (st : DiffState), st.currentHunk = none →
      (∀ l ∈ pre, HasPrefix l "@@".toList = false) → pre.foldl diffStep st = st := by
  intro pre
  induction pre with
  | nil => intro st _ _; rfl
  | cons l rest ih =>
    intro st hc hp
    have h1 : diffStep st l = st := by
      unfold diffStep
      rw [hp l (List.mem_cons_self _ _)]
      simp [hc]
    rw [List.foldl_cons, h1]
    exact ih st hc (fun x hx => hp x (List.mem_cons_of_mem _ hx))

/-- The hunks read from a diff made of lines before the first header, none of
which starts with `@@`, and of legible hunks: one hunk for each, with the
numbers of its header and its body lines numbered from the starts. -/
theorem parseHunks_legible (pre : List Str) (hs : List HunkText)
    (hpre : ∀ l ∈ pre, HasPrefix l "@@".toList = false) (hl : ∀ h ∈ hs, h.Legible) :
    parseHunks (pre ++ hs.flatMap HunkText.lines) = hs.map HunkText.hunk := by
  have h := foldl_diffStep_hunks hs
    { hunks := [], currentHunk := none, oldLineNum := 0, newLineNum := 0 } hl
  show DiffState.flush _ = _
  rw [List.foldl_append, foldl_diffStep_preamble pre _ rfl hpre, h]
  rfl

/-- The recorded lines of the old side are the body lines of the old side. -/
theorem numberLines_oldCount :
    ∀ (body : List BodyLine) (o n : Int),
      ((numberLines o n body).filter DiffLine.onOldSide).length
        = body.countP BodyLine.onOld := by
  intro body
  induction body with
  | nil => intro o n; rfl
  | cons bl rest ih =>
    intro o n
    rw [numberLines, List.filter_append, List.length_append, ih]
    cases bl <;>
      simp [BodyLine.record, BodyLine.onOld, DiffLine.onOldSide, List.countP_cons] <;> omega

/-- The recorded lines of the new side are the body lines of the new side. -/
theorem numberLines_newCount :
    ∀ (body : List BodyLine) (o n : Int),
      ((numberLines o n body).filter DiffLine.onNewSide).length
        = body.countP BodyLine.onNew := by
  intro body
  induction body with
  | nil => intro o n; rfl
  | cons bl rest ih =>
    intro o n
    rw [numberLines, List.filter_append, List.length_append, ih]
    cases bl <;>
      simp [BodyLine.record, BodyLine.onNew, DiffLine.onNewSide, List.countP_cons] <;> omega

/-- The length stored for a declared length other than zero is that length. -/
theorem storedLen_of_ne_zero (b : Option Str) (h : declaredLen b ≠ 0) :
    storedLen b = declaredLen b := by
  cases b with
  | none => rfl
  | some b' =>
    unfold storedLen declaredLen at *
    simp only [Option.getD_some]
    rw [if_neg h]

/-- C4 (amended): in the parse of a diff text made of lines before the first
header and of hunks whose headers declare lengths other than zero (a length
left out declares 1), each followed by exactly that many old-side and
new-side body lines, none of which starts with `---` or `+++`, every hunk has
as many recorded deletion and context lines as its `OldLines`, and as many
recorded addition and context lines as its `NewLines`. -/
theorem parseFileDiff_counts_of_balanced (E : Env) (s : Service)
    (diffOutput filePath hash : Str) (pre : List Str) (hs : List HunkText)
    (hlines : Split diffOutput "\n".toList = pre ++ hs.flatMap HunkText.lines)
    (hpre : ∀ l ∈ pre, HasPrefix l "@@".toList = false)
    (hl : ∀ h ∈ hs, h.Legible) (hb : ∀ h ∈ hs, h.Balanced) :
    ∃ fd hunks, (parseFileDiff E s diffOutput filePath hash).1 = (some fd, none) ∧
      fd.Hunks = some hunks ∧ hunks.length = hs.length ∧
      ∀ h ∈ hunks, (h.oldCount : Int) = h.OldLines ∧ (h.newCount : Int) = h.NewLines := by
  obtain ⟨fd, h1, h2⟩ := parseFileDiff_hunks E s diffOutput filePath hash
  rw [hlines, parseHunks_legible pre hs hpre hl] at h2
  refine ⟨fd, _, h1, h2, by simp, ?_⟩
  intro h hh
  obtain ⟨t, ht, rfl⟩ := List.mem_map.mp hh
  obtain ⟨b1, b2, b3, b4⟩ := hb t ht
  constructor
  · show (((numberLines _ _ t.body).filter DiffLine.onOldSide).length : Int) = storedLen t.oldLen
    rw [numberLines_oldCount, storedLen_of_ne_zero _ b1, b2]
  · show (((numberLines _ _ t.body).filter DiffLine.onNewSide).length : Int) = storedLen t.newLen
    rw [numberLines_newCount, storedLen_of_ne_zero _ b3, b4]

/-- Witness of C4 (amended): the two hunks of `twoHunkDiff`. -/
theorem parseFileDiff_counts_of_balanced_witness :
    ∃ fd hunks, (parseFileDiff (constEnv []) (NewService []) twoHunkDiff "f".toList
        "abc123".toList).1 = (some fd, none) ∧
      fd.Hunks = some hunks ∧ hunks.length = twoHunkTexts.length ∧
      ∀ h ∈ hunks, (h.oldCount : Int) = h.OldLines ∧ (h.newCount : Int) = h.NewLines :=
  parseFileDiff_counts_of_balanced (constEnv []) (NewService []) twoHunkDiff "f".toList
    "abc123".toList
    ["diff --git a/f b/f".toList, "index 1..2 100644".toList, "--- a/f".toList,
     "+++ b/f".toList]
    twoHunkTexts (by decide) (by decide) (by decide) (by decide)

/-- C6 (amended): the header `@@ -10,3 +10,4 @@` followed by one context
line, one deletion and two additions gives one hunk of four entries: the
context line has the old and new numbers 10 and 10, the deletion the old
number 11, the additions the new numbers 11 and 12. The old line numbers are
10, 11 and the new line numbers 10, 11, 12. -/
theorem parseFileDiff_scenario_numbers (E : Env) (s : Service)
    (diffOutput filePath hash : Str) (c1 c2 c3 c4 : Str)
    (hlines : Split diffOutput "\n".toList
      = ["@@ -10,3 +10,4 @@".toList, ' ' :: c1, '-' :: c2, '+' :: c3, '+' :: c4])
    (h2 : HasPrefix c2 "--".toList = false) (h3 : HasPrefix c3 "++".toList = false)
    (h4 : HasPrefix c4 "++".toList = false) :
    ∃ fd h, (parseFileDiff E s diffOutput filePath hash).1 = (some fd, none) ∧
      fd.Hunks = some [h] ∧
      h.Lines = some
        [{ Type_ := "context".toList, Content := ' ' :: c1, OldNum := 10, NewNum := 10 },
         { Type_ := "deletion".toList, Content := '-' :: c2, OldNum := 11, NewNum := 0 },
         { Type_ := "addition".toList, Content := '+' :: c3, OldNum := 0, NewNum := 11 },
         { Type_ := "addition".toList, Content := '+' :: c4, OldNum := 0, NewNum := 12 }] ∧
      h.oldNums = [10, 11] ∧ h.newNums = [10, 11, 12] := by
  obtain ⟨fd, e1, e2⟩ := parseFileDiff_hunks E s diffOutput filePath hash
  have hleg : ∀ h ∈ [scenarioHunk c1 c2 c3 c4], h.Legible := by
    intro h hh
    rw [List.mem_singleton] at hh
    subst hh
    have d10 : ∀ c ∈ "10".toList, isDigit c = true := by decide
    have d3 : ∀ c ∈ "3".toList, isDigit c = true := by decide
    have d4 : ∀ c ∈ "4".toList, isDigit c = true := by decide
    have n10 : "10".toList ≠ [] := by decide
    refine ⟨n10, d10, n10, d10, d3, d4, ?_⟩
    intro bl hbl
    simp only [scenarioHunk, List.mem_cons, List.mem_singleton, List.not_mem_nil,
      or_false] at hbl
    rcases hbl with rfl | rfl | rfl | rfl
    · rfl
    · show (!HasPrefix c2 "--".toList) = true
      rw [h2]; rfl
    · show (!HasPrefix c3 "++".toList) = true
      rw [h3]; rfl
    · show (!HasPrefix c4 "++".toList) = true
      rw [h4]; rfl
  have hp := parseHunks_legible [] [scenarioHunk c1 c2 c3 c4] (by simp) hleg
  have hl2 : Split diffOutput "\n".toList
      = [] ++ [scenarioHunk c1 c2 c3 c4].flatMap HunkText.lines := by
    rw [hlines]; rfl
  rw [hl2, hp] at e2
  have a10 : Atoi "10".toList = 10 := by decide
  have i10 : incr 10 = 11 := by decide
  have i11 : incr 11 = 12 := by decide
  have hlinesEq : (scenarioHunk c1 c2 c3 c4).hunk.Lines = some
      [{ Type_ := "context".toList, Content := ' ' :: c1, OldNum := 10, NewNum := 10 },
       { Type_ := "deletion".toList, Content := '-' :: c2, OldNum := 11, NewNum := 0 },
       { Type_ := "addition".toList, Content := '+' :: c3, OldNum := 0, NewNum := 11 },
       { Type_ := "addition".toList, Content := '+' :: c4, OldNum := 0, NewNum := 12 }] := by
    show some (numberLines (Atoi "10".toList) (Atoi "10".toList)
      [BodyLine.context c1, BodyLine.deletion c2, BodyLine.addition c3, BodyLine.addition c4])
      = _
    rw [a10]
    simp only [numberLines, BodyLine.record, BodyLine.nextOld, BodyLine.nextNew,
      BodyLine.onOld, BodyLine.onNew, if_true, Bool.false_eq_true, if_false, i10, i11,
      List.cons_append, List.nil_append, List.append_nil]
  refine ⟨fd, (scenarioHunk c1 c2 c3 c4).hunk, e1, e2, hlinesEq, ?_, ?_⟩
  · unfold DiffHunk.oldNums
    rw [hlinesEq]
    simp [Slice.elems, DiffLine.onOldSide, List.filter]
  · unfold DiffHunk.newNums
    rw [hlinesEq]
    simp [Slice.elems, DiffLine.onNewSide, List.filter]

/-- Witness of C6 (amended): the diff text of scenario 2. -/
theorem parseFileDiff_scenario_numbers_witness :
    ∃ fd h, (parseFileDiff (constEnv []) (NewService []) scenarioDiff "f.txt".toList
        "abc123".toList).1 = (some fd, none) ∧
      fd.Hunks = some [h] ∧
      h.Lines = some
        [{ Type_ := "context".toList, Content := " unchanged".toList, OldNum := 10, NewNum := 10 },
         { Type_ := "deletion".toList, Content := "-removed".toList, OldNum := 11, NewNum := 0 },
         { Type_ := "addition".toList, Content := "+added one".toList, OldNum := 0, NewNum := 11 },
         { Type_ := "addition".toList, Content := "+added two".toList, OldNum := 0, NewNum := 12 }] ∧
      h.oldNums = [10, 11] ∧ h.newNums = [10, 11, 12] :=
  parseFileDiff_scenario_numbers (constEnv []) (NewService []) scenarioDiff "f.txt".toList
    "abc123".toList "unchanged".toList "removed".toList "added one".toList "added two".toList
    (by decide) (by decide) (by decide) (by decide)

/-! ### Lines of a text -/

/-- Splitting on a line break: the first character. -/
theorem Split_newline_cons (x : Char) (xs : Str) :
    Split (x :: xs) "\n".toList =
      if x = '\n' then [] :: Split xs "\n".toList
      else
        match Split xs "\n".toList with
        | [] => [[x]]
        | p :: ps => (x :: p) :: ps := by
  by_cases h : x = '\n'
  · subst h
    have hpre : List.isPrefixOf "\n".toList ('\n' :: xs) = true := by
      simp [List.isPrefixOf]
    rw [if_pos rfl]
    show splitAux "\n".toList ('\n' :: xs) 0 = _
    rw [splitAux, if_pos hpre]
    rfl
  · have hpre : List.isPrefixOf "\n".toList (x :: xs) = false := by
      show (('\n' == x) && List.isPrefixOf [] xs) = false
      have : ('\n' == x) = false := by
        rw [beq_eq_false_iff_ne]
        exact fun e => h e.symm
      rw [this]
      rfl
    rw [if_neg h]
    show splitAux "\n".toList (x :: xs) 0 = _
    rw [splitAux, if_neg (by rw [hpre]; exact Bool.false_ne_true)]
    rfl

/-- A text always has a first line. -/
theorem Split_newline_ne_nil (s : Str) : Split s "\n".toList ≠ [] := by
  induction s with
  | nil => exact List.cons_ne_nil _ _
  | cons x xs ih =>
    rw [Split_newline_cons]
    split
    · exact List.cons_ne_nil _ _
    · split
      · exact List.cons_ne_nil _ _
      · exact List.cons_ne_nil _ _

/-- The lines of a text that starts with a line `a` and a line break. -/
theorem Split_line_append (a b : Str) (ha : '\n' ∉ a) :
    Split (a ++ '\n' :: b) "\n".toList = a :: Split b "\n".toList := by
  induction a with
  | nil =>
    rw [List.nil_append, Split_newline_cons, if_pos rfl]
  | cons x xs ih =>
    have hx : x ≠ '\n' := fun e => ha (by rw [e]; exact List.mem_cons_self _ _)
    have hxs : '\n' ∉ xs := fun m => ha (List.mem_cons_of_mem _ m)
    rw [List.cons_append, Split_newline_cons, if_neg hx, ih hxs]

/-- No line of a text holds a line break. -/
theorem not_mem_of_mem_Split (s : Str) : ∀ p ∈ Split s "\n".toList, '\n' ∉ p := by
  induction s with
  | nil =>
    intro p hp
    have : p = [] := by simpa [Split, splitAux] using hp
    rw [this]
    exact List.not_mem_nil _
  | cons x xs ih =>
    intro p hp
    rw [Split_newline_cons] at hp
    by_cases h : x = '\n'
    · rw [if_pos h] at hp
      rcases List.mem_cons.mp hp with e | m
      · rw [e]; exact List.not_mem_nil _
      · exact ih p m
    · rw [if_neg h] at hp
      cases hs : Split xs "\n".toList with
      | nil => exact absurd hs (Split_newline_ne_nil xs)
      | cons q qs =>
        rw [hs] at hp ih
        rcases List.mem_cons.mp hp with e | m
        · rw [e]
          intro hm
          rcases List.mem_cons.mp hm with e2 | m2
          · exact h e2.symm
          · exact ih q (List.mem_cons_self _ _) m2
        · exact ih p (List.mem_cons_of_mem _ m)

/-! ### The diff made up for an untracked file -/

/-- The characters `Nat.toDigitsCore` writes in base ten are digits. -/
theorem isDigit_of_mem_toDigitsCore :
    ∀ (fuel n : Nat) (ds : List Char), (∀ c ∈ ds, isDigit c = true) →
      ∀ c ∈ Nat.toDigitsCore 10 fuel n ds, isDigit c = true := by
  have hd : ∀ m, m < 10 → isDigit (Nat.digitChar m) = true := by decide
  intro fuel
  induction fuel with
  | zero => intro n ds h; simpa [Nat.toDigitsCore] using h
  | succ fuel ih =>
    intro n ds h
    have hcons : ∀ c ∈ Nat.digitChar (n % 10) :: ds, isDigit c = true := by
      intro c hc
      rcases List.mem_cons.mp hc with e | m
      · rw [e]; exact hd _ (Nat.mod_lt _ (by decide))
      · exact h c m
    unfold Nat.toDigitsCore
    simp only []
    split
    · exact hcons
    · exact ih _ _ hcons

/-- The text `%d` prints for a length is made of digits. -/
theorem isDigit_of_mem_fmtInt (n : Nat) : ∀ c ∈ fmtInt (n : Int), isDigit c = true := by
  show ∀ c ∈ (Nat.repr n).toList, isDigit c = true
  exact isDigit_of_mem_toDigitsCore (n + 1) n [] (fun _ h => absurd h (List.not_mem_nil _))

/-- The lines `GetFileDiff` appends for the content of an untracked file. -/
theorem foldl_append_plus_lines (content : List Str) :
    ∀ init : Str,
      content.foldl (fun output line => output ++ "+".toList ++ line ++ "\n".toList) init
        = init ++ content.flatMap (fun line => '+' :: (line ++ ['\n'])) := by
  induction content with
  | nil => intro init; simp
  | cons l rest ih =>
    intro init
    rw [List.foldl_cons, ih, List.flatMap_cons]
    simp [List.append_assoc]

/-- The lines of the text appended for the content of an untracked file:
one per content line, and the empty piece after the last line break. -/
theorem Split_plus_lines (content : List Str) (hc : ∀ l ∈ content, '\n' ∉ l) :
    Split (content.flatMap (fun line => '+' :: (line ++ ['\n']))) "\n".toList
      = content.map (fun line => '+' :: line) ++ [[]] := by
  induction content with
  | nil => rfl
  | cons l rest ih =>
    have hl : '\n' ∉ '+' :: l := by
      intro hm
      rcases List.mem_cons.mp hm with e | m
      · exact absurd e (by decide)
      · exact hc l (List.mem_cons_self _ _) m
    rw [List.flatMap_cons]
    have e : ('+' :: (l ++ ['\n'])) ++ rest.flatMap (fun line => '+' :: (line ++ ['\n']))
        = ('+' :: l) ++ '\n' :: rest.flatMap (fun line => '+' :: (line ++ ['\n'])) := by
      simp
    rw [e, Split_line_append _ _ hl, ih (fun x hx => hc x (List.mem_cons_of_mem _ hx))]
    rfl

/-- The lines of the diff made up for an untracked file: five lines of file
header, then the lines of one hunk. -/
theorem Split_syntheticDiff (filePath : Str) (content : List Str)
    (hp : '\n' ∉ filePath) (hc : ∀ l ∈ content, '\n' ∉ l) :
    Split (syntheticDiff filePath content) "\n".toList =
      ["diff --git a/".toList ++ filePath ++ " b/".toList ++ filePath,
       "new file mode 100644".toList, "index 0000000..1234567".toList,
       "--- /dev/null".toList, "+++ b/".toList ++ filePath]
      ++ [untrackedHunk content].flatMap HunkText.lines := by
  have n1 : '\n' ∉ "diff --git a/".toList ++ filePath ++ " b/".toList ++ filePath := by
    simp [hp]
  have n2 : '\n' ∉ "new file mode 100644".toList := by decide
  have n3 : '\n' ∉ "index 0000000..1234567".toList := by decide
  have n4 : '\n' ∉ "--- /dev/null".toList := by decide
  have n5 : '\n' ∉ "+++ b/".toList ++ filePath := by simp [hp]
  have n6 : '\n' ∉ (untrackedHunk content).header := by
    have hd := isDigit_of_mem_fmtInt content.length
    have : ∀ c ∈ fmtInt (content.length : Int), c ≠ '\n' := by
      intro c hcm e
      have := hd c hcm
      rw [e] at this
      exact absurd this (by decide)
    simp only [HunkText.header, untrackedHunk, lenText]
    simp
    intro hm
    exact this _ hm rfl
  have e : syntheticDiff filePath content =
      ("diff --git a/".toList ++ filePath ++ " b/".toList ++ filePath) ++ '\n' ::
      ("new file mode 100644".toList ++ '\n' ::
      ("index 0000000..1234567".toList ++ '\n' ::
      ("--- /dev/null".toList ++ '\n' ::
      (("+++ b/".toList ++ filePath) ++ '\n' ::
      ((untrackedHunk content).header ++ '\n' ::
        content.flatMap (fun line => '+' :: (line ++ ['\n']))))))) := by
    unfold syntheticDiff
    simp only [foldl_append_plus_lines, HunkText.header, untrackedHunk, lenText]
    simp [List.append_assoc]
  rw [e, Split_line_append _ _ n1, Split_line_append _ _ n2, Split_line_append _ _ n3,
    Split_line_append _ _ n4, Split_line_append _ _ n5, Split_line_append _ _ n6,
    Split_plus_lines content hc]
  simp [HunkText.lines, untrackedHunk, BodyLine.render, List.map_map, Function.comp_def]

/-- The content lines `GetFileContent` returns for the working tree hold no line break. -/
theorem GetFileContent_lines (E : Env) (s : Service) (filePath : Str) (content : List Str)
    (h : (GetFileContent E s "uncommitted".toList filePath).1 = (some content, none)) :
    ∀ l ∈ content, '\n' ∉ l := by
  unfold GetFileContent at h
  rw [if_pos rfl] at h
  simp only [] at h
  cases hr : E.readFile s.trace.length s.repoPath filePath with
  | error e =>
    rw [hr] at h
    simp at h
  | ok text =>
    rw [hr] at h
    simp only [Prod.mk.injEq, Option.some.injEq, and_true] at h
    intro l hl
    rw [← h] at hl
    split at hl
    · exact not_mem_of_mem_Split text l (List.dropLast_subset _ hl)
    · exact not_mem_of_mem_Split text l hl

/-- The entries recorded for a body of additions followed by an empty line:
the additions are the given lines, in order, and no entry is a deletion. -/
theorem numberLines_additions :
    ∀ (content : List Str) (o n : Int),
      ((numberLines o n (content.map BodyLine.addition ++ [BodyLine.blank])).filter
          DiffLine.isAddition).map DiffLine.Content
        = content.map (fun line => '+' :: line) ∧
      ∀ l ∈ numberLines o n (content.map BodyLine.addition ++ [BodyLine.blank]),
        l.Type_ ≠ "deletion".toList := by
  intro content
  induction content with
  | nil =>
    intro o n
    simp [numberLines, BodyLine.record, DiffLine.isAddition]
  | cons c rest ih =>
    intro o n
    obtain ⟨h1, h2⟩ := ih (BodyLine.nextOld o (BodyLine.addition c))
      (BodyLine.nextNew n (BodyLine.addition c))
    constructor
    · rw [List.map_cons, List.cons_append, numberLines, List.filter_append, List.map_append, h1]
      simp [BodyLine.record, DiffLine.isAddition]
    · intro l hl
      rw [List.map_cons, List.cons_append, numberLines] at hl
      rcases List.mem_append.mp hl with m | m
      · simp only [BodyLine.record, List.mem_singleton] at m
        rw [m]
        show "addition".toList ≠ "deletion".toList
        decide
      · exact h2 l m

/-- What holds of the diff made up for an untracked file: when the path holds
no line break and the content lines `c_1..c_n` do not start with `++`, the
diff that `GetFileDiff("uncommitted", path)` makes up and parses has exactly
one hunk, starting at new line 1; the recorded lines of type addition of that
hunk are `+c_1`, ..., `+c_n`, in order, and no recorded line is a deletion. -/
theorem GetFileDiff_untracked_additions (E : Env) (s : Service) (filePath : Str)
    (content : List Str)
    (hdiff : (runGitCommand E s
      ["diff".toList, "HEAD".toList, "--".toList, filePath]).1.2 = none)
    (hempty : TrimSpace (runGitCommand E s
      ["diff".toList, "HEAD".toList, "--".toList, filePath]).1.1 = [])
    (hstatus : (runGitCommand E
      (runGitCommand E s ["diff".toList, "HEAD".toList, "--".toList, filePath]).2
      ["status".toList, "--porcelain".toList, "--".toList, filePath]).1.2 = none)
    (huntracked : HasPrefix (TrimSpace (runGitCommand E
      (runGitCommand E s ["diff".toList, "HEAD".toList, "--".toList, filePath]).2
      ["status".toList, "--porcelain".toList, "--".toList, filePath]).1.1) "??".toList = true)
    (hread : (GetFileContent E (runGitCommand E
      (runGitCommand E s ["diff".toList, "HEAD".toList, "--".toList, filePath]).2
      ["status".toList, "--porcelain".toList, "--".toList, filePath]).2
      "uncommitted".toList filePath).1 = (some content, none))
    (hpath : '\n' ∉ filePath)
    (hplus : ∀ l ∈ content, HasPrefix l "++".toList = false) :
    ∃ fd h, (GetFileDiff E s "uncommitted".toList filePath).1 = (some fd, none) ∧
      fd.Hunks = some [h] ∧ h.NewStart = 1 ∧
      (h.Lines.elems.filter DiffLine.isAddition).map DiffLine.Content
        = content.map (fun line => '+' :: line) ∧
      ∀ l ∈ h.Lines.elems, l.Type_ ≠ "deletion".toList := by
  have hc := GetFileContent_lines E _ filePath content hread
  have hG : GetFileDiff E s "uncommitted".toList filePath
      = parseFileDiff E (GetFileContent E (runGitCommand E
          (runGitCommand E s ["diff".toList, "HEAD".toList, "--".toList, filePath]).2
          ["status".toList, "--porcelain".toList, "--".toList, filePath]).2
          "uncommitted".toList filePath).2
        (syntheticDiff filePath content) filePath "uncommitted".toList := by
    unfold GetFileDiff
    rw [if_pos rfl]
    simp only [hdiff, hempty, hstatus, huntracked, hread, List.isEmpty_nil, Option.isNone_none,
      Bool.and_self, if_true, Slice.elems]
  obtain ⟨fd, e1, e2⟩ := parseFileDiff_hunks E (GetFileContent E (runGitCommand E
      (runGitCommand E s ["diff".toList, "HEAD".toList, "--".toList, filePath]).2
      ["status".toList, "--porcelain".toList, "--".toList, filePath]).2
      "uncommitted".toList filePath).2 (syntheticDiff filePath content) filePath
      "uncommitted".toList
  have hleg : ∀ h ∈ [untrackedHunk content], h.Legible := by
    intro h hh
    rw [List.mem_singleton] at hh
    subst hh
    have d0 : ∀ c ∈ "0".toList, isDigit c = true := by decide
    have d1 : ∀ c ∈ "1".toList, isDigit c = true := by decide
    have n0 : "0".toList ≠ [] := by decide
    have n1 : "1".toList ≠ [] := by decide
    refine ⟨n0, d0, n1, d1, d0, isDigit_of_mem_fmtInt content.length, ?_⟩
    intro bl hbl
    rcases List.mem_append.mp hbl with m | m
    · obtain ⟨c, hcm, rfl⟩ := List.mem_map.mp m
      show (!HasPrefix c "++".toList) = true
      rw [hplus c hcm]; rfl
    · rw [List.mem_singleton] at m
      rw [m]; rfl
  have hpre : ∀ l ∈ ["diff --git a/".toList ++ filePath ++ " b/".toList ++ filePath,
       "new file mode 100644".toList, "index 0000000..1234567".toList,
       "--- /dev/null".toList, "+++ b/".toList ++ filePath],
      HasPrefix l "@@".toList = false := by
    intro l hl
    simp only [List.mem_cons, List.mem_singleton, List.not_mem_nil, or_false] at hl
    rcases hl with rfl | rfl | rfl | rfl | rfl <;> simp [HasPrefix, List.isPrefixOf]
  rw [Split_syntheticDiff filePath content hpath hc,
    parseHunks_legible _ _ hpre hleg] at e2
  obtain ⟨a1, a2⟩ := numberLines_additions content (Atoi "0".toList) (Atoi "1".toList)
  have hs : Atoi "1".toList = 1 := by decide
  refine ⟨fd, (untrackedHunk content).hunk, by rw [hG]; exact e1, e2, hs, a1, a2⟩

/-- The diff made up for the untracked file of `untrackedEnv`: one hunk, whose
recorded additions are the one line of the file. -/
theorem GetFileDiff_untracked_additions_example :
    ∃ fd h, (GetFileDiff untrackedEnv (NewService []) "uncommitted".toList "f.txt".toList).1
        = (some fd, none) ∧
      fd.Hunks = some [h] ∧ h.NewStart = 1 ∧
      (h.Lines.elems.filter DiffLine.isAddition).map DiffLine.Content
        = ["a".toList].map (fun line => '+' :: line) ∧
      ∀ l ∈ h.Lines.elems, l.Type_ ≠ "deletion".toList :=
  GetFileDiff_untracked_additions untrackedEnv (NewService []) "f.txt".toList ["a".toList]
    (by rfl) (by rfl) (by rfl) (by rfl) (by rfl) (by decide) (by decide)

/-! ### Mutating operations -/

/-- Running a command adds that command to the history, and changes nothing else. -/
theorem runGitCommand_state (E : Env) (s : Service) (args : List Str) :
    (runGitCommand E s args).2 = { s with trace := s.trace ++ [Event.git args] } := by
  unfold runGitCommand
  simp only []
  split <;> rfl

/-- An operation that invalidates a cache category after a successful
command, and returns the error of the command, leaves the cache as it was
when the command fails. -/
theorem cache_of_failed (E : Env) (s : Service) (args : List Str) (f : Service → Service)
    (h : (runGitCommand E s args).1.2 ≠ none) :
    (match (runGitCommand E s args).1.2 with
      | none => ((none : Option GoError), f (runGitCommand E s args).2)
      | some e => (some e, (runGitCommand E s args).2)).2.cache = s.cache := by
  cases he : (runGitCommand E s args).1.2 with
  | none => exact absurd he h
  | some e =>
    simp only []
    rw [runGitCommand_state]

/-- C11: when the underlying command of `CheckoutBranch`, `CreateBranch`,
`DeleteBranch`, `RenameBranch`, `CreateBranchFromStash`, `CreateTag` or
`DeleteTag` fails, the cache after the call, with the data and the expiry of
every category, is the cache before the call. -/
theorem failed_mutation_keeps_cache (E : Env) (s : Service) :
    (∀ branch, (runGitCommand E s ["checkout".toList, branch]).1.2 ≠ none →
      (CheckoutBranch E s branch).2.cache = s.cache) ∧
    (∀ branchName startPoint,
      (runGitCommand E s (createBranchArgs branchName startPoint)).1.2 ≠ none →
      (CreateBranch E s branchName startPoint).2.cache = s.cache) ∧
    (∀ branchName force,
      (runGitCommand E s (deleteBranchArgs branchName force)).1.2 ≠ none →
      (DeleteBranch E s branchName force).2.cache = s.cache) ∧
    (∀ oldName newName,
      (runGitCommand E s ["branch".toList, "-m".toList, oldName, newName]).1.2 ≠ none →
      (RenameBranch E s oldName newName).2.cache = s.cache) ∧
    (∀ branchName stashIndex,
      (runGitCommand E s
        ["stash".toList, "branch".toList, branchName, stashRef stashIndex]).1.2 ≠ none →
      (CreateBranchFromStash E s branchName stashIndex).2.cache = s.cache) ∧
    (∀ tagName commitHash message annotated,
      (runGitCommand E s (createTagArgs tagName commitHash message annotated)).1.2 ≠ none →
      (CreateTag E s tagName commitHash message annotated).2.cache = s.cache) ∧
    (∀ tagName, (runGitCommand E s ["tag".toList, "-d".toList, tagName]).1.2 ≠ none →
      (DeleteTag E s tagName).2.cache = s.cache) := by
  refine ⟨?_, ?_, ?_, ?_, ?_, ?_, ?_⟩
  · intro branch h
    exact cache_of_failed E s _ invalidateBranchesCache h
  · intro branchName startPoint h
    exact cache_of_failed E s _ invalidateBranchesCache h
  · intro branchName force h
    exact cache_of_failed E s _ invalidateBranchesCache h
  · intro oldName newName h
    exact cache_of_failed E s _ invalidateBranchesCache h
  · intro branchName stashIndex h
    exact cache_of_failed E s _ invalidateBranchesCache h
  · intro tagName commitHash message annotated h
    exact cache_of_failed E s _ invalidateTagsCache h
  · intro tagName h
    exact cache_of_failed E s _ invalidateTagsCache h

/-- Witness of C11: on a warm service every one of the seven operations fails
and leaves the cache as it was; after the failing `CreateTag` the cached tag
list and its expiry are the ones before. -/
theorem failed_mutation_keeps_cache_witness :
    (CheckoutBranch failEnv warmService "dev".toList).2.cache = warmService.cache ∧
    (CreateBranch failEnv warmService "dev".toList []).2.cache = warmService.cache ∧
    (DeleteBranch failEnv warmService "dev".toList false).2.cache = warmService.cache ∧
    (RenameBranch failEnv warmService "dev".toList "next".toList).2.cache
      = warmService.cache ∧
    (CreateBranchFromStash failEnv warmService "dev".toList 0).2.cache = warmService.cache ∧
    (CreateTag failEnv warmService "v2".toList [] [] false).2.cache = warmService.cache ∧
    (DeleteTag failEnv warmService "v1".toList).2.cache = warmService.cache ∧
    (CreateTag failEnv warmService "v2".toList [] [] false).2.cache.tags
      = warmService.cache.tags ∧
    (CreateTag failEnv warmService "v2".toList [] [] false).2.cache.tagsExpiry
      = warmService.cache.tagsExpiry :=
  have h := failed_mutation_keeps_cache failEnv warmService
  have ht := h.2.2.2.2.2.1 "v2".toList [] [] false (by decide)
  ⟨h.1 "dev".toList (by decide), h.2.1 "dev".toList [] (by decide),
   h.2.2.1 "dev".toList false (by decide),
   h.2.2.2.1 "dev".toList "next".toList (by decide),
   h.2.2.2.2.1 "dev".toList 0 (by decide), ht,
   h.2.2.2.2.2.2 "v1".toList (by decide), by rw [ht], by rw [ht]⟩

/-- After an operation that invalidates the branches cache when its command
succeeds, the next call of `GetBranches` runs `git branch -v`. -/
theorem GetBranches_after_invalidating (E E' : Env) (s : Service) (args : List Str)
    (now later : Instant) (h : (runGitCommand E s args).1.2 = none) :
    (GetBranches E' (match (runGitCommand E s args).1.2 with
      | none => ((none : Option GoError), invalidateBranchesCache (runGitCommand E s args).2)
      | some e => (some e, (runGitCommand E s args).2)).2 now later).2.trace
      = s.trace ++ [Event.git args, Event.git ["branch".toList, "-v".toList]] := by
  rw [h]
  simp only []
  rw [GetBranches_miss_trace E' _ now later
    (by simp [invalidateBranchesCache, Before_zeroInstant]), runGitCommand_state]
  simp [invalidateBranchesCache]

/-- After a successful `CheckoutBranch`, `CreateBranch`, `DeleteBranch`,
`RenameBranch` or `CreateBranchFromStash` the next call of `GetBranches`
misses the cache, whatever the clock reads: it runs `git branch -v`. -/
theorem GetBranches_after_branch_operation (E E' : Env) (s : Service) (now later : Instant) :
    (∀ branch, (runGitCommand E s ["checkout".toList, branch]).1.2 = none →
      (GetBranches E' (CheckoutBranch E s branch).2 now later).2.trace
        = s.trace ++ [Event.git ["checkout".toList, branch],
            Event.git ["branch".toList, "-v".toList]]) ∧
    (∀ branchName startPoint,
      (runGitCommand E s (createBranchArgs branchName startPoint)).1.2 = none →
      (GetBranches E' (CreateBranch E s branchName startPoint).2 now later).2.trace
        = s.trace ++ [Event.git (createBranchArgs branchName startPoint),
            Event.git ["branch".toList, "-v".toList]]) ∧
    (∀ branchName force,
      (runGitCommand E s (deleteBranchArgs branchName force)).1.2 = none →
      (GetBranches E' (DeleteBranch E s branchName force).2 now later).2.trace
        = s.trace ++ [Event.git (deleteBranchArgs branchName force),
            Event.git ["branch".toList, "-v".toList]]) ∧
    (∀ oldName newName,
      (runGitCommand E s ["branch".toList, "-m".toList, oldName, newName]).1.2 = none →
      (GetBranches E' (RenameBranch E s oldName newName).2 now later).2.trace
        = s.trace ++ [Event.git ["branch".toList, "-m".toList, oldName, newName],
            Event.git ["branch".toList, "-v".toList]]) ∧
    (∀ branchName stashIndex,
      (runGitCommand E s
        ["stash".toList, "branch".toList, branchName, stashRef stashIndex]).1.2 = none →
      (GetBranches E' (CreateBranchFromStash E s branchName stashIndex).2 now later).2.trace
        = s.trace ++ [Event.git
              ["stash".toList, "branch".toList, branchName, stashRef stashIndex],
            Event.git ["branch".toList, "-v".toList]]) := by
  refine ⟨?_, ?_, ?_, ?_, ?_⟩
  · intro branch h
    exact GetBranches_after_invalidating E E' s _ now later h
  · intro branchName startPoint h
    exact GetBranches_after_invalidating E E' s _ now later h
  · intro branchName force h
    exact GetBranches_after_invalidating E E' s _ now later h
  · intro oldName newName h
    exact GetBranches_after_invalidating E E' s _ now later h
  · intro branchName stashIndex h
    exact GetBranches_after_invalidating E E' s _ now later h

/-- C12: on a service whose branch list is cached until the instant 100, a
successful `MergeBranch` leaves the expiry as it is, and the call of
`GetBranches` that follows, at the instant 10, is served from the cache: it
returns the branch tip cached before the merge and runs no command. After a
successful `CheckoutBranch` the same call runs `git branch -v`. -/
theorem MergeBranch_keeps_branches_cache :
    (MergeBranch (constEnv "* main def456 merged".toList) warmService
      "feature".toList false).1 = none ∧
    (MergeBranch (constEnv "* main def456 merged".toList) warmService
      "feature".toList false).2.cache.branchesExpiry = 100 ∧
    (GetBranches (constEnv "* main def456 merged".toList)
      (MergeBranch (constEnv "* main def456 merged".toList) warmService
        "feature".toList false).2 10 11).1
      = (some warmService.cache.branches.elems, none) ∧
    (GetBranches (constEnv "* main def456 merged".toList)
      (MergeBranch (constEnv "* main def456 merged".toList) warmService
        "feature".toList false).2 10 11).2.trace
      = [Event.git ["merge".toList, "feature".toList]] ∧
    (GetBranches (constEnv "* main def456 merged".toList)
      (CheckoutBranch (constEnv "* main def456 merged".toList) warmService
        "feature".toList).2 10 11).2.trace
      = [Event.git ["checkout".toList, "feature".toList],
         Event.git ["branch".toList, "-v".toList]] := by
  refine ⟨by decide, by decide, by decide, by decide, by decide⟩

/-! ### Errors of the history reader -/

/-- What `GetCommitsWithOffset` gives, for every behaviour of the command:
the empty, non-nil list and a nil error when the command fails or is timed
out, and otherwise either a panic or a non-nil list and a nil error. -/
theorem GetCommitsWithOffset_error_or_panic (E : Env) (s : Service) (limit offset : Int)
    (branch : Str) (showAll : Bool) :
    ((runGitCommandWithTimeout E s (10 * Second)
        (logArgs limit offset branch showAll)).1.2 ≠ none →
      (GetCommitsWithOffset E s limit offset branch showAll).1 = Except.ok (some [], none)) ∧
    ((∃ p, (GetCommitsWithOffset E s limit offset branch showAll).1 = Except.error p) ∨
      ∃ commits, (GetCommitsWithOffset E s limit offset branch showAll).1
        = Except.ok (some commits, none)) := by
  unfold GetCommitsWithOffset
  simp only []
  cases he : (runGitCommandWithTimeout E s (10 * Second)
      (logArgs limit offset branch showAll)).1.2 with
  | some e =>
    exact ⟨fun _ => rfl, Or.inr ⟨[], rfl⟩⟩
  | none =>
    refine ⟨fun h => absurd rfl h, ?_⟩
    simp only []
    cases hl : (commitsLoop E (Split (runGitCommandWithTimeout E s (10 * Second)
        (logArgs limit offset branch showAll)).1.1 "\n".toList)
        (runGitCommandWithTimeout E s (10 * Second)
          (logArgs limit offset branch showAll)).2 []).1 with
    | error p => exact Or.inl ⟨p, rfl⟩
    | ok commits => exact Or.inr ⟨commits, rfl⟩

/-- C13: when the log command fails, or is timed out, `GetCommitsWithOffset`
returns the empty, non-nil list and a nil error; when the command prints a
line of exactly seven fields, `GetCommitsWithOffset` returns nothing: it
panics at `parts[7]`. -/
theorem GetCommitsWithOffset_panics_instead_of_returning :
    (GetCommitsWithOffset failEnv (NewService []) 20 0 "main".toList false).1
      = Except.ok (some [], none) ∧
    (GetCommitsWithOffset slowEnv (NewService []) 20 0 "main".toList false).1
      = Except.ok (some [], none) ∧
    (GetCommitsWithOffset (constEnv "a|b|c|d|e|f|g".toList) (NewService []) 20 0
      "main".toList false).1 = Except.error (Panic.indexOutOfRange 7 7) := by
  refine ⟨by decide, by decide, by decide⟩

/-! ### Errors of the mutating operations -/

/-- C14, as stated, fails: when `git commit` succeeds and `git rev-parse HEAD`
fails with the error `e`, `CreateCommit` returns not `e` but a new error made
from it. -/
theorem CreateCommit_wraps_rev_parse_error :
    (runGitCommand revParseFailsEnv
        (runGitCommand revParseFailsEnv (NewService [])
          ["commit".toList, "-m".toList, "init".toList]).2
        ["rev-parse".toList, "HEAD".toList]).1.2
      = some (GoError.commandFailedWithOutput "exit status 128".toList
          "fatal: bad revision".toList) ∧
    (CreateCommit revParseFailsEnv (NewService []) "init".toList).1.2
      = some (GoError.failedToGetCommitHash
          (GoError.commandFailedWithOutput "exit status 128".toList
            "fatal: bad revision".toList)) ∧
    (CreateCommit revParseFailsEnv (NewService []) "init".toList).1.2
      ≠ some (GoError.commandFailedWithOutput "exit status 128".toList
          "fatal: bad revision".toList) := by
  refine ⟨by decide, by decide, by decide⟩

/-- C14 (amended): `CheckoutBranch`, `CreateBranch`, `DeleteBranch`,
`RenameBranch`, `CreateTag`, `DeleteTag`, `CreateStash`, `ApplyStash`,
`PopStash` and `DropStash` return exactly the error `runGitCommand` returns
for their command, and so does `CreateCommit` for its `git commit` command;
the error of the `git rev-parse HEAD` command of `CreateCommit` is returned
inside a new error; and for the empty message `CreateCommit` runs no command,
the service and its history of commands staying as they are, and returns the
error `commit message cannot be empty`. -/
theorem mutation_returns_command_error (E : Env) (s : Service) (e : GoError) :
    (∀ branch, (runGitCommand E s ["checkout".toList, branch]).1.2 = some e →
      (CheckoutBranch E s branch).1 = some e) ∧
    (∀ branchName startPoint,
      (runGitCommand E s (createBranchArgs branchName startPoint)).1.2 = some e →
      (CreateBranch E s branchName startPoint).1 = some e) ∧
    (∀ branchName force,
      (runGitCommand E s (deleteBranchArgs branchName force)).1.2 = some e →
      (DeleteBranch E s branchName force).1 = some e) ∧
    (∀ oldName newName,
      (runGitCommand E s ["branch".toList, "-m".toList, oldName, newName]).1.2 = some e →
      (RenameBranch E s oldName newName).1 = some e) ∧
    (∀ tagName commitHash message annotated,
      (runGitCommand E s (createTagArgs tagName commitHash message annotated)).1.2 = some e →
      (CreateTag E s tagName commitHash message annotated).1 = some e) ∧
    (∀ tagName, (runGitCommand E s ["tag".toList, "-d".toList, tagName]).1.2 = some e →
      (DeleteTag E s tagName).1 = some e) ∧
    (∀ message includeUntracked,
      (runGitCommand E s (createStashArgs message includeUntracked)).1.2 = some e →
      (CreateStash E s message includeUntracked).1 = some e) ∧
    (∀ index, (runGitCommand E s ["stash".toList, "apply".toList, stashRef index]).1.2 = some e →
      (ApplyStash E s index).1 = some e) ∧
    (∀ index, (runGitCommand E s ["stash".toList, "pop".toList, stashRef index]).1.2 = some e →
      (PopStash E s index).1 = some e) ∧
    (∀ index, (runGitCommand E s ["stash".toList, "drop".toList, stashRef index]).1.2 = some e →
      (DropStash E s index).1 = some e) ∧
    (∀ message, message ≠ [] →
      (runGitCommand E s ["commit".toList, "-m".toList, message]).1.2 = some e →
      (CreateCommit E s message).1.2 = some e) ∧
    (∀ message, message ≠ [] →
      (runGitCommand E s ["commit".toList, "-m".toList, message]).1.2 = none →
      (runGitCommand E (runGitCommand E s ["commit".toList, "-m".toList, message]).2
        ["rev-parse".toList, "HEAD".toList]).1.2 = some e →
      (CreateCommit E s message).1.2 = some (GoError.failedToGetCommitHash e)) ∧
    (CreateCommit E s []).1 = ([], some GoError.emptyCommitMessage) ∧
    (CreateCommit E s []).2 = s := by
  refine ⟨?_, ?_, ?_, ?_, ?_, ?_, ?_, ?_, ?_, ?_, ?_, ?_, rfl, rfl⟩
  · intro branch h
    unfold CheckoutBranch
    simp only [h]
  · intro branchName startPoint h
    unfold CreateBranch
    simp only [h]
  · intro branchName force h
    unfold DeleteBranch
    simp only [h]
  · intro oldName newName h
    unfold RenameBranch
    simp only [h]
  · intro tagName commitHash message annotated h
    unfold CreateTag
    simp only [h]
  · intro tagName h
    unfold DeleteTag
    simp only [h]
  · intro message includeUntracked h
    exact h
  · intro index h
    exact h
  · intro index h
    exact h
  · intro index h
    exact h
  · intro message hm h
    unfold CreateCommit
    rw [if_neg hm]
    simp only [h]
  · intro message hm h1 h2
    unfold CreateCommit
    rw [if_neg hm]
    simp only [h1, h2]

/-- Witness of C14 (amended): with a `git` that fails on every run, each
operation returns the error `runGitCommand` made; with a `git` that fails on
`rev-parse` only, `CreateCommit` returns that error inside a new one; for the
empty message it returns its own error and the history of commands stays empty. -/
theorem mutation_returns_command_error_witness :
    (CheckoutBranch failEnv (NewService []) "dev".toList).1
      = some (GoError.commandFailedWithOutput "exit status 1".toList
          "fatal: not possible".toList) ∧
    (ApplyStash failEnv (NewService []) 0).1
      = some (GoError.commandFailedWithOutput "exit status 1".toList
          "fatal: not possible".toList) ∧
    (CreateCommit failEnv (NewService []) "init".toList).1.2
      = some (GoError.commandFailedWithOutput "exit status 1".toList
          "fatal: not possible".toList) ∧
    (CreateCommit revParseFailsEnv (NewService []) "init".toList).1.2
      = some (GoError.failedToGetCommitHash
          (GoError.commandFailedWithOutput "exit status 128".toList
            "fatal: bad revision".toList)) ∧
    (CreateCommit failEnv (NewService []) []).1 = ([], some GoError.emptyCommitMessage) ∧
    (CreateCommit failEnv (NewService []) []).2.trace = [] :=
  ⟨(mutation_returns_command_error failEnv (NewService []) _).1 "dev".toList (by decide),
   (mutation_returns_command_error failEnv (NewService []) _).2.2.2.2.2.2.2.1 0 (by decide),
   (mutation_returns_command_error failEnv (NewService []) _).2.2.2.2.2.2.2.2.2.2.1
     "init".toList (by decide) (by decide),
   (mutation_returns_command_error revParseFailsEnv (NewService []) _).2.2.2.2.2.2.2.2.2.2.2.1
     "init".toList (by decide) (by decide) (by decide),
   (mutation_returns_command_error failEnv (NewService [])
     GoError.emptyCommitMessage).2.2.2.2.2.2.2.2.2.2.2.2.1,
   congrArg Service.trace (mutation_returns_command_error failEnv (NewService [])
     GoError.emptyCommitMessage).2.2.2.2.2.2.2.2.2.2.2.2.2⟩

/-! ### The arguments of the log command -/

/-- The history after `getCommitRefs` goes on from the history before. -/
theorem getCommitRefs_trace (E : Env) (s : Service) (hash : Str) :
    ∃ rest, (getCommitRefs E s hash).2.trace = s.trace ++ rest := by
  unfold getCommitRefs
  simp only []
  split <;> exact ⟨_, by rw [runGitCommand_state]⟩

/-- The history after the loop of `GetCommitsWithOffset` goes on from the
history before. -/
theorem commitsLoop_trace (E : Env) :
    ∀ (lines : List Str) (s : Service) (acc : List Commit),
      ∃ rest, (commitsLoop E lines s acc).2.trace = s.trace ++ rest := by
  intro lines
  induction lines with
  | nil => intro s acc; exact ⟨[], by simp [commitsLoop]⟩
  | cons line rest ih =>
    intro s acc
    unfold commitsLoop
    split
    · exact ih s acc
    · simp only []
      split
      · exact ih s acc
      · split
        · exact ⟨[], by simp⟩
        · obtain ⟨r1, h1⟩ := getCommitRefs_trace E s ((Split line "|".toList).getD 0 [])
          obtain ⟨r2, h2⟩ := ih (getCommitRefs E s ((Split line "|".toList).getD 0 [])).2
            (acc ++ [_])
          exact ⟨r1 ++ r2, by rw [h2, h1, List.append_assoc]⟩

/-- C15: the first command `GetCommitsWithOffset` runs is `git` with the
argument list of the specification: the fixed head, `--skip=<offset>` exactly
when the offset is positive, `-<limit>` exactly when the limit is positive,
then `--all` when `all` is true and else the branch exactly when it is not
empty. When `all` is true the list is the same for every branch. -/
theorem GetCommitsWithOffset_arguments (E : Env) (s : Service) (limit offset : Int)
    (branch : Str) (all : Bool) :
    (∃ rest, (GetCommitsWithOffset E s limit offset branch all).2.trace
      = s.trace ++ Event.git (logArgsSpec limit offset branch all) :: rest) ∧
    logArgs limit offset branch all = logArgsSpec limit offset branch all ∧
    ∀ other : Str, logArgsSpec limit offset other true = logArgsSpec limit offset branch true := by
  have heq : logArgs limit offset branch all = logArgsSpec limit offset branch all := by
    unfold logArgs logArgsSpec
    by_cases ho : offset > 0 <;> by_cases hl : limit > 0 <;> cases all <;>
      by_cases hb : branch = [] <;> simp [ho, hl, hb]
  refine ⟨?_, heq, fun other => rfl⟩
  rw [← heq]
  unfold GetCommitsWithOffset
  simp only []
  split
  · exact ⟨[], by rw [runGitCommandWithTimeout_state]⟩
  · obtain ⟨rest, h⟩ := commitsLoop_trace E
      (Split (runGitCommandWithTimeout E s (10 * Second)
        (logArgs limit offset branch all)).1.1 "\n".toList)
      (runGitCommandWithTimeout E s (10 * Second) (logArgs limit offset branch all)).2 []
    refine ⟨rest, ?_⟩
    split <;> (simp only []; rw [h, runGitCommandWithTimeout_state]; simp)

/-! ### The output of the command runner -/

/-- The first character left by `dropWhile`, if any, does not satisfy the test. -/
theorem head_dropWhile_false (p : Char → Bool) :
    ∀ (l : Str) (c : Char), (l.dropWhile p).head? = some c → p c = false := by
  intro l
  induction l with
  | nil => intro c h; simp at h
  | cons x xs ih =>
    intro c h
    by_cases hx : p x = true
    · rw [List.dropWhile_cons_of_pos hx] at h
      exact ih c h
    · rw [List.dropWhile_cons_of_neg hx] at h
      simp only [List.head?_cons, Option.some.injEq] at h
      rw [← h]
      simpa using hx

/-- What `strings.TrimSpace` does: it removes a run of white space at the
front and a run of white space at the end, and what is left neither starts
nor ends with white space. -/
theorem TrimSpace_spec (o : Str) :
    ∃ front back, o = front ++ TrimSpace o ++ back ∧
      (∀ c ∈ front, isSpace c = true) ∧ (∀ c ∈ back, isSpace c = true) ∧
      (∀ c, (TrimSpace o).head? = some c → isSpace c = false) ∧
      (∀ c, (TrimSpace o).getLast? = some c → isSpace c = false) := by
  have hmid : o.dropWhile isSpace
      = TrimSpace o ++ (((o.dropWhile isSpace).reverse).takeWhile isSpace).reverse := by
    unfold TrimSpace dropRightWhile
    rw [← List.reverse_append, List.takeWhile_append_dropWhile, List.reverse_reverse]
  refine ⟨o.takeWhile isSpace, (((o.dropWhile isSpace).reverse).takeWhile isSpace).reverse,
    ?_, ?_, ?_, ?_, ?_⟩
  · rw [List.append_assoc, ← hmid, List.takeWhile_append_dropWhile]
  · intro c hc
    exact List.mem_takeWhile_imp hc
  · intro c hc
    exact List.mem_takeWhile_imp (List.mem_reverse.mp hc)
  · intro c hc
    apply head_dropWhile_false isSpace o c
    rw [hmid]
    cases ht : TrimSpace o with
    | nil => rw [ht] at hc; simp at hc
    | cons x xs => rw [ht] at hc; simpa using hc
  · intro c hc
    apply head_dropWhile_false isSpace (o.dropWhile isSpace).reverse c
    unfold TrimSpace dropRightWhile at hc
    rw [List.getLast?_reverse] at hc
    exact hc

/-- C16, as stated, fails: `git status --porcelain` prints a line that starts
with a space for a modified file; both runners return the output with that
space removed as well, not with the trailing white space removed only. -/
theorem runGitCommand_trims_leading_space :
    (runGitCommand porcelainEnv (NewService []) ["status".toList, "--porcelain".toList]).1
      = ("M f.txt".toList, none) ∧
    (runGitCommandWithTimeout porcelainEnv (NewService []) (5 * Second)
      ["status".toList, "--porcelain".toList]).1 = ("M f.txt".toList, none) ∧
    dropRightWhile isSpace " M f.txt\n".toList = " M f.txt".toList ∧
    "M f.txt".toList ≠ dropRightWhile isSpace " M f.txt\n".toList := by
  refine ⟨by decide, by decide, by decide, by decide⟩

/-- C16 (amended): for every successful run of the underlying command with
raw output `o` (standard output and standard error for `runGitCommand`,
standard output for `runGitCommandWithTimeout`, when the process ends before
the timeout), the runner returns a nil error and `o` with its leading and its
trailing white space removed: `o` is a run of white space, the text returned,
and a run of white space, and the text returned neither starts nor ends with
white space. -/
theorem runGitCommand_returns_trimmed (E : Env) (s : Service) (args : List Str)
    (timeout : Nat) :
    ((E.git s.trace.length args).err = none →
      ∃ res front back, (runGitCommand E s args).1 = (res, none) ∧
        (E.git s.trace.length args).combined = front ++ res ++ back ∧
        (∀ c ∈ front, isSpace c = true) ∧ (∀ c ∈ back, isSpace c = true) ∧
        (∀ c, res.head? = some c → isSpace c = false) ∧
        (∀ c, res.getLast? = some c → isSpace c = false)) ∧
    ((E.git s.trace.length args).err = none → (E.git s.trace.length args).elapsed < timeout →
      ∃ res front back, (runGitCommandWithTimeout E s timeout args).1 = (res, none) ∧
        (E.git s.trace.length args).stdout = front ++ res ++ back ∧
        (∀ c ∈ front, isSpace c = true) ∧ (∀ c ∈ back, isSpace c = true) ∧
        (∀ c, res.head? = some c → isSpace c = false) ∧
        (∀ c, res.getLast? = some c → isSpace c = false)) := by
  constructor
  · intro he
    obtain ⟨front, back, h⟩ := TrimSpace_spec (E.git s.trace.length args).combined
    refine ⟨_, front, back, ?_, h⟩
    unfold runGitCommand
    simp only [he]
  · intro he ht
    obtain ⟨front, back, h⟩ := TrimSpace_spec (E.git s.trace.length args).stdout
    refine ⟨_, front, back, ?_, h⟩
    unfold runGitCommandWithTimeout
    simp only [he, ht, if_true]

/-- Witness of C16 (amended): the status line of a modified file. -/
theorem runGitCommand_returns_trimmed_witness :
    (∃ res front back,
      (runGitCommand porcelainEnv (NewService [])
        ["status".toList, "--porcelain".toList]).1 = (res, none) ∧
      (porcelainEnv.git (NewService []).trace.length
        ["status".toList, "--porcelain".toList]).combined = front ++ res ++ back ∧
      (∀ c ∈ front, isSpace c = true) ∧ (∀ c ∈ back, isSpace c = true) ∧
      (∀ c, res.head? = some c → isSpace c = false) ∧
      (∀ c, res.getLast? = some c → isSpace c = false)) ∧
    (∃ res front back,
      (runGitCommandWithTimeout porcelainEnv (NewService []) (5 * Second)
        ["status".toList, "--porcelain".toList]).1 = (res, none) ∧
      (porcelainEnv.git (NewService []).trace.length
        ["status".toList, "--porcelain".toList]).stdout = front ++ res ++ back ∧
      (∀ c ∈ front, isSpace c = true) ∧ (∀ c ∈ back, isSpace c = true) ∧
      (∀ c, res.head? = some c → isSpace c = false) ∧
      (∀ c, res.getLast? = some c → isSpace c = false)) :=
  ⟨(runGitCommand_returns_trimmed porcelainEnv (NewService [])
      ["status".toList, "--porcelain".toList] (5 * Second)).1 rfl,
   (runGitCommand_returns_trimmed porcelainEnv (NewService [])
      ["status".toList, "--porcelain".toList] (5 * Second)).2 rfl (by decide)⟩

/-! ### Status inference from numstat -/

/-- The status, the counts and the path of the change made from a numstat row. -/
theorem numstatChange_status (E : Env) (s : Service) (hash : Str) (parts : List Str) :
    ((numstatChange E s hash parts).1.Status = "M".toList ∨
      (numstatChange E s hash parts).1.Status = "A".toList ∨
      (numstatChange E s hash parts).1.Status = "D".toList) ∧
    ((numstatChange E s hash parts).1.Status = "A".toList ↔
      (numstatChange E s hash parts).1.Additions > 0 ∧
      (numstatChange E s hash parts).1.Deletions = 0 ∧
      (runGitCommand E s ["show".toList,
        hash ++ "^:".toList ++ (numstatChange E s hash parts).1.Path]).1.2 ≠ none) ∧
    ((numstatChange E s hash parts).1.Status = "D".toList ↔
      (numstatChange E s hash parts).1.Additions = 0 ∧
      (numstatChange E s hash parts).1.Deletions > 0 ∧
      (runGitCommand E s ["show".toList,
        hash ++ ":".toList ++ (numstatChange E s hash parts).1.Path]).1.2 ≠ none) ∧
    (numstatChange E s hash parts).1.Additions = numstatCount (parts.getD 0 []) ∧
    (numstatChange E s hash parts).1.Deletions = numstatCount (parts.getD 1 []) ∧
    (numstatChange E s hash parts).1.Path = parts.getD 2 [] := by
  have hAM : "A".toList ≠ "M".toList := by decide
  have hDM : "D".toList ≠ "M".toList := by decide
  have hAD : "A".toList ≠ "D".toList := by decide
  unfold numstatChange
  simp only []
  by_cases h1 : numstatCount (parts.getD 0 []) > 0 ∧ numstatCount (parts.getD 1 []) = 0
  · rw [if_pos h1]
    simp only []
    have hne : ¬ (numstatCount (parts.getD 0 []) = 0) := by omega
    cases hr : (runGitCommand E s ["show".toList,
        hash ++ "^:".toList ++ parts.getD 2 []]).1.2 with
    | none =>
      refine ⟨Or.inl rfl, ⟨fun h => absurd h.symm hAM, fun h => absurd rfl h.2.2⟩,
        ⟨fun h => absurd h.symm hDM, fun h => absurd h.1 hne⟩, 
          by first | rfl | trivial, by first | rfl | trivial, by first | rfl | trivial⟩
    | some e =>
      refine ⟨Or.inr (Or.inl rfl), ⟨fun _ => ⟨h1.1, h1.2, by simp⟩, fun _ => rfl⟩,
        ⟨fun h => absurd h hAD, fun h => absurd h.1 hne⟩, 
          by first | rfl | trivial, by first | rfl | trivial, by first | rfl | trivial⟩
  · rw [if_neg h1]
    by_cases h2 : numstatCount (parts.getD 0 []) = 0 ∧ numstatCount (parts.getD 1 []) > 0
    · rw [if_pos h2]
      simp only []
      have hne : ¬ (numstatCount (parts.getD 1 []) = 0) := by omega
      cases hr : (runGitCommand E s ["show".toList,
          hash ++ ":".toList ++ parts.getD 2 []]).1.2 with
      | none =>
          refine ⟨Or.inl rfl, ⟨fun h => absurd h.symm hAM, fun h => absurd h.2.1 hne⟩,
          ⟨fun h => absurd h.symm hDM, fun h => absurd rfl h.2.2⟩, 
          by first | rfl | trivial, by first | rfl | trivial, by first | rfl | trivial⟩
      | some e =>
        refine ⟨Or.inr (Or.inr rfl), ⟨fun h => absurd h.symm hAD, fun h => absurd h.2.1 hne⟩,
          ⟨fun _ => ⟨h2.1, h2.2, by simp⟩, fun _ => rfl⟩, 
          by first | rfl | trivial, by first | rfl | trivial, by first | rfl | trivial⟩
    · rw [if_neg h2]
      refine ⟨Or.inl rfl, ⟨fun h => absurd h.symm hAM, fun h => absurd ⟨h.1, h.2.1⟩ h1⟩,
        ⟨fun h => absurd h.symm hDM, fun h => absurd ⟨h.1, h.2.1⟩ h2⟩, rfl, rfl, rfl⟩

/-- Every change the numstat loop appends is the change of a row of at least
three fields, made in some state of the service. -/
theorem numstatLoop_mem (E : Env) (hash : Str) :
    ∀ (lines : List Str) (s : Service) (acc : List FileChange),
      ∀ c ∈ (numstatLoop E hash lines s acc).1,
        c ∈ acc ∨ ∃ s' parts, 3 ≤ parts.length ∧ c = (numstatChange E s' hash parts).1 := by
  intro lines
  induction lines with
  | nil => intro s acc c hc; exact Or.inl hc
  | cons line rest ih =>
    intro s acc c hc
    unfold numstatLoop at hc
    split at hc
    · exact ih s acc c hc
    · simp only [] at hc
      split at hc
      · rename_i h3
        rcases ih _ _ c hc with m | m
        · rcases List.mem_append.mp m with m1 | m1
          · exact Or.inl m1
          · rw [List.mem_singleton] at m1
            exact Or.inr ⟨s, Fields line, h3, m1⟩
        · exact Or.inr m
      · exact ih s acc c hc

/-- A command run fails exactly when its process does, and adds one run to
the history. -/
theorem runGitCommand_err (E : Env) (s : Service) (args : List Str) :
    (runGitCommand E s args).1.2.isSome = (E.git s.trace.length args).err.isSome ∧
    (runGitCommand E s args).2.trace.length = s.trace.length + 1 := by
  unfold runGitCommand
  simp only []
  cases (E.git s.trace.length args).err <;> simp

/-- The status of the specification, by the cases of the loop. -/
theorem rowChange_cases (E : Env) (hash : Str) (k : Nat) (parts : List Str) :
    (rowChange E hash k parts).Status =
      if numstatCount (parts.getD 0 []) > 0 ∧ numstatCount (parts.getD 1 []) = 0 then
        (if (E.git k ["show".toList, hash ++ "^:".toList ++ parts.getD 2 []]).err.isSome
          then "A".toList else "M".toList)
      else if numstatCount (parts.getD 0 []) = 0 ∧ numstatCount (parts.getD 1 []) > 0 then
        (if (E.git k ["show".toList, hash ++ ":".toList ++ parts.getD 2 []]).err.isSome
          then "D".toList else "M".toList)
      else "M".toList := by
  unfold rowChange
  simp only []
  by_cases h1 : numstatCount (parts.getD 0 []) > 0 ∧ numstatCount (parts.getD 1 []) = 0
  · have h2 : ¬ (numstatCount (parts.getD 0 []) = 0 ∧ numstatCount (parts.getD 1 []) > 0 ∧
        (E.git k ["show".toList, hash ++ ":".toList ++ parts.getD 2 []]).err ≠ none) := by
      omega
    rw [if_pos h1]
    cases hg : (E.git k ["show".toList, hash ++ "^:".toList ++ parts.getD 2 []]).err with
    | none =>
      have h3 : ¬ (numstatCount (parts.getD 0 []) > 0 ∧ numstatCount (parts.getD 1 []) = 0 ∧
          (none : Option Str) ≠ none) := fun hh => hh.2.2 rfl
      rw [if_neg h3, if_neg h2]
      rfl
    | some e =>
      have h3 : numstatCount (parts.getD 0 []) > 0 ∧ numstatCount (parts.getD 1 []) = 0 ∧
          (some e : Option Str) ≠ none := ⟨h1.1, h1.2, fun hh => Option.noConfusion hh⟩
      rw [if_pos h3]
      rfl
  · have h1' : ¬ (numstatCount (parts.getD 0 []) > 0 ∧ numstatCount (parts.getD 1 []) = 0 ∧
        (E.git k ["show".toList, hash ++ "^:".toList ++ parts.getD 2 []]).err ≠ none) :=
      fun hh => h1 ⟨hh.1, hh.2.1⟩
    rw [if_neg h1, if_neg h1']
    by_cases h2 : numstatCount (parts.getD 0 []) = 0 ∧ numstatCount (parts.getD 1 []) > 0
    · rw [if_pos h2]
      cases hg : (E.git k ["show".toList, hash ++ ":".toList ++ parts.getD 2 []]).err with
      | none =>
        have h3 : ¬ (numstatCount (parts.getD 0 []) = 0 ∧ numstatCount (parts.getD 1 []) > 0 ∧
            (none : Option Str) ≠ none) := fun hh => hh.2.2 rfl
        rw [if_neg h3]
        rfl
      | some e =>
        have h3 : numstatCount (parts.getD 0 []) = 0 ∧ numstatCount (parts.getD 1 []) > 0 ∧
            (some e : Option Str) ≠ none := ⟨h2.1, h2.2, fun hh => Option.noConfusion hh⟩
        rw [if_pos h3]
        rfl
    · have h2' : ¬ (numstatCount (parts.getD 0 []) = 0 ∧ numstatCount (parts.getD 1 []) > 0 ∧
          (E.git k ["show".toList, hash ++ ":".toList ++ parts.getD 2 []]).err ≠ none) :=
        fun hh => h2 ⟨hh.1, hh.2.1⟩
      rw [if_neg h2, if_neg h2']

/-- The change the loop makes of a row is the change of the specification,
for the number of processes run so far; the loop runs one process more when
the row is decided by a run of `git show`. -/
theorem numstatChange_row (E : Env) (s : Service) (hash : Str) (parts : List Str) :
    (numstatChange E s hash parts).1 = rowChange E hash s.trace.length parts ∧
    (numstatChange E s hash parts).2.trace.length
      = s.trace.length + (if rowProbes parts then 1 else 0) := by
  have hstat := rowChange_cases E hash s.trace.length parts
  have hrc : rowChange E hash s.trace.length parts
      = { Path := parts.getD 2 [], Status := (rowChange E hash s.trace.length parts).Status
          Additions := numstatCount (parts.getD 0 [])
          Deletions := numstatCount (parts.getD 1 []), OldPath := [] } := rfl
  rw [hrc, hstat]
  unfold numstatChange rowProbes
  simp only []
  by_cases h1 : numstatCount (parts.getD 0 []) > 0 ∧ numstatCount (parts.getD 1 []) = 0
  · obtain ⟨e1, e2⟩ := runGitCommand_err E s
      ["show".toList, hash ++ "^:".toList ++ parts.getD 2 []]
    rw [if_pos h1, if_pos h1]
    simp only []
    rw [e1, e2, decide_eq_true h1]
    exact ⟨rfl, rfl⟩
  · rw [if_neg h1, if_neg h1]
    by_cases h2 : numstatCount (parts.getD 0 []) = 0 ∧ numstatCount (parts.getD 1 []) > 0
    · obtain ⟨e1, e2⟩ := runGitCommand_err E s
        ["show".toList, hash ++ ":".toList ++ parts.getD 2 []]
      rw [if_pos h2, if_pos h2]
      simp only []
      rw [e1, e2, decide_eq_false h1, decide_eq_true h2]
      exact ⟨rfl, rfl⟩
    · rw [if_neg h2, if_neg h2]
      rw [decide_eq_false h1, decide_eq_false h2]
      exact ⟨rfl, rfl⟩

/-- The changes the numstat loop appends are, in order, those of the rows of
its lines, each for the number of processes run when its turn comes. -/
theorem numstatLoop_rows (E : Env) (hash : Str) :
    ∀ (lines : List Str) (s : Service) (acc : List FileChange),
      (numstatLoop E hash lines s acc).1 = acc ++ rowChanges E hash s.trace.length
        ((lines.filter (fun l => decide (l ≠ []) && decide (3 ≤ (Fields l).length))).map
          Fields) := by
  intro lines
  induction lines with
  | nil =>
    intro s acc
    simp [numstatLoop, rowChanges]
  | cons line rest ih =>
    intro s acc
    unfold numstatLoop
    by_cases h0 : line = []
    · have hf : ¬ ((decide (line ≠ []) && decide (3 ≤ (Fields line).length)) = true) := by
        rw [Bool.and_eq_true, decide_eq_true_eq, decide_eq_true_eq]
        exact fun hh => hh.1 h0
      have hfilt : (line :: rest).filter
          (fun l => decide (l ≠ []) && decide (3 ≤ (Fields l).length))
          = rest.filter (fun l => decide (l ≠ []) && decide (3 ≤ (Fields l).length)) :=
        List.filter_cons_of_neg hf
      rw [if_pos h0, ih, hfilt]
    · rw [if_neg h0]
      simp only []
      by_cases h3 : 3 ≤ (Fields line).length
      · have hf : (decide (line ≠ []) && decide (3 ≤ (Fields line).length)) = true := by
          rw [Bool.and_eq_true, decide_eq_true_eq, decide_eq_true_eq]
          exact ⟨h0, h3⟩
        have hfilt : (line :: rest).filter
            (fun l => decide (l ≠ []) && decide (3 ≤ (Fields l).length))
            = line :: rest.filter
              (fun l => decide (l ≠ []) && decide (3 ≤ (Fields l).length)) :=
          List.filter_cons_of_pos hf
        obtain ⟨c1, c2⟩ := numstatChange_row E s hash (Fields line)
        rw [if_pos h3, ih, hfilt, List.map_cons, c1, c2, List.append_assoc]
        rfl
      · have hf : ¬ ((decide (line ≠ []) && decide (3 ≤ (Fields line).length)) = true) := by
          rw [Bool.and_eq_true, decide_eq_true_eq, decide_eq_true_eq]
          exact fun hh => h3 hh.2
        have hfilt : (line :: rest).filter
            (fun l => decide (l ≠ []) && decide (3 ≤ (Fields l).length))
            = rest.filter (fun l => decide (l ≠ []) && decide (3 ≤ (Fields l).length)) :=
          List.filter_cons_of_neg hf
        rw [if_neg h3, ih, hfilt]

/-- The change of the i-th row: that of the specification, for the number of
processes run before the first row and for the rows before it. -/
theorem rowChanges_getElem (E : Env) (hash : Str) :
    ∀ (rows : List (List Str)) (k i : Nat),
      (rowChanges E hash k rows)[i]?
        = (rows[i]?).map (rowChange E hash (k + (rows.take i).countP rowProbes)) := by
  intro rows
  induction rows with
  | nil => intro k i; simp [rowChanges]
  | cons parts rest ih =>
    intro k i
    cases i with
    | zero => simp [rowChanges]
    | succ i =>
      rw [rowChanges, List.getElem?_cons_succ, ih, List.getElem?_cons_succ, List.take_succ_cons,
        List.countP_cons]
      have e : k + (if rowProbes parts = true then 1 else 0) + (rest.take i).countP rowProbes
          = k + ((rest.take i).countP rowProbes + if rowProbes parts = true then 1 else 0) := by
        omega
      rw [e]

/-- As many changes as rows. -/
theorem rowChanges_length (E : Env) (hash : Str) :
    ∀ (rows : List (List Str)) (k : Nat), (rowChanges E hash k rows).length = rows.length := by
  intro rows
  induction rows with
  | nil => intro k; rfl
  | cons parts rest ih =>
    intro k
    rw [rowChanges, List.length_cons, ih, List.length_cons]

/-- The status of the change of a row, as the specification tells it. -/
theorem rowChange_status (E : Env) (hash : Str) (k : Nat) (parts : List Str) :
    ((rowChange E hash k parts).Status = "M".toList ∨
      (rowChange E hash k parts).Status = "A".toList ∨
      (rowChange E hash k parts).Status = "D".toList) ∧
    ((rowChange E hash k parts).Status = "A".toList ↔
      numstatCount (parts.getD 0 []) > 0 ∧ numstatCount (parts.getD 1 []) = 0 ∧
      (E.git k ["show".toList, hash ++ "^:".toList ++ parts.getD 2 []]).err ≠ none) ∧
    ((rowChange E hash k parts).Status = "D".toList ↔
      numstatCount (parts.getD 0 []) = 0 ∧ numstatCount (parts.getD 1 []) > 0 ∧
      (E.git k ["show".toList, hash ++ ":".toList ++ parts.getD 2 []]).err ≠ none) := by
  have hAM : "A".toList ≠ "M".toList := by decide
  have hDM : "D".toList ≠ "M".toList := by decide
  have hAD : "A".toList ≠ "D".toList := by decide
  unfold rowChange
  simp only []
  by_cases h1 : numstatCount (parts.getD 0 []) > 0 ∧ numstatCount (parts.getD 1 []) = 0 ∧
      (E.git k ["show".toList, hash ++ "^:".toList ++ parts.getD 2 []]).err ≠ none
  · rw [if_pos h1]
    refine ⟨Or.inr (Or.inl rfl), ⟨fun _ => h1, fun _ => rfl⟩,
      ⟨fun h => absurd h hAD, fun h => ?_⟩⟩
    have := h1.1
    have := h.1
    omega
  · rw [if_neg h1]
    by_cases h2 : numstatCount (parts.getD 0 []) = 0 ∧ numstatCount (parts.getD 1 []) > 0 ∧
        (E.git k ["show".toList, hash ++ ":".toList ++ parts.getD 2 []]).err ≠ none
    · rw [if_pos h2]
      exact ⟨Or.inr (Or.inr rfl), ⟨fun h => absurd h.symm hAD, fun h => absurd h h1⟩,
        ⟨fun _ => h2, fun _ => rfl⟩⟩
    · rw [if_neg h2]
      exact ⟨Or.inl rfl, ⟨fun h => absurd h.symm hAM, fun h => absurd h h1⟩,
        ⟨fun h => absurd h.symm hDM, fun h => absurd h h2⟩⟩

/-- C17: every change `getCommitFileChanges` makes from a numstat row has the
status "M", "A" or "D"; the status is "A" exactly when the additions are
positive, the deletions are 0 and `git show hash^:path` fails, and "D"
exactly when the additions are 0, the deletions are positive and
`git show hash:path` fails; so "A" is given only if the deletions are 0 and
the path cannot be read from the parent tree, "D" only if the additions are 0
and the path cannot be read from the tree of the commit, and "M" otherwise.
The counts and the path of the change are those of the row. When the numstat
command succeeds and gives at least one change, these changes are what
`getCommitFileChanges` returns: one change for every row of the output, in
the order of the rows, the i-th change with the path and the counts of the
i-th row and with the status told above, where the run of `git show` that
decides it is the process run after the numstat command and after the runs
for the rows before. -/
theorem getCommitFileChanges_numstat_status (E : Env) (s : Service) (hash : Str) :
    (∀ (s' : Service) (parts : List Str),
      ((numstatChange E s' hash parts).1.Status = "M".toList ∨
        (numstatChange E s' hash parts).1.Status = "A".toList ∨
        (numstatChange E s' hash parts).1.Status = "D".toList) ∧
      ((numstatChange E s' hash parts).1.Status = "A".toList ↔
        (numstatChange E s' hash parts).1.Additions > 0 ∧
        (numstatChange E s' hash parts).1.Deletions = 0 ∧
        (runGitCommand E s' ["show".toList,
          hash ++ "^:".toList ++ (numstatChange E s' hash parts).1.Path]).1.2 ≠ none) ∧
      ((numstatChange E s' hash parts).1.Status = "D".toList ↔
        (numstatChange E s' hash parts).1.Additions = 0 ∧
        (numstatChange E s' hash parts).1.Deletions > 0 ∧
        (runGitCommand E s' ["show".toList,
          hash ++ ":".toList ++ (numstatChange E s' hash parts).1.Path]).1.2 ≠ none) ∧
      (numstatChange E s' hash parts).1.Additions = numstatCount (parts.getD 0 []) ∧
      (numstatChange E s' hash parts).1.Deletions = numstatCount (parts.getD 1 []) ∧
      (numstatChange E s' hash parts).1.Path = parts.getD 2 []) ∧
    ((runGitCommand E s
        ["show".toList, "--numstat".toList, "--format=".toList, hash]).1.2 = none →
      (numstatLoop E hash (Split (TrimSpace (runGitCommand E s
        ["show".toList, "--numstat".toList, "--format=".toList, hash]).1.1) "\n".toList)
        (runGitCommand E s
          ["show".toList, "--numstat".toList, "--format=".toList, hash]).2 []).1 ≠ [] →
      ∃ changes, (getCommitFileChanges E s hash).1 = (some changes, none) ∧
        ∀ c ∈ changes,
          (c.Status = "M".toList ∨ c.Status = "A".toList ∨ c.Status = "D".toList) ∧
          ∃ s' parts, 3 ≤ parts.length ∧ c = (numstatChange E s' hash parts).1) ∧
    (∀ output : Str,
      (runGitCommand E s
        ["show".toList, "--numstat".toList, "--format=".toList, hash]).1 = (output, none) →
      numstatRows output ≠ [] →
      ∃ changes, (getCommitFileChanges E s hash).1 = (some changes, none) ∧
        changes.length = (numstatRows output).length ∧
        ∀ (i : Nat) (parts : List Str), (numstatRows output)[i]? = some parts →
          ∃ c, changes[i]? = some c ∧
            c.Path = parts.getD 2 [] ∧
            c.Additions = numstatCount (parts.getD 0 []) ∧
            c.Deletions = numstatCount (parts.getD 1 []) ∧
            (c.Status = "M".toList ∨ c.Status = "A".toList ∨ c.Status = "D".toList) ∧
            (c.Status = "A".toList ↔
              c.Additions > 0 ∧ c.Deletions = 0 ∧
              (E.git (s.trace.length + 1 + ((numstatRows output).take i).countP rowProbes)
                ["show".toList, hash ++ "^:".toList ++ c.Path]).err ≠ none) ∧
            (c.Status = "D".toList ↔
              c.Additions = 0 ∧ c.Deletions > 0 ∧
              (E.git (s.trace.length + 1 + ((numstatRows output).take i).countP rowProbes)
                ["show".toList, hash ++ ":".toList ++ c.Path]).err ≠ none)) := by
  refine ⟨?_, ?_, ?_⟩
  · intro s' parts
    exact numstatChange_status E s' hash parts
  · intro hok hne
    refine ⟨(numstatLoop E hash (Split (TrimSpace (runGitCommand E s
        ["show".toList, "--numstat".toList, "--format=".toList, hash]).1.1) "\n".toList)
        (runGitCommand E s
          ["show".toList, "--numstat".toList, "--format=".toList, hash]).2 []).1, ?_, ?_⟩
    · unfold getCommitFileChanges
      simp only [hok]
      rw [if_neg (by
        intro h0
        exact hne (List.length_eq_zero.mp h0))]
    · intro c hc
      rcases numstatLoop_mem E hash _ _ [] c hc with m | ⟨s', parts, h3, rfl⟩
      · exact absurd m (List.not_mem_nil _)
      · exact ⟨(numstatChange_status E s' hash parts).1, s', parts, h3, rfl⟩
  · intro output hrun hne
    have ht := (runGitCommand_err E s
      ["show".toList, "--numstat".toList, "--format=".toList, hash]).2
    have hloop := numstatLoop_rows E hash (Split (TrimSpace output) "\n".toList)
      (runGitCommand E s ["show".toList, "--numstat".toList, "--format=".toList, hash]).2 []
    rw [ht, List.nil_append] at hloop
    have hrows : ((Split (TrimSpace output) "\n".toList).filter
        (fun l => decide (l ≠ []) && decide (3 ≤ (Fields l).length))).map Fields
        = numstatRows output := rfl
    rw [hrows] at hloop
    refine ⟨rowChanges E hash (s.trace.length + 1) (numstatRows output), ?_,
      rowChanges_length E hash _ _, ?_⟩
    · unfold getCommitFileChanges
      generalize runGitCommand E s
        ["show".toList, "--numstat".toList, "--format=".toList, hash] = r at hrun hloop
      obtain ⟨⟨o, e⟩, s1⟩ := r
      simp only [Prod.mk.injEq] at hrun
      obtain ⟨rfl, rfl⟩ := hrun
      simp only []
      simp only [] at hloop
      rw [hloop, if_neg (by
        rw [rowChanges_length]
        intro h0
        exact hne (List.length_eq_zero.mp h0))]
    · intro i parts hi
      refine ⟨rowChange E hash
        (s.trace.length + 1 + ((numstatRows output).take i).countP rowProbes) parts, ?_,
        rfl, rfl, rfl, ?_⟩
      · rw [rowChanges_getElem, hi]
        rfl
      · exact rowChange_status E hash _ parts

set_option maxRecDepth 16000 in
/-- Witness of C17: a commit with an added, a deleted and a modified file;
and a commit with four rows, where the path of the second row, and of that
row only, can be read from the parent tree: the second process run after the
numstat command, which is the run for the second row, is the one that succeeds. -/
theorem getCommitFileChanges_numstat_status_witness :
    (∃ changes, (getCommitFileChanges numstatEnv (NewService []) "abc123".toList).1
        = (some changes, none) ∧
      ∀ c ∈ changes,
        (c.Status = "M".toList ∨ c.Status = "A".toList ∨ c.Status = "D".toList) ∧
        ∃ s' parts, 3 ≤ parts.length ∧
          c = (numstatChange numstatEnv s' "abc123".toList parts).1) ∧
    ((getCommitFileChanges numstatEnv (NewService []) "abc123".toList).1.1.elems.map
      (fun c => (c.Path, c.Status, c.Additions, c.Deletions))
      = [("new.txt".toList, "A".toList, 3, 0), ("old.txt".toList, "D".toList, 0, 2),
         ("mod.txt".toList, "M".toList, 1, 1)]) ∧
    (∃ changes, (getCommitFileChanges probeOrderEnv (NewService []) "abc123".toList).1
        = (some changes, none) ∧
      changes.length
        = (numstatRows "3\t0\ta.txt\n2\t0\tb.txt\n1\t1\tc.txt\n0\t4\td.txt".toList).length ∧
      ∀ (i : Nat) (parts : List Str),
        (numstatRows "3\t0\ta.txt\n2\t0\tb.txt\n1\t1\tc.txt\n0\t4\td.txt".toList)[i]?
          = some parts →
        ∃ c, changes[i]? = some c ∧
          c.Path = parts.getD 2 [] ∧
          c.Additions = numstatCount (parts.getD 0 []) ∧
          c.Deletions = numstatCount (parts.getD 1 []) ∧
          (c.Status = "M".toList ∨ c.Status = "A".toList ∨ c.Status = "D".toList) ∧
          (c.Status = "A".toList ↔
            c.Additions > 0 ∧ c.Deletions = 0 ∧
            (probeOrderEnv.git ((NewService []).trace.length + 1 +
                ((numstatRows "3\t0\ta.txt\n2\t0\tb.txt\n1\t1\tc.txt\n0\t4\td.txt".toList).take
                  i).countP rowProbes)
              ["show".toList, "abc123".toList ++ "^:".toList ++ c.Path]).err ≠ none) ∧
          (c.Status = "D".toList ↔
            c.Additions = 0 ∧ c.Deletions > 0 ∧
            (probeOrderEnv.git ((NewService []).trace.length + 1 +
                ((numstatRows "3\t0\ta.txt\n2\t0\tb.txt\n1\t1\tc.txt\n0\t4\td.txt".toList).take
                  i).countP rowProbes)
              ["show".toList, "abc123".toList ++ ":".toList ++ c.Path]).err ≠ none)) ∧
    (numstatRows "3\t0\ta.txt\n2\t0\tb.txt\n1\t1\tc.txt\n0\t4\td.txt".toList
      = [["3".toList, "0".toList, "a.txt".toList], ["2".toList, "0".toList, "b.txt".toList],
         ["1".toList, "1".toList, "c.txt".toList], ["0".toList, "4".toList, "d.txt".toList]]) ∧
    ((getCommitFileChanges probeOrderEnv (NewService []) "abc123".toList).1.1.elems.map
      (fun c => (c.Path, c.Status, c.Additions, c.Deletions))
      = [("a.txt".toList, "A".toList, 3, 0), ("b.txt".toList, "M".toList, 2, 0),
         ("c.txt".toList, "M".toList, 1, 1), ("d.txt".toList, "D".toList, 0, 4)]) :=
  ⟨(getCommitFileChanges_numstat_status numstatEnv (NewService []) "abc123".toList).2.1
      (by decide) (by decide), by decide,
    (getCommitFileChanges_numstat_status probeOrderEnv (NewService []) "abc123".toList).2.2
      "3\t0\ta.txt\n2\t0\tb.txt\n1\t1\tc.txt\n0\t4\td.txt".toList (by decide) (by decide),
    by decide, by decide⟩

/-! ### Diff of a commit without parent -/

/-- C18: for a revision other than `uncommitted` and every path, when the diff
against the first parent `hash^` fails and the diff against the empty tree
`4b825dc642cb6eb9a060e54bf8d69288fbee4904` succeeds, `GetFileDiff` returns what
`parseFileDiff` makes of the output of the diff against the empty tree, a
non-nil result with a nil error; and `GetFileDiff` returns an error exactly
when both commands fail, the error of the second. -/
theorem GetFileDiff_falls_back_to_empty_tree (E : Env) (s : Service) (hash filePath : Str)
    (hc : hash ≠ "uncommitted".toList) :
    emptyTree = "4b825dc642cb6eb9a060e54bf8d69288fbee4904".toList ∧
    ((runGitCommand E s
        ["diff".toList, hash ++ "^".toList, hash, "--".toList, filePath]).1.2 ≠ none →
      (runGitCommand E
        (runGitCommand E s
          ["diff".toList, hash ++ "^".toList, hash, "--".toList, filePath]).2
        ["diff".toList, emptyTree, hash, "--".toList, filePath]).1.2 = none →
      GetFileDiff E s hash filePath
        = parseFileDiff E
            (runGitCommand E
              (runGitCommand E s
                ["diff".toList, hash ++ "^".toList, hash, "--".toList, filePath]).2
              ["diff".toList, emptyTree, hash, "--".toList, filePath]).2
            (runGitCommand E
              (runGitCommand E s
                ["diff".toList, hash ++ "^".toList, hash, "--".toList, filePath]).2
              ["diff".toList, emptyTree, hash, "--".toList, filePath]).1.1
            filePath hash ∧
      (GetFileDiff E s hash filePath).1.2 = none ∧
      (GetFileDiff E s hash filePath).1.1 ≠ none) ∧
    ((GetFileDiff E s hash filePath).1.2 ≠ none ↔
      (runGitCommand E s
        ["diff".toList, hash ++ "^".toList, hash, "--".toList, filePath]).1.2 ≠ none ∧
      (runGitCommand E
        (runGitCommand E s
          ["diff".toList, hash ++ "^".toList, hash, "--".toList, filePath]).2
        ["diff".toList, emptyTree, hash, "--".toList, filePath]).1.2 ≠ none) ∧
    ((GetFileDiff E s hash filePath).1.2 ≠ none →
      (GetFileDiff E s hash filePath).1 = (none,
        (runGitCommand E
          (runGitCommand E s
            ["diff".toList, hash ++ "^".toList, hash, "--".toList, filePath]).2
          ["diff".toList, emptyTree, hash, "--".toList, filePath]).1.2)) := by
  have hp : ∀ (t : Service) (d : Str),
      (parseFileDiff E t d filePath hash).1.2 = none ∧
      (parseFileDiff E t d filePath hash).1.1 ≠ none := by
    intro t d
    unfold parseFileDiff
    exact ⟨rfl, by simp⟩
  refine ⟨rfl, ?_, ?_, ?_⟩
  · intro h1 h2
    have hG : GetFileDiff E s hash filePath
        = parseFileDiff E
            (runGitCommand E
              (runGitCommand E s
                ["diff".toList, hash ++ "^".toList, hash, "--".toList, filePath]).2
              ["diff".toList, emptyTree, hash, "--".toList, filePath]).2
            (runGitCommand E
              (runGitCommand E s
                ["diff".toList, hash ++ "^".toList, hash, "--".toList, filePath]).2
              ["diff".toList, emptyTree, hash, "--".toList, filePath]).1.1
            filePath hash := by
      unfold GetFileDiff
      rw [if_neg hc]
      simp only []
      split
      · rename_i h
        exact absurd h h1
      · simp only [h2]
    rw [hG]
    exact ⟨rfl, hp _ _⟩
  · unfold GetFileDiff
    rw [if_neg hc]
    simp only []
    generalize runGitCommand E s
      ["diff".toList, hash ++ "^".toList, hash, "--".toList, filePath] = r1
    generalize runGitCommand E r1.2 ["diff".toList, emptyTree, hash, "--".toList, filePath] = r2
    obtain ⟨⟨o1, e1⟩, s1⟩ := r1
    obtain ⟨⟨o2, e2⟩, s2⟩ := r2
    cases e1 <;> cases e2 <;> simp [(hp _ _).1]
  · unfold GetFileDiff
    rw [if_neg hc]
    simp only []
    generalize runGitCommand E s
      ["diff".toList, hash ++ "^".toList, hash, "--".toList, filePath] = r1
    generalize runGitCommand E r1.2 ["diff".toList, emptyTree, hash, "--".toList, filePath] = r2
    obtain ⟨⟨o1, e1⟩, s1⟩ := r1
    obtain ⟨⟨o2, e2⟩, s2⟩ := r2
    cases e1 <;> cases e2 <;> simp [(hp _ _).1]

/-- Witness of C18: the file `f.txt` of the root commit `abc123`; the diff
against the parent fails, and the result is read from the diff against the
empty tree: one hunk of two added lines. -/
theorem GetFileDiff_falls_back_to_empty_tree_witness :
    ((GetFileDiff rootCommitEnv (NewService []) "abc123".toList "f.txt".toList).1.2 = none ∧
      (GetFileDiff rootCommitEnv (NewService []) "abc123".toList "f.txt".toList).1.1 ≠ none) ∧
    (GetFileDiff rootCommitEnv (NewService []) "abc123".toList "f.txt".toList).2.trace.take 2
      = [Event.git ["diff".toList, "abc123^".toList, "abc123".toList, "--".toList,
          "f.txt".toList],
         Event.git ["diff".toList, "4b825dc642cb6eb9a060e54bf8d69288fbee4904".toList,
          "abc123".toList, "--".toList, "f.txt".toList]] ∧
    ∃ fd h, (GetFileDiff rootCommitEnv (NewService []) "abc123".toList "f.txt".toList).1.1
        = some fd ∧ fd.Hunks = some [h] ∧
      h.Lines.elems.map DiffLine.Content = ["+a".toList, "+b".toList] :=
  ⟨((GetFileDiff_falls_back_to_empty_tree rootCommitEnv (NewService []) "abc123".toList
      "f.txt".toList (by decide)).2.1 (by decide) (by decide)).2,
    by decide, _, _, rfl, rfl, by decide⟩

/-! ### The kind of a tag -/

/-- C19: for the output `git tag -l` gives for a lightweight tag `v1.0` and an
annotated tag `v2.0`, `GetTags` returns two tags whose `Type` fields are
`commit` and `tag`, the object types printed by `%(objecttype)`: neither is
`lightweight` or `annotated`. -/
theorem GetTags_type_is_object_type :
    ∃ t1 t2, (GetTags (constEnv tagListOutput) (NewService []) 0 0).1
        = Except.ok (some [t1, t2], none) ∧
      t1.Name = "v1.0".toList ∧ t1.Type_ = "commit".toList ∧
      t2.Name = "v2.0".toList ∧ t2.Type_ = "tag".toList ∧
      ∀ t ∈ [t1, t2], t.Type_ ≠ "lightweight".toList ∧ t.Type_ ≠ "annotated".toList := by
  refine ⟨_, _, rfl, by decide, by decide, by decide, by decide, by decide⟩

/-! ### Timestamps that cannot be read -/

/-- A command run depends on the environment through `git` only. -/
theorem runGitCommand_congr (E E' : Env) (hg : E'.git = E.git) (s : Service)
    (args : List Str) : runGitCommand E' s args = runGitCommand E s args := by
  unfold runGitCommand
  rw [hg]

/-- The same holds for a run under a time limit. -/
theorem runGitCommandWithTimeout_congr (E E' : Env) (hg : E'.git = E.git) (s : Service)
    (timeout : Nat) (args : List Str) :
    runGitCommandWithTimeout E' s timeout args = runGitCommandWithTimeout E s timeout args := by
  unfold runGitCommandWithTimeout
  rw [hg]

/-- The decoration refs of a commit depend on the environment through `git` only. -/
theorem getCommitRefs_congr (E E' : Env) (hg : E'.git = E.git) (s : Service) (hash : Str) :
    getCommitRefs E' s hash = getCommitRefs E s hash := by
  unfold getCommitRefs
  rw [runGitCommand_congr E E' hg]

/-- Two environments with the same `git` take the loop of `GetCommitsWithOffset`
through the same states and to the same decoration refs, whatever their
`time.Parse` makes of the date fields. -/
theorem commitsLoop_refs_congr (E E' : Env) (hg : E'.git = E.git) :
    ∀ (lines : List Str) (s : Service) (acc acc' : List Commit),
      acc.map Commit.Refs = acc'.map Commit.Refs →
      (commitsLoop E' lines s acc').2 = (commitsLoop E lines s acc).2 ∧
      ∀ cs cs', (commitsLoop E lines s acc).1 = Except.ok cs →
        (commitsLoop E' lines s acc').1 = Except.ok cs' →
        cs.map Commit.Refs = cs'.map Commit.Refs := by
  intro lines
  induction lines with
  | nil =>
    intro s acc acc' h
    refine ⟨rfl, ?_⟩
    intro cs cs' h1 h2
    simp only [commitsLoop, Except.ok.injEq] at h1 h2
    rw [← h1, ← h2]
    exact h
  | cons line rest ih =>
    intro s acc acc' h
    unfold commitsLoop
    by_cases h0 : line = []
    · rw [if_pos h0, if_pos h0]
      exact ih s acc acc' h
    · rw [if_neg h0, if_neg h0]
      simp only []
      by_cases h7 : (Split line "|".toList).length < 7
      · rw [if_pos h7, if_pos h7]
        exact ih s acc acc' h
      · rw [if_neg h7, if_neg h7]
        cases hp : (Split line "|".toList)[7]? with
        | none =>
          refine ⟨rfl, ?_⟩
          intro cs cs' h1
          cases h1
        | some parentsField =>
          simp only []
          rw [getCommitRefs_congr E E' hg]
          apply ih
          simp only [List.map_append, List.map_cons, List.map_nil, h]

/-- The commits `GetCommitsWithOffset` returns are those its loop gives. -/
theorem GetCommitsWithOffset_loop (E : Env) (s : Service) (limit offset : Int) (branch : Str)
    (showAll : Bool) (output : Str) (commits : List Commit)
    (hrun : (runGitCommandWithTimeout E s (10 * Second)
      (logArgs limit offset branch showAll)).1 = (output, none))
    (h : (GetCommitsWithOffset E s limit offset branch showAll).1
      = Except.ok (some commits, none)) :
    (commitsLoop E (Split output "\n".toList)
      (runGitCommandWithTimeout E s (10 * Second)
        (logArgs limit offset branch showAll)).2 []).1 = Except.ok commits := by
  unfold GetCommitsWithOffset at h
  generalize runGitCommandWithTimeout E s (10 * Second) (logArgs limit offset branch showAll)
    = r at hrun h
  obtain ⟨⟨o, e⟩, s1⟩ := r
  simp only [Prod.mk.injEq] at hrun
  obtain ⟨rfl, rfl⟩ := hrun
  simp only [] at h
  split at h
  · simp at h
  · rename_i cs hcs
    simp only [Except.ok.injEq, Prod.mk.injEq, Option.some.injEq, and_true] at h
    rw [hcs, h]

/-- A commit is known from its decoration refs and the rest of it. -/
theorem Commit.eq_of_dropRefs (c c' : Commit) (h : c'.dropRefs = c.dropRefs)
    (hr : c'.Refs = c.Refs) : c' = c := by
  cases c
  cases c'
  simp only [Commit.dropRefs, Commit.mk.injEq] at h hr ⊢
  obtain ⟨a1, a2, a3, a4, a5, a6, a7, a8, _, a10, a11, a12⟩ := h
  exact ⟨a1, a2, a3, a4, a5, a6, a7, a8, hr, a10, a11, a12⟩

/-- C20: let the log output have no line of exactly seven fields, and let
`E'` be an environment with the same `git` as `E`, whose `time.Parse` may read
values that the one of `E` rejects. Then `GetCommitsWithOffset` returns in both
environments, with a commit for every line that is not skipped; the commit of
a line whose author date is rejected has the zero time as `Date`, the commit
of a line whose committer date is rejected has the zero time as `CommitDate`;
and the commit of a line on whose two date fields the environments agree is
the same in both, so that a rejected timestamp of one line changes nothing in
the commits of the other lines. -/
theorem GetCommitsWithOffset_bad_timestamp (E E' : Env) (s : Service)
    (limit offset : Int) (branch : Str) (showAll : Bool) (output : Str)
    (hg : E'.git = E.git)
    (hrun : (runGitCommandWithTimeout E s (10 * Second)
      (logArgs limit offset branch showAll)).1 = (output, none))
    (h7 : ∀ l ∈ Split output "\n".toList, fieldCount l ≠ 7) :
    ∃ commits commits',
      (GetCommitsWithOffset E s limit offset branch showAll).1
        = Except.ok (some commits, none) ∧
      (GetCommitsWithOffset E' s limit offset branch showAll).1
        = Except.ok (some commits', none) ∧
      ∀ (i : Nat) (l : Str), ((Split output "\n".toList).filter keptLine)[i]? = some l →
        ∃ c c', commits[i]? = some c ∧ commits'[i]? = some c' ∧
          c.Hash = field l 0 ∧
          (E.timeParse timeLayout (field l 5) = none → c.Date = zeroTime) ∧
          (E.timeParse timeLayout (field l 6) = none → c.CommitDate = zeroTime) ∧
          (E'.timeParse timeLayout (field l 5) = E.timeParse timeLayout (field l 5) →
            E'.timeParse timeLayout (field l 6) = E.timeParse timeLayout (field l 6) →
            c' = c) := by
  have hrun' : (runGitCommandWithTimeout E' s (10 * Second)
      (logArgs limit offset branch showAll)).1 = (output, none) := by
    rw [runGitCommandWithTimeout_congr E E' hg]
    exact hrun
  obtain ⟨commits, h1, h2⟩ :=
    GetCommitsWithOffset_ok E s limit offset branch showAll output hrun h7
  obtain ⟨commits', h1', h2'⟩ :=
    GetCommitsWithOffset_ok E' s limit offset branch showAll output hrun' h7
  have hl := GetCommitsWithOffset_loop E s limit offset branch showAll output commits hrun h1
  have hl' := GetCommitsWithOffset_loop E' s limit offset branch showAll output commits' hrun' h1'
  rw [runGitCommandWithTimeout_congr E E' hg] at hl'
  have hrefs := (commitsLoop_refs_congr E E' hg (Split output "\n".toList)
    (runGitCommandWithTimeout E s (10 * Second) (logArgs limit offset branch showAll)).2
    [] [] rfl).2 commits commits' hl hl'
  refine ⟨commits, commits', h1, h1', ?_⟩
  intro i l hi
  have e1 := congrArg (fun x => x[i]?) h2
  have e1' := congrArg (fun x => x[i]?) h2'
  have e2 := congrArg (fun x => x[i]?) hrefs
  simp only [List.getElem?_map, hi, Option.map_some'] at e1 e1' e2
  obtain ⟨c, hc, hcd⟩ := Option.map_eq_some'.mp e1
  obtain ⟨c', hc', hcd'⟩ := Option.map_eq_some'.mp e1'
  rw [hc, hc'] at e2
  simp only [Option.map_some', Option.some.injEq] at e2
  refine ⟨c, c', hc, hc', ?_, ?_, ?_, ?_⟩
  · have := congrArg Commit.Hash hcd
    exact this
  · intro hn
    have := congrArg Commit.Date hcd
    simp only [Commit.dropRefs, commitOfLine, parseTimeOrZero, hn] at this
    exact this
  · intro hn
    have := congrArg Commit.CommitDate hcd
    simp only [Commit.dropRefs, commitOfLine, parseTimeOrZero, hn] at this
    exact this
  · intro a5 a6
    apply Commit.eq_of_dropRefs c c' _ e2.symm
    rw [hcd, hcd']
    simp only [commitOfLine, parseTimeOrZero, a5, a6]

set_option maxRecDepth 16000 in
/-- Witness of C20: a log of three lines, the author date of the second with
the month 13. The second commit is returned with the zero time as `Date` and
its committer date read; the first and the third commit are what they are when
`time.Parse` accepts the month 13. -/
theorem GetCommitsWithOffset_bad_timestamp_witness :
    (∃ commits commits',
      (GetCommitsWithOffset (datedEnv badDateLog goodDates) (NewService []) 0 0 [] false).1
        = Except.ok (some commits, none) ∧
      (GetCommitsWithOffset
        (datedEnv badDateLog (("2024-13-01 10:00:00 +0000".toList, 1735725600) :: goodDates))
        (NewService []) 0 0 [] false).1 = Except.ok (some commits', none) ∧
      ∀ (i : Nat) (l : Str), ((Split badDateLog "\n".toList).filter keptLine)[i]? = some l →
        ∃ c c', commits[i]? = some c ∧ commits'[i]? = some c' ∧
          c.Hash = field l 0 ∧
          ((datedEnv badDateLog goodDates).timeParse timeLayout (field l 5) = none →
            c.Date = zeroTime) ∧
          ((datedEnv badDateLog goodDates).timeParse timeLayout (field l 6) = none →
            c.CommitDate = zeroTime) ∧
          ((datedEnv badDateLog
              (("2024-13-01 10:00:00 +0000".toList, 1735725600) :: goodDates)).timeParse
              timeLayout (field l 5)
            = (datedEnv badDateLog goodDates).timeParse timeLayout (field l 5) →
            (datedEnv badDateLog
              (("2024-13-01 10:00:00 +0000".toList, 1735725600) :: goodDates)).timeParse
              timeLayout (field l 6)
            = (datedEnv badDateLog goodDates).timeParse timeLayout (field l 6) →
            c' = c)) ∧
    ((GetCommitsWithOffset (datedEnv badDateLog goodDates) (NewService []) 0 0 [] false).1.map
      (fun r => r.1.elems.map (fun c => (c.Hash, c.Date, c.CommitDate))))
      = Except.ok [("h1".toList, 1704103200, 1704103200), ("h2".toList, zeroTime, 1704189600),
          ("h3".toList, 1704276000, 1704276000)] :=
  ⟨GetCommitsWithOffset_bad_timestamp (datedEnv badDateLog goodDates)
      (datedEnv badDateLog (("2024-13-01 10:00:00 +0000".toList, 1735725600) :: goodDates))
      (NewService []) 0 0 [] false badDateLog rfl (by rfl) (by decide),
    by decide⟩

/-! ### Decoration refs -/

/-- C21: `getCommitRefs` runs `git log --decorate=short --format=%D -1 <hash>`
and returns a nil error, whatever the command does; when the command fails,
or prints nothing but white space, the result is the empty, non-nil list; and
otherwise it is the output, trimmed by the command runner, split on `", "`,
each item trimmed of white space and the empty items dropped, in order. -/
theorem getCommitRefs_result (E : Env) (s : Service) (hash : Str) :
    (getCommitRefs E s hash).1.2 = none ∧
    (getCommitRefs E s hash).2.trace = s.trace ++
      [Event.git ["log".toList, "--decorate=short".toList, "--format=%D".toList, "-1".toList,
        hash]] ∧
    (((E.git s.trace.length ["log".toList, "--decorate=short".toList, "--format=%D".toList,
          "-1".toList, hash]).err ≠ none ∨
        TrimSpace (E.git s.trace.length ["log".toList, "--decorate=short".toList,
          "--format=%D".toList, "-1".toList, hash]).combined = []) →
      (getCommitRefs E s hash).1.1 = some []) ∧
    ((E.git s.trace.length ["log".toList, "--decorate=short".toList, "--format=%D".toList,
          "-1".toList, hash]).err = none →
      TrimSpace (E.git s.trace.length ["log".toList, "--decorate=short".toList,
          "--format=%D".toList, "-1".toList, hash]).combined ≠ [] →
      (getCommitRefs E s hash).1.1 = some
        (((Split (TrimSpace (E.git s.trace.length ["log".toList, "--decorate=short".toList,
            "--format=%D".toList, "-1".toList, hash]).combined) ", ".toList).map
          TrimSpace).filter (fun ref => ref ≠ []))) := by
  generalize hr : E.git s.trace.length ["log".toList, "--decorate=short".toList,
    "--format=%D".toList, "-1".toList, hash] = r
  have hrun : runGitCommand E s ["log".toList, "--decorate=short".toList,
      "--format=%D".toList, "-1".toList, hash]
      = (match r.err with
        | some e => (([], some (GoError.commandFailedWithOutput e r.combined)),
            { s with trace := s.trace ++ [Event.git ["log".toList, "--decorate=short".toList,
              "--format=%D".toList, "-1".toList, hash]] })
        | none => ((TrimSpace r.combined, none),
            { s with trace := s.trace ++ [Event.git ["log".toList, "--decorate=short".toList,
              "--format=%D".toList, "-1".toList, hash]] })) := by
    unfold runGitCommand
    rw [hr]
  unfold getCommitRefs
  rw [hrun]
  cases he : r.err with
  | some e =>
    refine ⟨rfl, rfl, fun _ => rfl, fun h => absurd h (by simp)⟩
  | none =>
    by_cases ht : TrimSpace r.combined = []
    · refine ⟨?_, ?_, fun _ => ?_, fun _ h => absurd ht h⟩ <;> simp [ht]
    · have hne : (TrimSpace r.combined).isEmpty = false := by
        cases hc : TrimSpace r.combined with
        | nil => exact absurd hc ht
        | cons x xs => rfl
      refine ⟨?_, ?_, fun h => ?_, fun _ _ => ?_⟩
      · simp [hne]
      · simp [hne]
      · rcases h with h | h
        · exact absurd rfl h
        · exact absurd h ht
      · simp [hne]

/-- Witness of C21: the decoration of a tagged tip of `main`. -/
theorem getCommitRefs_result_witness :
    (getCommitRefs decorationEnv (NewService []) "abc123".toList).1
      = (some ["HEAD -> main".toList, "tag: v1.0".toList, "origin/main".toList], none) ∧
    (getCommitRefs failEnv (NewService []) "abc123".toList).1 = (some [], none) ∧
    (getCommitRefs (constEnv " \n".toList) (NewService []) "abc123".toList).1
      = (some [], none) := by
  have h := getCommitRefs_result decorationEnv (NewService []) "abc123".toList
  have h1 := h.2.2.2 (by decide) (by decide)
  have f := getCommitRefs_result failEnv (NewService []) "abc123".toList
  have f1 := f.2.2.1 (Or.inl (by decide))
  have g := getCommitRefs_result (constEnv " \n".toList) (NewService []) "abc123".toList
  have g1 := g.2.2.1 (Or.inr (by decide))
  refine ⟨Prod.ext ?_ h.1, Prod.ext f1 f.1, Prod.ext g1 g.1⟩
  rw [h1]
  decide

/-! ### The gait of a commit list -/

/-- Every index below six is in the range of the colours. -/
theorem gaitColors_getElem (i : Nat) :
    gaitColors[i % gaitColors.length]? = some (gaitColors.getD (i % 6) []) := by
  have h6 : gaitColors.length = 6 := rfl
  rw [h6]
  have hlt : i % 6 < 6 := Nat.mod_lt _ (by decide)
  generalize i % 6 = j at hlt
  interval_cases j <;> rfl

/-- The loop of `generateSimpleGait` after its first `k` turns, for `n` commits. -/
theorem foldl_gaitStep (n : Nat) :
    ∀ k, k ≤ n →
      (List.range k).foldl gaitStep
          (Except.ok (List.replicate n { X := 0, Y := 0 }, []))
        = Except.ok ((List.range k).map gaitPoint ++ List.replicate (n - k) { X := 0, Y := 0 },
            (List.range k).tail.map gaitLine) := by
  intro k
  induction k with
  | zero => intro _; rfl
  | succ k ih =>
    intro hk
    have hkn : k < n := hk
    rw [List.range_succ, List.foldl_append, ih (Nat.le_of_lt hkn)]
    have hrep : List.replicate (n - k) ({ X := 0, Y := 0 } : GaitPoint)
        = { X := 0, Y := 0 } :: List.replicate (n - (k + 1)) { X := 0, Y := 0 } := by
      have e : n - k = (n - (k + 1)) + 1 := by omega
      rw [e, List.replicate_succ]
    have hlen : k < ((List.range k).map gaitPoint
        ++ List.replicate (n - k) ({ X := 0, Y := 0 } : GaitPoint)).length := by
      simp
      omega
    have hset : ((List.range k).map gaitPoint
          ++ List.replicate (n - k) ({ X := 0, Y := 0 } : GaitPoint)).set k { X := 0, Y := k }
        = (List.range k ++ [k]).map gaitPoint
          ++ List.replicate (n - (k + 1)) { X := 0, Y := 0 } := by
      rw [List.set_append, if_neg (by simp), hrep]
      simp [gaitPoint]
    simp only [List.foldl_cons, List.foldl_nil, gaitStep]
    rw [if_pos hlen, hset]
    by_cases h0 : k > 0
    · rw [if_pos h0, gaitColors_getElem]
      simp only []
      have ht : (List.range k ++ [k]).tail = (List.range k).tail ++ [k] := by
        apply List.tail_append_of_ne_nil
        intro e
        have := congrArg List.length e
        simp at this
        omega
      rw [ht]
      simp [gaitLine]
    · rw [if_neg h0]
      have hk0 : k = 0 := by omega
      subst hk0
      rfl

/-- For a list of `n` commits, `n` at least 1, `generateSimpleGait` returns the
gait of width 1 and height `n` with the points `(0, 0)` to `(0, n-1)` and the
`n-1` lines from `(0, i-1)` to `(0, i)`, `i` from 1, in the colour
`colors[i mod 6]`. -/
theorem generateSimpleGait_nonempty (commits : Slice Commit) (h : 1 ≤ commits.len) :
    generateSimpleGait commits = Except.ok
      { Points := some ((List.range commits.len).map gaitPoint)
        Lines := some ((List.range commits.len).tail.map gaitLine)
        Width := 1, Height := commits.len } := by
  unfold generateSimpleGait
  rw [if_neg (by omega), foldl_gaitStep commits.len commits.len (Nat.le_refl _)]
  simp

/-- C30: for the empty commit list, nil or not, `generateSimpleGait` does not
return: making the slice of lines with the capacity `len(commits)-1`, which is
-1, panics. For a list of three commits it returns the three points and the
two lines of the claim. -/
theorem generateSimpleGait_empty_panics :
    generateSimpleGait (some []) = Except.error (Panic.makesliceCapOutOfRange (-1)) ∧
    generateSimpleGait none = Except.error (Panic.makesliceCapOutOfRange (-1)) ∧
    ∀ c : Commit, generateSimpleGait (some [c, c, c]) = Except.ok
      { Points := some [{ X := 0, Y := 0 }, { X := 0, Y := 1 }, { X := 0, Y := 2 }]
        Lines := some
          [{ From := { X := 0, Y := 0 }, To := { X := 0, Y := 1 }, Color := "#bc3fbc".toList },
           { From := { X := 0, Y := 1 }, To := { X := 0, Y := 2 }, Color := "#00bc00".toList }]
        Width := 1, Height := 3 } := by
  refine ⟨rfl, rfl, fun c => rfl⟩

/-! ### Author and committer -/

/-- When the log command of `GetCommitsByTagWithOffset` succeeds and no line of
its output has exactly seven fields, the commits returned are those of the
lines that are not skipped, in order. -/
theorem GetCommitsByTagWithOffset_ok (E : Env) (s : Service) (tagName : Str)
    (limit offset : Int) (output : Str)
    (hrun : (runGitCommandWithTimeout E s (10 * Second)
      (tagLogArgs tagName limit offset)).1 = (output, none))
    (h7 : ∀ l ∈ Split output "\n".toList, fieldCount l ≠ 7) :
    ∃ commits, (GetCommitsByTagWithOffset E s tagName limit offset).1
        = Except.ok (some commits, none) ∧
      commits.map Commit.dropRefs
        = ((Split output "\n".toList).filter keptLine).map (commitOfLine E) := by
  obtain ⟨cs, h1, h2⟩ := commitsLoop_ok E (Split output "\n".toList)
    (runGitCommandWithTimeout E s (10 * Second) (tagLogArgs tagName limit offset)).2 [] h7
  refine ⟨cs, ?_, h2⟩
  unfold GetCommitsByTagWithOffset
  generalize runGitCommandWithTimeout E s (10 * Second) (tagLogArgs tagName limit offset)
    = r at hrun h1
  obtain ⟨⟨o, e⟩, s1⟩ := r
  simp only [Prod.mk.injEq] at hrun
  obtain ⟨rfl, rfl⟩ := hrun
  simp only []
  rw [h1]
  rfl

/-- The fields of the commits read from log lines: short hash, message,
author and committer. -/
theorem commitOfLine_people (E : Env) (commits : List Commit) (lines : List Str)
    (h : commits.map Commit.dropRefs = lines.map (commitOfLine E)) :
    commits.map (fun c => (c.ShortHash, c.Message, c.Author, c.Committer))
      = lines.map (fun l => (field l 1, field l 2,
          ({ Name := field l 3, Email := field l 4 } : Gait.Author),
          ({ Name := field l 3, Email := field l 4 } : Gait.Author))) ∧
    ∀ c ∈ commits, c.Committer = c.Author := by
  have e := congrArg (List.map (fun c : Commit => (c.ShortHash, c.Message, c.Author, c.Committer))) h
  simp only [List.map_map] at e
  have e1 : ((fun c : Commit => (c.ShortHash, c.Message, c.Author, c.Committer))
      ∘ Commit.dropRefs) = (fun c : Commit => (c.ShortHash, c.Message, c.Author, c.Committer)) := by
    funext c
    rfl
  have e2 : ((fun c : Commit => (c.ShortHash, c.Message, c.Author, c.Committer))
      ∘ commitOfLine E) = (fun l => (field l 1, field l 2,
          ({ Name := field l 3, Email := field l 4 } : Gait.Author),
          ({ Name := field l 3, Email := field l 4 } : Gait.Author))) := by
    funext l
    rfl
  rw [e1, e2] at e
  refine ⟨e, ?_⟩
  intro c hc
  have hm : (c.ShortHash, c.Message, c.Author, c.Committer) ∈
      commits.map (fun c => (c.ShortHash, c.Message, c.Author, c.Committer)) :=
    List.mem_map.mpr ⟨c, hc, rfl⟩
  rw [e] at hm
  obtain ⟨l, _, hl⟩ := List.mem_map.mp hm
  simp only [Prod.mk.injEq] at hl
  rw [← hl.2.2.1, ← hl.2.2.2]

/-- C29: when the log command succeeds and no line of its output has exactly
seven fields, the commits `GetCommitsWithOffset` and `GetCommitsByTagWithOffset`
return for the lines that are not skipped have, line by line, the second field
as `ShortHash`, the third as `Message`, and the fourth and the fifth as name
and email of both `Author` and `Committer`; and so has the commit
`GetCommitDetails` returns for an output of at least eight fields. In each the
committer equals the author. -/
theorem commit_committer_is_author (E : Env) (s : Service) :
    (∀ (limit offset : Int) (branch : Str) (showAll : Bool) (output : Str),
      (runGitCommandWithTimeout E s (10 * Second)
        (logArgs limit offset branch showAll)).1 = (output, none) →
      (∀ l ∈ Split output "\n".toList, fieldCount l ≠ 7) →
      ∃ commits, (GetCommitsWithOffset E s limit offset branch showAll).1
          = Except.ok (some commits, none) ∧
        commits.map (fun c => (c.ShortHash, c.Message, c.Author, c.Committer))
          = ((Split output "\n".toList).filter keptLine).map (fun l => (field l 1, field l 2,
              ({ Name := field l 3, Email := field l 4 } : Gait.Author),
              ({ Name := field l 3, Email := field l 4 } : Gait.Author))) ∧
        ∀ c ∈ commits, c.Committer = c.Author) ∧
    (∀ (tagName : Str) (limit offset : Int) (output : Str),
      (runGitCommandWithTimeout E s (10 * Second)
        (tagLogArgs tagName limit offset)).1 = (output, none) →
      (∀ l ∈ Split output "\n".toList, fieldCount l ≠ 7) →
      ∃ commits, (GetCommitsByTagWithOffset E s tagName limit offset).1
          = Except.ok (some commits, none) ∧
        commits.map (fun c => (c.ShortHash, c.Message, c.Author, c.Committer))
          = ((Split output "\n".toList).filter keptLine).map (fun l => (field l 1, field l 2,
              ({ Name := field l 3, Email := field l 4 } : Gait.Author),
              ({ Name := field l 3, Email := field l 4 } : Gait.Author))) ∧
        ∀ c ∈ commits, c.Committer = c.Author) ∧
    (∀ (hash output : Str),
      (runGitCommand E s
        ["log".toList, "--pretty=format:%H|%h|%s|%an|%ae|%ad|%cd|%P".toList,
         "--date=iso".toList, "-1".toList, hash]).1 = (output, none) →
      8 ≤ fieldCount output →
      ∃ c, (GetCommitDetails E s hash).1 = Except.ok (some c, none) ∧
        c.ShortHash = field output 1 ∧ c.Message = field output 2 ∧
        c.Author = { Name := field output 3, Email := field output 4 } ∧
        c.Committer = c.Author) := by
  refine ⟨?_, ?_, ?_⟩
  · intro limit offset branch showAll output hrun h7
    obtain ⟨commits, h1, h2⟩ :=
      GetCommitsWithOffset_ok E s limit offset branch showAll output hrun h7
    obtain ⟨p1, p2⟩ := commitOfLine_people E commits _ h2
    exact ⟨commits, h1, p1, p2⟩
  · intro tagName limit offset output hrun h7
    obtain ⟨commits, h1, h2⟩ :=
      GetCommitsByTagWithOffset_ok E s tagName limit offset output hrun h7
    obtain ⟨p1, p2⟩ := commitOfLine_people E commits _ h2
    exact ⟨commits, h1, p1, p2⟩
  · intro hash output hrun h8
    unfold GetCommitDetails
    generalize runGitCommand E s
      ["log".toList, "--pretty=format:%H|%h|%s|%an|%ae|%ad|%cd|%P".toList,
       "--date=iso".toList, "-1".toList, hash] = r at hrun
    obtain ⟨⟨o, e⟩, s1⟩ := r
    simp only [Prod.mk.injEq] at hrun
    obtain ⟨rfl, rfl⟩ := hrun
    simp only []
    have hlen : ¬ (Split o "|".toList).length < 7 := by
      unfold fieldCount at h8
      omega
    rw [if_neg hlen]
    cases hp : (Split o "|".toList)[7]? with
    | none =>
      rw [List.getElem?_eq_none_iff] at hp
      unfold fieldCount at h8
      omega
    | some parentsField => exact ⟨_, rfl, rfl, rfl, rfl, rfl⟩

set_option maxRecDepth 8000 in
/-- Witness of C29: the line of end-to-end scenario 1, printed by every run. -/
theorem commit_committer_is_author_witness :
    (∃ commits, (GetCommitsWithOffset (constEnv scenarioLine) (NewService []) 10 0 [] false).1
        = Except.ok (some commits, none) ∧
      commits.map (fun c => (c.ShortHash, c.Message, c.Author, c.Committer))
        = ((Split scenarioLine "\n".toList).filter keptLine).map (fun l => (field l 1, field l 2,
            ({ Name := field l 3, Email := field l 4 } : Gait.Author),
            ({ Name := field l 3, Email := field l 4 } : Gait.Author))) ∧
      ∀ c ∈ commits, c.Committer = c.Author) ∧
    (∃ commits, (GetCommitsByTagWithOffset (constEnv scenarioLine) (NewService [])
          "v1.0".toList 10 0).1 = Except.ok (some commits, none) ∧
      commits.map (fun c => (c.ShortHash, c.Message, c.Author, c.Committer))
        = ((Split scenarioLine "\n".toList).filter keptLine).map (fun l => (field l 1, field l 2,
            ({ Name := field l 3, Email := field l 4 } : Gait.Author),
            ({ Name := field l 3, Email := field l 4 } : Gait.Author))) ∧
      ∀ c ∈ commits, c.Committer = c.Author) ∧
    (∃ c, (GetCommitDetails (constEnv scenarioLine) (NewService []) "abc123".toList).1
        = Except.ok (some c, none) ∧
      c.ShortHash = field scenarioLine 1 ∧ c.Message = field scenarioLine 2 ∧
      c.Author = { Name := field scenarioLine 3, Email := field scenarioLine 4 } ∧
      c.Committer = c.Author) ∧
    (field scenarioLine 1, field scenarioLine 2, field scenarioLine 3, field scenarioLine 4)
      = ("abc12".toList, "Fix bug".toList, "Jane".toList, "jane@x.com".toList) :=
  ⟨(commit_committer_is_author (constEnv scenarioLine) (NewService [])).1 10 0 [] false
      scenarioLine (by rfl) (by decide),
    (commit_committer_is_author (constEnv scenarioLine) (NewService [])).2.1 "v1.0".toList 10 0
      scenarioLine (by rfl) (by decide),
    (commit_committer_is_author (constEnv scenarioLine) (NewService [])).2.2 "abc123".toList
      scenarioLine (by rfl) (by decide),
    by decide⟩

/-! ### Totality of the tag parser -/

/-- The body of the loop of `GetTags` returns a tag, with the trimmed first
field as its name, unless the line has exactly five fields, the fifth not empty. -/
theorem tagOfParts_ok (E : Env) (parts : List Str)
    (h : ¬ (parts.length = 5 ∧ parts.getD 4 [] ≠ [])) :
    ∃ tag, tagOfParts E parts = Except.ok tag ∧ tag.Name = TrimSpace (parts.getD 0 []) ∧
      tag.Hash = TrimSpace (parts.getD 1 []) ∧ tag.Type_ = TrimSpace (parts.getD 2 []) := by
  unfold tagOfParts
  simp only []
  cases hp : parts[5]? with
  | none =>
    have h4 : ¬ (4 < parts.length ∧ parts.getD 4 [] ≠ []) := by
      intro h4
      rw [List.getElem?_eq_none_iff] at hp
      exact h ⟨by omega, h4.2⟩
    rw [if_neg h4]
    simp only []
    split_ifs <;> (try simp only []) <;> (try split) <;> exact ⟨_, rfl, rfl, rfl, rfl⟩
  | some p5 =>
    simp only []
    split_ifs <;> (try simp only []) <;> (try split) <;> exact ⟨_, rfl, rfl, rfl, rfl⟩

/-- The loop of `GetTags` returns, with one tag for every line that is not
empty and has at least three fields, in order, when no line has exactly five
fields, the fifth not empty. -/
theorem tagsLoop_ok (E : Env) :
    ∀ (lines : List Str) (acc : List Tag),
      (∀ l ∈ lines, ¬ (fieldCount l = 5 ∧ field l 4 ≠ [])) →
      ∃ ts, tagsLoop E lines acc = Except.ok (acc ++ ts) ∧
        ts.map Tag.Name
          = (lines.filter (fun l => decide (l ≠ []) && decide (3 ≤ fieldCount l))).map
              (fun l => TrimSpace (field l 0)) := by
  intro lines
  induction lines with
  | nil =>
    intro acc _
    exact ⟨[], by simp [tagsLoop], by simp⟩
  | cons line rest ih =>
    intro acc h
    have hrest : ∀ l ∈ rest, ¬ (fieldCount l = 5 ∧ field l 4 ≠ []) :=
      fun l hl => h l (List.mem_cons_of_mem _ hl)
    have hline := h line (List.mem_cons_self _ _)
    unfold tagsLoop
    by_cases h0 : line = []
    · rw [if_pos h0]
      obtain ⟨ts, e1, e2⟩ := ih acc hrest
      refine ⟨ts, e1, ?_⟩
      have hf : ¬ ((decide (line ≠ []) && decide (3 ≤ fieldCount line)) = true) := by
        rw [Bool.and_eq_true, decide_eq_true_eq, decide_eq_true_eq]
        exact fun hh => hh.1 h0
      have hfilt : (line :: rest).filter (fun l => decide (l ≠ []) && decide (3 ≤ fieldCount l))
          = rest.filter (fun l => decide (l ≠ []) && decide (3 ≤ fieldCount l)) :=
        List.filter_cons_of_neg hf
      rw [e2, hfilt]
    · rw [if_neg h0]
      simp only []
      by_cases h3 : (Split line "|".toList).length < 3
      · rw [if_pos h3]
        obtain ⟨ts, e1, e2⟩ := ih acc hrest
        refine ⟨ts, e1, ?_⟩
        have hf : ¬ ((decide (line ≠ []) && decide (3 ≤ fieldCount line)) = true) := by
          rw [Bool.and_eq_true, decide_eq_true_eq, decide_eq_true_eq]
          intro hh
          have h3' : 3 ≤ (Split line "|".toList).length := hh.2
          omega
        have hfilt : (line :: rest).filter (fun l => decide (l ≠ []) && decide (3 ≤ fieldCount l))
            = rest.filter (fun l => decide (l ≠ []) && decide (3 ≤ fieldCount l)) :=
          List.filter_cons_of_neg hf
        rw [e2, hfilt]
      · rw [if_neg h3]
        obtain ⟨tag, t1, t2, _⟩ := tagOfParts_ok E (Split line "|".toList) hline
        rw [t1]
        simp only []
        obtain ⟨ts, e1, e2⟩ := ih (acc ++ [tag]) hrest
        refine ⟨tag :: ts, by rw [e1, List.append_assoc]; rfl, ?_⟩
        have hf : (decide (line ≠ []) && decide (3 ≤ fieldCount line)) = true := by
          rw [Bool.and_eq_true, decide_eq_true_eq, decide_eq_true_eq]
          exact ⟨h0, show 3 ≤ (Split line "|".toList).length by omega⟩
        have hfilt : (line :: rest).filter
            (fun l => decide (l ≠ []) && decide (3 ≤ fieldCount l))
            = line :: rest.filter (fun l => decide (l ≠ []) && decide (3 ≤ fieldCount l)) :=
          List.filter_cons_of_pos hf
        rw [hfilt, List.map_cons, List.map_cons, e2, t2]
        rfl

/-- C28: for the line `v1.0|abc1234|tag|Release|Jane`, of five fields, the loop
of `GetTags` reads `parts[5]` behind the guard `len(parts) > 4` and panics
with an index out of range; `GetTags` returns nothing. The same line with an
empty fifth field, and the line of seven fields, give a tag. -/
theorem GetTags_five_fields_panics :
    (GetTags (constEnv "v1.0|abc1234|tag|Release|Jane".toList) (NewService []) 0 0).1
      = Except.error (Panic.indexOutOfRange 5 5) ∧
    (∃ t, (GetTags (constEnv "v1.0|abc1234|tag|Release|".toList) (NewService []) 0 0).1
      = Except.ok (some [t], none)) ∧
    (∃ t, (GetTags (constEnv "v1.0|abc1234|tag|Release|Jane|j@x.com|".toList)
      (NewService []) 0 0).1 = Except.ok (some [t], none)) := by
  refine ⟨by decide, ⟨_, rfl⟩, ⟨_, rfl⟩⟩

/-! ### Saving and reading back a file -/

/-- The lines of the text written for a list of lines that is not empty: the
lines, and the empty piece after the last line break. -/
theorem Split_Join (l : Str) (rest : List Str) (h : ∀ x ∈ l :: rest, '\n' ∉ x) :
    Split (Join (l :: rest) "\n".toList ++ "\n".toList) "\n".toList = (l :: rest) ++ [[]] := by
  induction rest generalizing l with
  | nil =>
    show Split (l ++ '\n' :: []) "\n".toList = _
    rw [Split_line_append l [] (h l (List.mem_cons_self _ _))]
    rfl
  | cons m rest ih =>
    have e : Join (l :: m :: rest) "\n".toList ++ "\n".toList
        = l ++ '\n' :: (Join (m :: rest) "\n".toList ++ "\n".toList) := by
      show (l ++ "\n".toList ++ Join (m :: rest) "\n".toList) ++ "\n".toList = _
      simp [List.append_assoc]
    rw [e, Split_line_append l _ (h l (List.mem_cons_self _ _)),
      ih m (fun x hx => h x (List.mem_cons_of_mem _ hx))]
    rfl

/-- The lines read back from the text written for a list of lines. -/
theorem Split_fileText (content : List Str) (h : ∀ x ∈ content, '\n' ∉ x) :
    Split (fileText (some content)) "\n".toList = content ++ [[]] := by
  cases content with
  | nil => rfl
  | cons l rest =>
    have e : fileText (some (l :: rest)) = Join (l :: rest) "\n".toList ++ "\n".toList := by
      unfold fileText
      rw [if_pos (by simp [Slice.len])]
      rfl
    rw [e, Split_Join l rest h]

/-- C27: let `content` be a list of lines without line break, the empty list
and empty lines included. When the directory can be made and the file
written, `SaveFileContent` returns no error and writes the lines joined by
line breaks, with a final line break when the list is not empty; and when the
file system then gives back the text written, `GetFileContent` reads, for
`uncommitted` and the same path, exactly `content`, with a nil error. -/
theorem SaveFileContent_round_trip (E : Env) (s : Service) (filePath : Str)
    (content : List Str) (hnl : ∀ l ∈ content, '\n' ∉ l)
    (hdir : E.mkdirAll s.trace.length s.repoPath filePath = none)
    (hwrite : E.writeFile (s.trace.length + 1) s.repoPath filePath (fileText (some content))
      = none)
    (hread : E.readFile (s.trace.length + 2) s.repoPath filePath
      = Except.ok (fileText (some content))) :
    (SaveFileContent E s filePath (some content)).1 = none ∧
    (SaveFileContent E s filePath (some content)).2.trace = s.trace ++
      [Event.mkdirAll s.repoPath filePath,
       Event.writeFile s.repoPath filePath (fileText (some content))] ∧
    fileText (some content)
      = Join content "\n".toList ++ (if content.length > 0 then "\n".toList else []) ∧
    (GetFileContent E (SaveFileContent E s filePath (some content)).2 "uncommitted".toList
      filePath).1 = (some content, none) := by
  have hs : SaveFileContent E s filePath (some content)
      = (none, { s with trace := s.trace ++
          [Event.mkdirAll s.repoPath filePath,
           Event.writeFile s.repoPath filePath (fileText (some content))] }) := by
    unfold SaveFileContent
    simp only [hdir, List.length_append, List.length_singleton, hwrite, List.append_assoc,
      List.singleton_append]
  rw [hs]
  refine ⟨rfl, rfl, ?_, ?_⟩
  · unfold fileText
    by_cases hc : content.length > 0
    · rw [if_pos hc, if_pos (by simpa [Slice.len] using hc)]
      rfl
    · rw [if_neg hc, if_neg (by simpa [Slice.len] using hc)]
      simp [Slice.elems]
  · unfold GetFileContent
    rw [if_pos rfl]
    have hl : (s.trace ++ [Event.mkdirAll s.repoPath filePath,
        Event.writeFile s.repoPath filePath (fileText (some content))]).length
        = s.trace.length + 2 := by simp
    simp only [hl, hread, Split_fileText content hnl]
    rw [if_pos (by simp)]
    simp

/-- Witness of C27: the lines `a`, the empty line and `b`. -/
theorem SaveFileContent_round_trip_witness :
    (SaveFileContent savedEnv (NewService []) "f.txt".toList
      (some ["a".toList, [], "b".toList])).1 = none ∧
    (SaveFileContent savedEnv (NewService []) "f.txt".toList
      (some ["a".toList, [], "b".toList])).2.trace = (NewService []).trace ++
      [Event.mkdirAll (NewService []).repoPath "f.txt".toList,
       Event.writeFile (NewService []).repoPath "f.txt".toList
        (fileText (some ["a".toList, [], "b".toList]))] ∧
    fileText (some ["a".toList, [], "b".toList])
      = Join ["a".toList, [], "b".toList] "\n".toList ++
        (if ["a".toList, [], "b".toList].length > 0 then "\n".toList else []) ∧
    (GetFileContent savedEnv
      (SaveFileContent savedEnv (NewService []) "f.txt".toList
        (some ["a".toList, [], "b".toList])).2 "uncommitted".toList "f.txt".toList).1
      = (some ["a".toList, [], "b".toList], none) :=
  SaveFileContent_round_trip savedEnv (NewService []) "f.txt".toList
    ["a".toList, [], "b".toList] (by decide) rfl rfl rfl

/-! ### Line numbers of a hunk -/

/-- A hunk without recorded lines is numbered from its starts. -/
theorem DiffHunk.Numbered_empty (a b c d : Int) (hdr : Str) :
    ({ OldStart := a, OldLines := b, NewStart := c, NewLines := d, Header := hdr
       Lines := some [] } : DiffHunk).Numbered :=
  ⟨rfl, rfl, fun l hl => absurd hl (List.not_mem_nil l)⟩

/-- Recording one more line, with the numbers of the counters, keeps a hunk
numbered from its starts. -/
theorem DiffHunk.Numbered_push (h : DiffHunk) (dl : DiffLine) (hN : h.Numbered)
    (hold : dl.onOldSide = true → dl.OldNum = Nat.iterate incr h.oldCount h.OldStart)
    (hnew : dl.onNewSide = true → dl.NewNum = Nat.iterate incr h.newCount h.NewStart)
    (hty : (dl.Type_ = "context".toList ∨ dl.Type_ = "addition".toList ∨
        dl.Type_ = "deletion".toList) ∧
      (dl.Type_ = "addition".toList → dl.OldNum = 0) ∧
      (dl.Type_ = "deletion".toList → dl.NewNum = 0)) :
    ({ h with Lines := some (h.Lines.elems ++ [dl]) } : DiffHunk).Numbered ∧
    ({ h with Lines := some (h.Lines.elems ++ [dl]) } : DiffHunk).oldCount
      = h.oldCount + (if dl.onOldSide = true then 1 else 0) ∧
    ({ h with Lines := some (h.Lines.elems ++ [dl]) } : DiffHunk).newCount
      = h.newCount + (if dl.onNewSide = true then 1 else 0) := by
  obtain ⟨h1, h2, h3⟩ := hN
  have co : ({ h with Lines := some (h.Lines.elems ++ [dl]) } : DiffHunk).oldCount
      = h.oldCount + (if dl.onOldSide = true then 1 else 0) := by
    unfold DiffHunk.oldCount
    show ((h.Lines.elems ++ [dl]).filter DiffLine.onOldSide).length = _
    rw [List.filter_append, List.length_append]
    by_cases hd : dl.onOldSide = true
    · rw [List.filter_cons_of_pos hd, if_pos hd]
      rfl
    · rw [List.filter_cons_of_neg hd, if_neg hd]
      rfl
  have cn : ({ h with Lines := some (h.Lines.elems ++ [dl]) } : DiffHunk).newCount
      = h.newCount + (if dl.onNewSide = true then 1 else 0) := by
    unfold DiffHunk.newCount
    show ((h.Lines.elems ++ [dl]).filter DiffLine.onNewSide).length = _
    rw [List.filter_append, List.length_append]
    by_cases hd : dl.onNewSide = true
    · rw [List.filter_cons_of_pos hd, if_pos hd]
      rfl
    · rw [List.filter_cons_of_neg hd, if_neg hd]
      rfl
  refine ⟨⟨?_, ?_, ?_⟩, co, cn⟩
  · rw [co]
    show ((h.Lines.elems ++ [dl]).filter DiffLine.onOldSide).map DiffLine.OldNum = _
    rw [List.filter_append, List.map_append]
    have h1' : (h.Lines.elems.filter DiffLine.onOldSide).map DiffLine.OldNum
        = (List.range h.oldCount).map (fun k => Nat.iterate incr k h.OldStart) := h1
    rw [h1']
    by_cases hd : dl.onOldSide = true
    · rw [List.filter_cons_of_pos hd, if_pos hd, List.range_succ, List.map_append]
      simp only [List.filter_nil, List.map_cons, List.map_nil]
      rw [hold hd]
    · rw [List.filter_cons_of_neg hd, if_neg hd]
      simp
  · rw [cn]
    show ((h.Lines.elems ++ [dl]).filter DiffLine.onNewSide).map DiffLine.NewNum = _
    rw [List.filter_append, List.map_append]
    have h2' : (h.Lines.elems.filter DiffLine.onNewSide).map DiffLine.NewNum
        = (List.range h.newCount).map (fun k => Nat.iterate incr k h.NewStart) := h2
    rw [h2']
    by_cases hd : dl.onNewSide = true
    · rw [List.filter_cons_of_pos hd, if_pos hd, List.range_succ, List.map_append]
      simp only [List.filter_nil, List.map_cons, List.map_nil]
      rw [hnew hd]
    · rw [List.filter_cons_of_neg hd, if_neg hd]
      simp
  · intro l hl
    have hl' : l ∈ h.Lines.elems ++ [dl] := hl
    rcases List.mem_append.mp hl' with m | m
    · exact h3 l m
    · rw [List.mem_singleton] at m
      rw [m]
      exact hty

/-- Recording a deletion with the number of the old counter. -/
theorem DiffHunk.Numbered_push_deletion (h : DiffHunk) (line : Str) (o : Int)
    (hN : h.Numbered) (ho : o = Nat.iterate incr h.oldCount h.OldStart) :
    ({ h with Lines := some (h.Lines.elems ++
      [{ Type_ := "deletion".toList, Content := line, OldNum := o, NewNum := 0 }]) }
        : DiffHunk).Numbered ∧
    ({ h with Lines := some (h.Lines.elems ++
      [{ Type_ := "deletion".toList, Content := line, OldNum := o, NewNum := 0 }]) }
        : DiffHunk).oldCount = h.oldCount + 1 ∧
    ({ h with Lines := some (h.Lines.elems ++
      [{ Type_ := "deletion".toList, Content := line, OldNum := o, NewNum := 0 }]) }
        : DiffHunk).newCount = h.newCount := by
  have hne : "deletion".toList ≠ "addition".toList := by decide
  exact DiffHunk.Numbered_push h
    { Type_ := "deletion".toList, Content := line, OldNum := o, NewNum := 0 }
    hN (fun _ => ho) (fun hx => Bool.noConfusion hx)
    ⟨Or.inr (Or.inr rfl), fun e => absurd e hne, fun _ => rfl⟩

/-- Recording an addition with the number of the new counter. -/
theorem DiffHunk.Numbered_push_addition (h : DiffHunk) (line : Str) (n : Int)
    (hN : h.Numbered) (hn : n = Nat.iterate incr h.newCount h.NewStart) :
    ({ h with Lines := some (h.Lines.elems ++
      [{ Type_ := "addition".toList, Content := line, OldNum := 0, NewNum := n }]) }
        : DiffHunk).Numbered ∧
    ({ h with Lines := some (h.Lines.elems ++
      [{ Type_ := "addition".toList, Content := line, OldNum := 0, NewNum := n }]) }
        : DiffHunk).oldCount = h.oldCount ∧
    ({ h with Lines := some (h.Lines.elems ++
      [{ Type_ := "addition".toList, Content := line, OldNum := 0, NewNum := n }]) }
        : DiffHunk).newCount = h.newCount + 1 := by
  have hne : "addition".toList ≠ "deletion".toList := by decide
  exact DiffHunk.Numbered_push h
    { Type_ := "addition".toList, Content := line, OldNum := 0, NewNum := n }
    hN (fun hx => Bool.noConfusion hx) (fun _ => hn)
    ⟨Or.inr (Or.inl rfl), fun _ => rfl, fun e => absurd e hne⟩

/-- Recording a context line with the numbers of both counters. -/
theorem DiffHunk.Numbered_push_context (h : DiffHunk) (line : Str) (o n : Int)
    (hN : h.Numbered) (ho : o = Nat.iterate incr h.oldCount h.OldStart)
    (hn : n = Nat.iterate incr h.newCount h.NewStart) :
    ({ h with Lines := some (h.Lines.elems ++
      [{ Type_ := "context".toList, Content := line, OldNum := o, NewNum := n }]) }
        : DiffHunk).Numbered ∧
    ({ h with Lines := some (h.Lines.elems ++
      [{ Type_ := "context".toList, Content := line, OldNum := o, NewNum := n }]) }
        : DiffHunk).oldCount = h.oldCount + 1 ∧
    ({ h with Lines := some (h.Lines.elems ++
      [{ Type_ := "context".toList, Content := line, OldNum := o, NewNum := n }]) }
        : DiffHunk).newCount = h.newCount + 1 := by
  have hne1 : "context".toList ≠ "addition".toList := by decide
  have hne2 : "context".toList ≠ "deletion".toList := by decide
  exact DiffHunk.Numbered_push h
    { Type_ := "context".toList, Content := line, OldNum := o, NewNum := n }
    hN (fun _ => ho) (fun _ => hn)
    ⟨Or.inl rfl, fun e => absurd e hne1, fun e => absurd e hne2⟩

/-- One turn of the loop of `parseFileDiff` keeps the hunks numbered from
their starts, whatever the line is. -/
theorem diffStep_Numbered (st : DiffState) (line : Str) (hN : st.Numbered) :
    (diffStep st line).Numbered := by
  obtain ⟨hh, hc⟩ := hN
  have hflush : ∀ h ∈ (match st.currentHunk with
      | some h => st.hunks ++ [h]
      | none => st.hunks), h.Numbered := by
    cases hcur : st.currentHunk with
    | none => exact hh
    | some h =>
      intro x hx
      rcases List.mem_append.mp hx with m | m
      · exact hh x m
      · rw [List.mem_singleton] at m
        rw [m]
        exact (hc h hcur).1
  unfold diffStep
  by_cases hp : HasPrefix line "@@".toList = true
  · rw [if_pos hp]
    simp only []
    cases hf : findHeader line with
    | none => exact ⟨hflush, hc⟩
    | some m =>
      obtain ⟨m1, m2, m3, m4, m5⟩ := m
      refine ⟨hflush, fun h e => ?_⟩
      simp only [Option.some.injEq] at e
      rw [← e]
      exact ⟨DiffHunk.Numbered_empty _ _ _ _ _, rfl, rfl⟩
  · rw [if_neg hp]
    cases hcur : st.currentHunk with
    | none =>
      refine ⟨hh, fun h e => ?_⟩
      rw [hcur] at e
      cases e
    | some h =>
      obtain ⟨hNum, ho, hn⟩ := hc h hcur
      have hst : st.Numbered := ⟨hh, hc⟩
      simp only []
      by_cases hpre : (!HasPrefix line "diff".toList && !HasPrefix line "index".toList &&
          !HasPrefix line "+++".toList && !HasPrefix line "---".toList) = true
      · rw [if_pos hpre]
        by_cases hd : HasPrefix line "-".toList = true
        · rw [if_pos hd]
          obtain ⟨p1, p2, p3⟩ := DiffHunk.Numbered_push_deletion h line st.oldLineNum hNum ho
          refine ⟨hh, fun h' e => ?_⟩
          simp only [Option.some.injEq] at e
          rw [← e]
          refine ⟨p1, ?_, ?_⟩
          · show incr st.oldLineNum = _
            rw [p2, Function.iterate_succ_apply', ho]
          · show st.newLineNum = _
            rw [p3]
            exact hn
        · rw [if_neg hd]
          by_cases ha : HasPrefix line "+".toList = true
          · rw [if_pos ha]
            obtain ⟨p1, p2, p3⟩ := DiffHunk.Numbered_push_addition h line st.newLineNum hNum hn
            refine ⟨hh, fun h' e => ?_⟩
            simp only [Option.some.injEq] at e
            rw [← e]
            refine ⟨p1, ?_, ?_⟩
            · show st.oldLineNum = _
              rw [p2]
              exact ho
            · show incr st.newLineNum = _
              rw [p3, Function.iterate_succ_apply', hn]
          · rw [if_neg ha]
            by_cases hs : (HasPrefix line " ".toList || line.isEmpty) = true
            · rw [if_pos hs]
              obtain ⟨p1, p2, p3⟩ := DiffHunk.Numbered_push_context h line st.oldLineNum
                st.newLineNum hNum ho hn
              refine ⟨hh, fun h' e => ?_⟩
              simp only [Option.some.injEq] at e
              rw [← e]
              refine ⟨p1, ?_, ?_⟩
              · show incr st.oldLineNum = _
                rw [p2, Function.iterate_succ_apply', ho]
              · show incr st.newLineNum = _
                rw [p3, Function.iterate_succ_apply', hn]
            · rw [if_neg hs]
              exact hst
      · rw [if_neg hpre]
        exact hst

/-- The loop of `parseFileDiff` keeps the hunks numbered from their starts. -/
theorem foldl_diffStep_Numbered :
    ∀ (lines : List Str) (st : DiffState), st.Numbered → (lines.foldl diffStep st).Numbered := by
  intro lines
  induction lines with
  | nil => intro st h; exact h
  | cons l rest ih =>
    intro st h
    exact ih _ (diffStep_Numbered st l h)

/-- Every hunk read from the lines of a diff is numbered from its starts. -/
theorem parseHunks_Numbered (lines : List Str) : ∀ h ∈ parseHunks lines, h.Numbered := by
  have hN := foldl_diffStep_Numbered lines
    { hunks := [], currentHunk := none, oldLineNum := 0, newLineNum := 0 }
    ⟨fun h hh => absurd hh (List.not_mem_nil h), fun h e => by cases e⟩
  intro h hh
  unfold parseHunks at hh
  simp only [] at hh
  cases hcur : (lines.foldl diffStep
      { hunks := [], currentHunk := none, oldLineNum := 0, newLineNum := 0 }).currentHunk with
  | none =>
    rw [hcur] at hh
    exact hN.1 h hh
  | some c =>
    rw [hcur] at hh
    rcases List.mem_append.mp hh with m | m
    · exact hN.1 h m
    · rw [List.mem_singleton] at m
      rw [m]
      exact (hN.2 c hcur).1

/-- Under `++` a number goes up by one as long as the largest `int` is not passed. -/
theorem iterate_incr (a : Int) :
    ∀ k : Nat, a + k ≤ (maxInt : Int) → Nat.iterate incr k a = a + k := by
  intro k
  induction k with
  | zero => intro _; simp
  | succ k ih =>
    intro hk
    have hk' : a + (k : Int) ≤ (maxInt : Int) := by
      push_cast at hk
      omega
    rw [Function.iterate_succ_apply', ih hk']
    unfold incr
    rw [if_neg (by push_cast at hk; omega)]
    push_cast
    omega

/-- The numbers `a`, `a+1`, ... are what `++` gives as long as the largest
`int` is not passed. -/
theorem map_iterate_incr (a : Int) (c : Nat) (h : a + c ≤ (maxInt : Int) + 1) :
    (List.range c).map (fun k => Nat.iterate incr k a)
      = (List.range c).map (fun k : Nat => a + (k : Int)) := by
  apply List.map_congr_left
  intro k hk
  rw [List.mem_range] at hk
  apply iterate_incr
  have : (k : Int) + 1 ≤ c := by exact_mod_cast hk
  omega

/-- C24: in every hunk `parseFileDiff` returns, for every diff text, the
recorded lines of type context or deletion carry as `OldNum` the numbers
`OldStart`, `OldStart++`, ... in order, and those of type context or addition
carry as `NewNum` the numbers `NewStart`, `NewStart++`, ...; every recorded
line is a context line, an addition or a deletion, an addition has `OldNum`
0 and a deletion has `NewNum` 0. The increment is that of a Go `int`; as long
as the largest `int` is not passed the numbers are `OldStart + k` and
`NewStart + k` for `k` = 0, 1, 2, ... -/
theorem parseFileDiff_line_numbers (E : Env) (s : Service) (diffOutput filePath hash : Str) :
    ∃ fd hunks, (parseFileDiff E s diffOutput filePath hash).1 = (some fd, none) ∧
      fd.Hunks = some hunks ∧
      ∀ h ∈ hunks,
        h.oldNums = (List.range h.oldCount).map (fun k => Nat.iterate incr k h.OldStart) ∧
        h.newNums = (List.range h.newCount).map (fun k => Nat.iterate incr k h.NewStart) ∧
        (∀ l ∈ h.Lines.elems,
          (l.Type_ = "context".toList ∨ l.Type_ = "addition".toList ∨
            l.Type_ = "deletion".toList) ∧
          (l.Type_ = "addition".toList → l.OldNum = 0) ∧
          (l.Type_ = "deletion".toList → l.NewNum = 0)) ∧
        (h.OldStart + h.oldCount ≤ (maxInt : Int) + 1 →
          h.oldNums = (List.range h.oldCount).map (fun k : Nat => h.OldStart + (k : Int))) ∧
        (h.NewStart + h.newCount ≤ (maxInt : Int) + 1 →
          h.newNums = (List.range h.newCount).map (fun k : Nat => h.NewStart + (k : Int))) := by
  obtain ⟨fd, e1, e2⟩ := parseFileDiff_hunks E s diffOutput filePath hash
  refine ⟨fd, _, e1, e2, ?_⟩
  intro h hh
  obtain ⟨n1, n2, n3⟩ := parseHunks_Numbered _ h hh
  refine ⟨n1, n2, n3, ?_, ?_⟩
  · intro hb
    rw [n1]
    exact map_iterate_incr _ _ hb
  · intro hb
    rw [n2]
    exact map_iterate_incr _ _ hb

/-- Witness of C24: the hunk of end-to-end scenario 2, with the old numbers
10, 11 and the new numbers 10, 11, 12. -/
theorem parseFileDiff_line_numbers_witness :
    ∃ fd, (parseFileDiff (constEnv []) (NewService []) scenarioDiff "f.txt".toList
        "abc123".toList).1 = (some fd, none) ∧
      fd.Hunks = some [(scenarioHunk "unchanged".toList "removed".toList "added one".toList
        "added two".toList).hunk] ∧
      (scenarioHunk "unchanged".toList "removed".toList "added one".toList
        "added two".toList).hunk.oldNums
        = (List.range 2).map (fun k : Nat => (10 : Int) + (k : Int)) ∧
      (scenarioHunk "unchanged".toList "removed".toList "added one".toList
        "added two".toList).hunk.newNums
        = (List.range 3).map (fun k : Nat => (10 : Int) + (k : Int)) := by
  obtain ⟨fd, hunks, e1, e2, hall⟩ := parseFileDiff_line_numbers (constEnv []) (NewService [])
    scenarioDiff "f.txt".toList "abc123".toList
  obtain ⟨fd', e1', e2'⟩ := parseFileDiff_hunks (constEnv []) (NewService [])
    scenarioDiff "f.txt".toList "abc123".toList
  have hfd : fd = fd' := by
    rw [e1'] at e1
    simp only [Prod.mk.injEq, Option.some.injEq, and_true] at e1
    exact e1.symm
  have hP : parseHunks (Split scenarioDiff "\n".toList)
      = [(scenarioHunk "unchanged".toList "removed".toList "added one".toList
        "added two".toList).hunk] := by decide
  have hh : hunks = [(scenarioHunk "unchanged".toList "removed".toList "added one".toList
        "added two".toList).hunk] := by
    rw [hfd, e2', hP] at e2
    simp only [Option.some.injEq] at e2
    exact e2.symm
  obtain ⟨_, _, _, n4, n5⟩ := hall _ (by rw [hh]; exact List.mem_singleton_self _)
  exact ⟨fd, e1, by rw [e2, hh], n4 (by decide), n5 (by decide)⟩

/-! ### Hunks and their headers -/

/-- The turn of the loop on a line that does not start with `@@`, inside a
hunk: the closed hunks stay, the open hunk keeps its header and records the
line, or not, as `recordedAs` says. -/
theorem diffStep_inside (st : DiffState) (line : Str) (h : DiffHunk)
    (hc : st.currentHunk = some h) (hp : HasPrefix line "@@".toList = false) :
    ∃ h', (diffStep st line).currentHunk = some h' ∧ (diffStep st line).hunks = st.hunks ∧
      h'.Header = h.Header ∧
      h'.Lines.elems.map DiffLine.typeAndContent
        = h.Lines.elems.map DiffLine.typeAndContent ++ (recordedAs line).toList := by
  unfold diffStep recordedAs lineKind
  rw [hp, hc]
  simp only [Bool.false_eq_true, if_false]
  by_cases hpre : (!HasPrefix line "diff".toList && !HasPrefix line "index".toList &&
      !HasPrefix line "+++".toList && !HasPrefix line "---".toList) = true
  · rw [if_pos hpre, if_pos hpre]
    by_cases hd : HasPrefix line "-".toList = true
    · rw [if_pos hd, if_pos hd]
      exact ⟨_, rfl, rfl, rfl, by simp [Slice.elems, DiffLine.typeAndContent]⟩
    · rw [if_neg hd, if_neg hd]
      by_cases ha : HasPrefix line "+".toList = true
      · rw [if_pos ha, if_pos ha]
        exact ⟨_, rfl, rfl, rfl, by simp [Slice.elems, DiffLine.typeAndContent]⟩
      · rw [if_neg ha, if_neg ha]
        by_cases hs : (HasPrefix line " ".toList || line.isEmpty) = true
        · rw [if_pos hs, if_pos hs]
          exact ⟨_, rfl, rfl, rfl, by simp [Slice.elems, DiffLine.typeAndContent]⟩
        · rw [if_neg hs, if_neg hs]
          exact ⟨h, hc, rfl, rfl, by simp⟩
  · rw [if_neg hpre, if_neg hpre]
    exact ⟨h, hc, rfl, rfl, by simp⟩

/-- The turn of the loop on a line that does not start with `@@`, before the
first hunk: nothing changes. -/
theorem diffStep_outside (st : DiffState) (line : Str) (hc : st.currentHunk = none)
    (hp : HasPrefix line "@@".toList = false) : diffStep st line = st := by
  unfold diffStep
  rw [hp, hc]
  simp

/-- The turn of the loop on a hunk header: the open hunk is closed, and a
hunk with this header and no recorded line is opened. -/
theorem diffStep_isHunkHeader (st : DiffState) (line : Str) (hh : isHunkHeader line = true) :
    ∃ h', (diffStep st line).currentHunk = some h' ∧ (diffStep st line).hunks = st.flush ∧
      h'.Header = line ∧ h'.Lines = some [] := by
  unfold isHunkHeader at hh
  rw [Bool.and_eq_true] at hh
  obtain ⟨hp, hf⟩ := hh
  cases hm : findHeader line with
  | none =>
    rw [hm] at hf
    cases hf
  | some m =>
    obtain ⟨m1, m2, m3, m4, m5⟩ := m
    unfold diffStep
    rw [if_pos hp, hm]
    exact ⟨_, rfl, rfl, rfl, rfl⟩

/-- The loop over lines none of which starts with `@@`, inside a hunk: the
open hunk records the lines `recordedAs` tells, in order. -/
theorem foldl_diffStep_inside :
    ∀ (body : List Str) (st : DiffState) (h : DiffHunk), st.currentHunk = some h →
      (∀ l ∈ body, HasPrefix l "@@".toList = false) →
      ∃ h', (body.foldl diffStep st).currentHunk = some h' ∧
        (body.foldl diffStep st).hunks = st.hunks ∧ h'.Header = h.Header ∧
        h'.Lines.elems.map DiffLine.typeAndContent
          = h.Lines.elems.map DiffLine.typeAndContent ++ body.filterMap recordedAs := by
  intro body
  induction body with
  | nil =>
    intro st h hc _
    exact ⟨h, hc, rfl, rfl, by simp⟩
  | cons l rest ih =>
    intro st h hc hb
    obtain ⟨h1, c1, k1, d1, r1⟩ := diffStep_inside st l h hc (hb l (List.mem_cons_self _ _))
    obtain ⟨h2, c2, k2, d2, r2⟩ := ih (diffStep st l) h1 c1
      (fun x hx => hb x (List.mem_cons_of_mem _ hx))
    refine ⟨h2, c2, by rw [List.foldl_cons, k2, k1], by rw [d2, d1], ?_⟩
    rw [r2, r1, List.append_assoc]
    congr 1
    cases hr : recordedAs l with
    | none => simp [List.filterMap_cons, hr]
    | some x => simp [List.filterMap_cons, hr]

/-- The header and the recorded lines, by type and content, of a hunk. -/
theorem foldl_diffStep_segments :
    ∀ (segs : List HunkSegment) (st : DiffState),
      (∀ g ∈ segs, isHunkHeader g.header = true ∧
        ∀ l ∈ g.body, HasPrefix l "@@".toList = false) →
      ((segs.flatMap HunkSegment.lines).foldl diffStep st).flush.map
          (fun h => (h.Header, h.Lines.elems.map DiffLine.typeAndContent))
        = st.flush.map (fun h => (h.Header, h.Lines.elems.map DiffLine.typeAndContent))
          ++ segs.map (fun g => (g.header, g.body.filterMap recordedAs)) := by
  intro segs
  induction segs with
  | nil => intro st _; simp
  | cons g rest ih =>
    intro st hw
    obtain ⟨hg, hb⟩ := hw g (List.mem_cons_self _ _)
    obtain ⟨h1, c1, k1, d1, l1⟩ := diffStep_isHunkHeader st g.header hg
    obtain ⟨h2, c2, k2, d2, r2⟩ := foldl_diffStep_inside g.body (diffStep st g.header) h1 c1 hb
    rw [List.flatMap_cons, List.foldl_append, ih _ (fun x hx => hw x (List.mem_cons_of_mem _ hx))]
    have hfl : (g.lines.foldl diffStep st).flush = st.flush ++ [h2] := by
      unfold HunkSegment.lines
      rw [List.foldl_cons]
      unfold DiffState.flush
      rw [c2, k2, k1]
      rfl
    rw [hfl, List.map_append, List.map_cons, List.map_nil, List.map_cons, d2, d1, r2, l1]
    simp [Slice.elems]

/-- The hunks read from a diff made of lines before the first header, none of
which starts with `@@`, and of segments: a hunk header and lines that do not
start with `@@`. One hunk is read from each segment, with the header of the
segment, and its recorded lines are, by type and content, those of the body
that `recordedAs` tells, in order. -/
theorem parseHunks_segments (pre : List Str) (segs : List HunkSegment)
    (hpre : ∀ l ∈ pre, HasPrefix l "@@".toList = false)
    (hw : ∀ g ∈ segs, isHunkHeader g.header = true ∧
      ∀ l ∈ g.body, HasPrefix l "@@".toList = false) :
    (parseHunks (pre ++ segs.flatMap HunkSegment.lines)).map
        (fun h => (h.Header, h.Lines.elems.map DiffLine.typeAndContent))
      = segs.map (fun g => (g.header, g.body.filterMap recordedAs)) := by
  have h := foldl_diffStep_segments segs
    { hunks := [], currentHunk := none, oldLineNum := 0, newLineNum := 0 } hw
  show (DiffState.flush _).map _ = _
  rw [List.foldl_append, foldl_diffStep_preamble pre _ rfl hpre, h]
  rfl

/-- The headers of the hunks the loop has read, when every line that starts
with `@@` is a hunk header: the lines that start with `@@`, in order. -/
theorem foldl_diffStep_headers :
    ∀ (lines : List Str) (st : DiffState),
      (∀ l ∈ lines, HasPrefix l "@@".toList = true → isHunkHeader l = true) →
      ((lines.foldl diffStep st).flush).map DiffHunk.Header
        = st.flush.map DiffHunk.Header ++ lines.filter (fun l => HasPrefix l "@@".toList) := by
  intro lines
  induction lines with
  | nil => intro st _; simp
  | cons l rest ih =>
    intro st hw
    have hrest : ∀ x ∈ rest, HasPrefix x "@@".toList = true → isHunkHeader x = true :=
      fun x hx => hw x (List.mem_cons_of_mem _ hx)
    rw [List.foldl_cons, ih _ hrest]
    cases hp : HasPrefix l "@@".toList with
    | true =>
      obtain ⟨h1, c1, k1, d1, _⟩ := diffStep_isHunkHeader st l (hw l (List.mem_cons_self _ _) hp)
      have hfl : (diffStep st l).flush = st.flush ++ [h1] := by
        unfold DiffState.flush
        rw [c1, k1]
        rfl
      have hfilt : (l :: rest).filter (fun l => HasPrefix l "@@".toList)
          = l :: rest.filter (fun l => HasPrefix l "@@".toList) :=
        List.filter_cons_of_pos hp
      rw [hfl, hfilt, List.map_append, List.map_cons, List.map_nil, d1, List.append_assoc]
      rfl
    | false =>
      have hfilt : (l :: rest).filter (fun l => HasPrefix l "@@".toList)
          = rest.filter (fun l => HasPrefix l "@@".toList) :=
        List.filter_cons_of_neg (by rw [hp]; exact Bool.false_ne_true)
      rw [hfilt]
      congr 1
      cases hc : st.currentHunk with
      | none => rw [diffStep_outside st l hc hp]
      | some h =>
        obtain ⟨h1, c1, k1, d1, _⟩ := diffStep_inside st l h hc hp
        unfold DiffState.flush
        rw [c1, k1, hc]
        simp [d1]

/-- When every line of a diff that starts with `@@` is a hunk header,
`parseFileDiff` returns one hunk for each of these lines, and the header of
the i-th hunk is the i-th of these lines. -/
theorem parseFileDiff_headers (E : Env) (s : Service) (diffOutput filePath hash : Str)
    (hw : ∀ l ∈ Split diffOutput "\n".toList,
      HasPrefix l "@@".toList = true → isHunkHeader l = true) :
    ∃ fd hunks, (parseFileDiff E s diffOutput filePath hash).1 = (some fd, none) ∧
      fd.Hunks = some hunks ∧
      hunks.map DiffHunk.Header = (Split diffOutput "\n".toList).filter isHunkHeader ∧
      hunks.length = ((Split diffOutput "\n".toList).filter isHunkHeader).length := by
  obtain ⟨fd, e1, e2⟩ := parseFileDiff_hunks E s diffOutput filePath hash
  have h := foldl_diffStep_headers (Split diffOutput "\n".toList)
    { hunks := [], currentHunk := none, oldLineNum := 0, newLineNum := 0 } hw
  have hfilt : (Split diffOutput "\n".toList).filter (fun l => HasPrefix l "@@".toList)
      = (Split diffOutput "\n".toList).filter isHunkHeader := by
    apply List.filter_congr
    intro l hl
    cases hp : HasPrefix l "@@".toList with
    | true => rw [hw l hl hp]
    | false =>
      unfold isHunkHeader
      rw [hp]
      rfl
  have hmap : (parseHunks (Split diffOutput "\n".toList)).map DiffHunk.Header
      = (Split diffOutput "\n".toList).filter isHunkHeader := by
    rw [← hfilt]
    exact h
  refine ⟨fd, _, e1, e2, hmap, ?_⟩
  rw [← hmap, List.length_map]

/-- C25: in the diff `strayMarkerDiff` one line starts with `@@` and matches
the hunk-header pattern, and `parseFileDiff` returns two hunks, both with
that line as header: the line `@@ stray` closes the open hunk, with the one
line recorded so far, and opens none, so that the same hunk, with the line
after it recorded as well, is closed once more at the end of the input. -/
theorem parseFileDiff_stray_marker_repeats_hunk :
    (Split strayMarkerDiff "\n".toList).filter isHunkHeader = ["@@ -1,2 +1,2 @@".toList] ∧
    ∃ fd h1 h2, (parseFileDiff (constEnv []) (NewService []) strayMarkerDiff "f.txt".toList
        "abc123".toList).1 = (some fd, none) ∧
      fd.Hunks = some [h1, h2] ∧
      h1.Header = "@@ -1,2 +1,2 @@".toList ∧ h2.Header = "@@ -1,2 +1,2 @@".toList ∧
      h1.Lines.elems.map DiffLine.Content = [" a".toList] ∧
      h2.Lines.elems.map DiffLine.Content = [" a".toList, " b".toList] := by
  refine ⟨by decide, _, _, _, rfl, rfl, by decide, by decide, by decide, by decide⟩

/-! ### Lines of a hunk body -/

/-- C23, as stated, fails: the second line after the header of
`dashedLineDiff` begins with a minus sign, and the hunk `parseFileDiff`
returns records the context line before it only: a line that starts with
`---` is taken for a line of the file header and skipped. -/
theorem parseFileDiff_skips_dashed_line :
    Split dashedLineDiff "\n".toList
      = ["@@ -1,2 +1 @@".toList, " keep".toList, "--- old comment".toList] ∧
    HasPrefix "--- old comment".toList "-".toList = true ∧
    ∃ fd h, (parseFileDiff (constEnv []) (NewService []) dashedLineDiff "f.txt".toList
        "abc123".toList).1 = (some fd, none) ∧
      fd.Hunks = some [h] ∧
      h.Lines = some [{ Type_ := "context".toList, Content := " keep".toList
                        OldNum := 1, NewNum := 1 }] ∧
      ∀ l ∈ h.Lines.elems, l.Content ≠ "--- old comment".toList := by
  refine ⟨by decide, by decide, _, _, rfl, rfl, by decide, by decide⟩

/-- C23 (amended): let a diff text be made of lines before the first hunk
header, none of which starts with `@@`, and of hunk headers each followed by
its body, lines that do not start with `@@`. Then `parseFileDiff` returns one
hunk for each header, and the recorded lines of the hunk are, by type and
content and in input order, the lines of the body that `recordedAs` tells,
once each. A line that begins with a minus sign is recorded, whole, as a
deletion unless it begins with three; a line that begins with a plus sign is
recorded as an addition unless it begins with three; a line that begins with
a space is recorded as a context line. -/
theorem parseFileDiff_records_body (E : Env) (s : Service) (diffOutput filePath hash : Str)
    (pre : List Str) (segs : List HunkSegment)
    (hlines : Split diffOutput "\n".toList = pre ++ segs.flatMap HunkSegment.lines)
    (hpre : ∀ l ∈ pre, HasPrefix l "@@".toList = false)
    (hw : ∀ g ∈ segs, isHunkHeader g.header = true ∧
      ∀ l ∈ g.body, HasPrefix l "@@".toList = false) :
    (∃ fd hunks, (parseFileDiff E s diffOutput filePath hash).1 = (some fd, none) ∧
      fd.Hunks = some hunks ∧
      hunks.map (fun h => (h.Header, h.Lines.elems.map DiffLine.typeAndContent))
        = segs.map (fun g => (g.header, g.body.filterMap recordedAs))) ∧
    (∀ t : Str, recordedAs ('-' :: t)
      = if HasPrefix t "--".toList then none else some ("deletion".toList, '-' :: t)) ∧
    (∀ t : Str, recordedAs ('+' :: t)
      = if HasPrefix t "++".toList then none else some ("addition".toList, '+' :: t)) ∧
    (∀ t : Str, recordedAs (' ' :: t) = some ("context".toList, ' ' :: t)) := by
  refine ⟨?_, ?_, ?_, ?_⟩
  · obtain ⟨fd, e1, e2⟩ := parseFileDiff_hunks E s diffOutput filePath hash
    refine ⟨fd, _, e1, e2, ?_⟩
    rw [hlines]
    exact parseHunks_segments pre segs hpre hw
  · intro t
    by_cases h : HasPrefix t "--".toList = true
    · have h' : List.isPrefixOf ['-', '-'] t = true := h
      rw [if_pos h]
      simp [recordedAs, lineKind, HasPrefix, List.isPrefixOf, h']
    · have h' : List.isPrefixOf ['-', '-'] t = false := by
        cases hb : List.isPrefixOf ['-', '-'] t with
        | true => exact absurd hb h
        | false => rfl
      rw [if_neg h]
      simp [recordedAs, lineKind, HasPrefix, List.isPrefixOf, h']
  · intro t
    by_cases h : HasPrefix t "++".toList = true
    · have h' : List.isPrefixOf ['+', '+'] t = true := h
      rw [if_pos h]
      simp [recordedAs, lineKind, HasPrefix, List.isPrefixOf, h']
    · have h' : List.isPrefixOf ['+', '+'] t = false := by
        cases hb : List.isPrefixOf ['+', '+'] t with
        | true => exact absurd hb h
        | false => rfl
      rw [if_neg h]
      simp [recordedAs, lineKind, HasPrefix, List.isPrefixOf, h']
  · intro t
    simp [recordedAs, lineKind, HasPrefix, List.isPrefixOf]

/-- Witness of C23 (amended): the two hunks of `twoHunkDiff`. -/
theorem parseFileDiff_records_body_witness :
    ∃ fd hunks, (parseFileDiff (constEnv []) (NewService []) twoHunkDiff "f".toList
        "abc123".toList).1 = (some fd, none) ∧
      fd.Hunks = some hunks ∧
      hunks.map (fun h => (h.Header, h.Lines.elems.map DiffLine.typeAndContent))
        = [("@@ -1,2 +1,2 @@ fn".toList,
            [("context".toList, " a".toList), ("deletion".toList, "-b".toList),
             ("addition".toList, "+c".toList)]),
           ("@@ -10 +10 @@".toList,
            [("deletion".toList, "-x".toList), ("addition".toList, "+y".toList)])] :=
  (parseFileDiff_records_body (constEnv []) (NewService []) twoHunkDiff "f".toList
    "abc123".toList twoHunkPreamble twoHunkSegments (by decide) (by decide) (by decide)).1

/-! ### Remotes -/

/-- One turn of the loop of `GetRemotes`, by the row read from the line. -/
theorem remoteStep_row (m : List Remote) (line : Str) :
    remoteStep m line =
      match remoteRow line with
      | none => m
      | some r => remoteMapSet m r.1 r.2.1 r.2.2 := by
  unfold remoteStep remoteRow
  by_cases h0 : line = []
  · rw [if_pos h0, if_pos h0]
  · rw [if_neg h0, if_neg h0]
    simp only []
    by_cases h3 : 3 ≤ (Fields line).length
    · rw [if_pos h3, if_pos h3]
    · rw [if_neg h3, if_neg h3]

/-- The loop of `GetRemotes`, by the rows read from the lines. -/
theorem foldl_remoteStep :
    ∀ (lines : List Str) (m : List Remote),
      lines.foldl remoteStep m
        = (lines.filterMap remoteRow).foldl (fun m r => remoteMapSet m r.1 r.2.1 r.2.2) m := by
  intro lines
  induction lines with
  | nil => intro m; rfl
  | cons l rest ih =>
    intro m
    rw [List.foldl_cons, ih, remoteStep_row]
    cases hr : remoteRow l with
    | none => simp [List.filterMap_cons, hr]
    | some r => simp [List.filterMap_cons, hr]

/-- The URL of the last row, after one more row. -/
theorem lastUrl_append (rows : List (Str × Str × Str)) (row : Str × Str × Str)
    (name kind : Str) :
    lastUrl (rows ++ [row]) name kind
      = if row.1 = name ∧ row.2.2 = kind then row.2.1 else lastUrl rows name kind := by
  unfold lastUrl
  rw [List.foldl_append]
  rfl

/-- No row of the name: no URL. -/
theorem lastUrl_of_not_mem (name kind : Str) :
    ∀ rows : List (Str × Str × Str), name ∉ rows.map (fun r => r.1) →
      lastUrl rows name kind = [] := by
  intro rows
  induction rows using List.reverseRecOn with
  | nil => intro _; rfl
  | append_singleton rows row ih =>
    intro h
    rw [List.map_append, List.mem_append, not_or] at h
    rw [lastUrl_append, if_neg, ih h.1]
    intro hh
    apply h.2
    rw [List.map_cons, List.map_nil, List.mem_singleton]
    exact hh.1.symm

/-- The URL of the last row is the URL of the rows of the name and the kind,
when there is one and they all have the same. -/
theorem lastUrl_of_unique (name kind u : Str) :
    ∀ rows : List (Str × Str × Str),
      (∃ row ∈ rows, row.1 = name ∧ row.2.2 = kind) →
      (∀ row ∈ rows, row.1 = name → row.2.2 = kind → row.2.1 = u) →
      lastUrl rows name kind = u := by
  intro rows
  induction rows using List.reverseRecOn with
  | nil =>
    intro h _
    obtain ⟨row, hm, _⟩ := h
    exact absurd hm (List.not_mem_nil _)
  | append_singleton rows row ih =>
    intro hex hall
    rw [lastUrl_append]
    by_cases hr : row.1 = name ∧ row.2.2 = kind
    · rw [if_pos hr]
      exact hall row (List.mem_append_right _ (List.mem_singleton_self _)) hr.1 hr.2
    · rw [if_neg hr]
      apply ih
      · obtain ⟨x, hx, hx2⟩ := hex
        rcases List.mem_append.mp hx with m | m
        · exact ⟨x, m, hx2⟩
        · rw [List.mem_singleton] at m
          rw [m] at hx2
          exact absurd hx2 hr
      · intro x hx
        exact hall x (List.mem_append_left _ hx)

/-- The map with the remote `n` entered, when it was not there: what holds of
it before the URL is set. -/
theorem remoteMap_entered (rows : List (Str × Str × Str)) (m : List Remote) (n : Str)
    (h : RemoteMapOf rows m) :
    ((if m.any (fun r => r.Name = n) then m
        else m ++ [{ Name := n, FetchURL := [], PushURL := [] }]).map Remote.Name).Nodup ∧
    (∀ x, x ∈ (if m.any (fun r => r.Name = n) then m
        else m ++ [{ Name := n, FetchURL := [], PushURL := [] }]).map Remote.Name
      ↔ x ∈ rows.map (fun r => r.1) ∨ x = n) ∧
    ∀ r ∈ (if m.any (fun r => r.Name = n) then m
        else m ++ [{ Name := n, FetchURL := [], PushURL := [] }]),
      r.FetchURL = lastUrl rows r.Name "fetch".toList ∧
      r.PushURL = lastUrl rows r.Name "push".toList := by
  obtain ⟨hnd, hmem, hurl⟩ := h
  have hany : m.any (fun r => decide (r.Name = n)) = true ↔ n ∈ m.map Remote.Name := by
    rw [List.any_eq_true]
    constructor
    · rintro ⟨r, hr, hd⟩
      exact List.mem_map.mpr ⟨r, hr, of_decide_eq_true hd⟩
    · intro hh
      obtain ⟨r, hr, e⟩ := List.mem_map.mp hh
      exact ⟨r, hr, decide_eq_true e⟩
  by_cases hin : n ∈ m.map Remote.Name
  · rw [if_pos (hany.mpr hin)]
    refine ⟨hnd, fun x => ?_, hurl⟩
    rw [hmem]
    constructor
    · exact Or.inl
    · rintro (hx | hx)
      · exact hx
      · rw [hx]
        exact (hmem n).mp hin
  · rw [if_neg (fun hh => hin (hany.mp hh))]
    refine ⟨?_, fun x => ?_, fun r hr => ?_⟩
    · rw [List.map_append, List.map_cons, List.map_nil]
      apply List.Nodup.append hnd (List.nodup_singleton _)
      intro x hx1 hx2
      rw [List.mem_singleton] at hx2
      rw [hx2] at hx1
      exact hin hx1
    · rw [List.map_append, List.mem_append, hmem, List.map_cons, List.map_nil,
        List.mem_singleton]
    · rcases List.mem_append.mp hr with hm | hm
      · exact hurl r hm
      · rw [List.mem_singleton] at hm
        rw [hm]
        have hno : n ∉ rows.map (fun r => r.1) := fun hh => hin ((hmem n).mpr hh)
        exact ⟨(lastUrl_of_not_mem n _ rows hno).symm, (lastUrl_of_not_mem n _ rows hno).symm⟩

/-- One row more: the map after the turn of the loop is the map of the rows
read so far. -/
theorem RemoteMapOf_step (rows : List (Str × Str × Str)) (m : List Remote)
    (row : Str × Str × Str) (h : RemoteMapOf rows m) :
    RemoteMapOf (rows ++ [row]) (remoteMapSet m row.1 row.2.1 row.2.2) := by
  obtain ⟨n, u, k⟩ := row
  obtain ⟨g1, g2, g3⟩ := remoteMap_entered rows m n h
  have hfp : "fetch".toList ≠ "push".toList := by decide
  unfold remoteMapSet
  simp only []
  generalize (if m.any (fun r => r.Name = n) then m
    else m ++ [{ Name := n, FetchURL := [], PushURL := [] }]) = m1 at g1 g2 g3
  have hname : (m1.map (fun r : Remote =>
      if r.Name = n then
        (if k = "fetch".toList then { r with FetchURL := u }
         else if k = "push".toList then { r with PushURL := u }
         else r)
      else r)).map Remote.Name = m1.map Remote.Name := by
    rw [List.map_map]
    apply List.map_congr_left
    intro r _
    simp only [Function.comp]
    split_ifs <;> rfl
  refine ⟨by rw [hname]; exact g1, fun x => ?_, fun r' hr' => ?_⟩
  · rw [hname, g2, List.map_append, List.mem_append, List.map_cons, List.map_nil,
      List.mem_singleton]
  · obtain ⟨r, hr, e⟩ := List.mem_map.mp hr'
    obtain ⟨f1, f2⟩ := g3 r hr
    rw [lastUrl_append, lastUrl_append]
    simp only []
    by_cases hn : r.Name = n
    · rw [if_pos hn] at e
      by_cases hk : k = "fetch".toList
      · rw [if_pos hk] at e
        rw [← e]
        simp only []
        rw [if_pos ⟨hn.symm, hk⟩, if_neg (fun hh => hfp (hk.symm.trans hh.2))]
        exact ⟨rfl, f2⟩
      · rw [if_neg hk] at e
        by_cases hk2 : k = "push".toList
        · rw [if_pos hk2] at e
          rw [← e]
          simp only []
          rw [if_neg (fun hh => hk hh.2), if_pos ⟨hn.symm, hk2⟩]
          exact ⟨f1, rfl⟩
        · rw [if_neg hk2] at e
          rw [← e, if_neg (fun hh => hk hh.2), if_neg (fun hh => hk2 hh.2)]
          exact ⟨f1, f2⟩
    · rw [if_neg hn] at e
      rw [← e, if_neg (fun hh => hn hh.1.symm), if_neg (fun hh => hn hh.1.symm)]
      exact ⟨f1, f2⟩

/-- The map the loop of `GetRemotes` builds is the map of the rows. -/
theorem RemoteMapOf_foldl :
    ∀ (rows done : List (Str × Str × Str)) (m : List Remote), RemoteMapOf done m →
      RemoteMapOf (done ++ rows)
        (rows.foldl (fun m r => remoteMapSet m r.1 r.2.1 r.2.2) m) := by
  intro rows
  induction rows with
  | nil =>
    intro done m h
    rw [List.append_nil]
    exact h
  | cons r rest ih =>
    intro done m h
    have e : done ++ r :: rest = (done ++ [r]) ++ rest := by simp
    rw [e, List.foldl_cons]
    exact ih _ _ (RemoteMapOf_step done m r h)

/-- C22, as stated, fails: in `spacedRemoteOutput` the name `origin` appears
on one `(fetch)` line and one `(push)` line, with the URL `/srv/my repo.git`,
and `GetRemotes` returns the remote with both URLs empty: the line is cut at
white space, and the third field, `repo.git`, is neither `(fetch)` nor `(push)`. -/
theorem GetRemotes_url_with_space :
    Split spacedRemoteOutput "\n".toList
      = ["origin\t/srv/my repo.git (fetch)".toList, "origin\t/srv/my repo.git (push)".toList] ∧
    (GetRemotes (constEnv spacedRemoteOutput) (NewService []) 0 0).1
      = (some [{ Name := "origin".toList, FetchURL := [], PushURL := [] }], none) := by
  refine ⟨by decide, by decide⟩

/-- C22 (amended): let `range` visit every entry of a map once, the cache of
remotes give no fresh list, and `git remote -v` succeed with an output that
is not empty. The rows of the output are read from its lines of at least
three fields, cut at white space: the name is the first field, the URL the
second, the kind the third without its brackets. Then `GetRemotes` returns,
with a nil error, exactly one remote for every name that has a row, in some
order; the `FetchURL` of a remote is the URL of the row of its name of kind
`fetch`, when there is exactly one, and its `PushURL` the URL of the row of
kind `push`, when there is exactly one. -/
theorem GetRemotes_merges_rows (E : Env) (s : Service) (now later : Instant) (output : Str)
    (hperm : ∀ m, (E.rangeOrder m).Perm m)
    (hmiss : (Before now s.cache.remotesExpiry && decide (s.cache.remotes.len > 0)) = false)
    (hrun : (runGitCommandWithTimeout E s (5 * Second) ["remote".toList, "-v".toList]).1
      = (output, none))
    (hne : (TrimSpace output).isEmpty = false) :
    ∃ remotes, (GetRemotes E s now later).1 = (some remotes, none) ∧
      (remotes.map Remote.Name).Nodup ∧
      (∀ n, n ∈ remotes.map Remote.Name ↔ ∃ row ∈ remoteRows output, row.1 = n) ∧
      ∀ rem ∈ remotes, ∀ row ∈ remoteRows output, row.1 = rem.Name →
        (row.2.2 = "fetch".toList →
          (∀ other ∈ remoteRows output, other.1 = rem.Name → other.2.2 = "fetch".toList →
            other = row) →
          rem.FetchURL = row.2.1) ∧
        (row.2.2 = "push".toList →
          (∀ other ∈ remoteRows output, other.1 = rem.Name → other.2.2 = "push".toList →
            other = row) →
          rem.PushURL = row.2.1) := by
  have hmap := RemoteMapOf_foldl (remoteRows output) [] []
    ⟨List.nodup_nil, fun n => Iff.rfl, fun r hr => absurd hr (List.not_mem_nil r)⟩
  rw [List.nil_append] at hmap
  have hfold : (Split output "\n".toList).foldl remoteStep []
      = (remoteRows output).foldl (fun m r => remoteMapSet m r.1 r.2.1 r.2.2) [] :=
    foldl_remoteStep _ _
  rw [← hfold] at hmap
  obtain ⟨m1, m2, m3⟩ := hmap
  have hp := hperm ((Split output "\n".toList).foldl remoteStep [])
  refine ⟨E.rangeOrder ((Split output "\n".toList).foldl remoteStep []), ?_, ?_, ?_, ?_⟩
  · unfold GetRemotes
    rw [hmiss]
    generalize runGitCommandWithTimeout E s (5 * Second) ["remote".toList, "-v".toList] = r
      at hrun
    obtain ⟨⟨o, e⟩, s1⟩ := r
    simp only [Prod.mk.injEq] at hrun
    obtain ⟨rfl, rfl⟩ := hrun
    simp only [Bool.false_eq_true, if_false, hne]
  · exact ((hp.map Remote.Name).nodup_iff).mpr m1
  · intro n
    rw [(hp.map Remote.Name).mem_iff, m2, List.mem_map]
  · intro rem hrem row hrow hname
    obtain ⟨f1, f2⟩ := m3 rem (hp.mem_iff.mp hrem)
    constructor
    · intro hk huniq
      rw [f1]
      apply lastUrl_of_unique
      · exact ⟨row, hrow, hname, hk⟩
      · intro other ho h1 h2
        rw [huniq other ho h1 h2]
    · intro hk huniq
      rw [f2]
      apply lastUrl_of_unique
      · exact ⟨row, hrow, hname, hk⟩
      · intro other ho h1 h2
        rw [huniq other ho h1 h2]

set_option maxRecDepth 16000 in
/-- Witness of C22 (amended): two remotes, the second with a push URL of its own. -/
theorem GetRemotes_merges_rows_witness :
    (∃ remotes, (GetRemotes (constEnv remotesOutput) (NewService []) 0 0).1
        = (some remotes, none) ∧
      (remotes.map Remote.Name).Nodup ∧
      (∀ n, n ∈ remotes.map Remote.Name ↔ ∃ row ∈ remoteRows remotesOutput, row.1 = n) ∧
      ∀ rem ∈ remotes, ∀ row ∈ remoteRows remotesOutput, row.1 = rem.Name →
        (row.2.2 = "fetch".toList →
          (∀ other ∈ remoteRows remotesOutput, other.1 = rem.Name →
            other.2.2 = "fetch".toList → other = row) →
          rem.FetchURL = row.2.1) ∧
        (row.2.2 = "push".toList →
          (∀ other ∈ remoteRows remotesOutput, other.1 = rem.Name →
            other.2.2 = "push".toList → other = row) →
          rem.PushURL = row.2.1)) ∧
    remoteRows remotesOutput
      = [("origin".toList, "https://x.org/r.git".toList, "fetch".toList),
         ("origin".toList, "https://x.org/r.git".toList, "push".toList),
         ("up".toList, "https://y.org/r.git".toList, "fetch".toList),
         ("up".toList, "ssh://y.org/r.git".toList, "push".toList)] ∧
    (GetRemotes (constEnv remotesOutput) (NewService []) 0 0).1
      = (some [{ Name := "origin".toList, FetchURL := "https://x.org/r.git".toList
                 PushURL := "https://x.org/r.git".toList },
               { Name := "up".toList, FetchURL := "https://y.org/r.git".toList
                 PushURL := "ssh://y.org/r.git".toList }], none) :=
  ⟨GetRemotes_merges_rows (constEnv remotesOutput) (NewService []) 0 0 remotesOutput
      (fun m => List.Perm.refl m) (by decide) (by rfl) (by decide),
    by decide, by decide⟩

/-! ### The aggregation endpoint -/

/-- The four fetches that cannot panic return a nil error, whatever the
commands do; the other two return a nil error whenever they return. -/
theorem category_fetches_nil_error (E : Env) (s : Service) (now later : Instant)
    (clock : Nat → Time) (limit offset : Int) (branch : Str) (showAll : Bool) :
    (GetBranches E s now later).1.2 = none ∧
    (GetStashes E s clock).1.2 = none ∧
    (GetRemotes E s now later).1.2 = none ∧
    (GetUncommittedChanges E s).1.2 = none ∧
    (∀ r, (GetCommitsWithOffset E s limit offset branch showAll).1 = Except.ok r → r.2 = none) ∧
    (∀ r, (GetTags E s now later).1 = Except.ok r → r.2 = none) := by
  refine ⟨?_, ?_, ?_, rfl, ?_, ?_⟩
  · unfold GetBranches
    split
    · rfl
    · simp only []
      split <;> rfl
  · unfold GetStashes
    simp only []
    split
    · rfl
    · split <;> rfl
  · unfold GetRemotes
    split
    · rfl
    · simp only []
      split
      · rfl
      · split <;> rfl
  · intro r hr
    unfold GetCommitsWithOffset at hr
    simp only [] at hr
    split at hr
    · cases hr
      rfl
    · split at hr
      · cases hr
      · cases hr
        rfl
  · intro r hr
    unfold GetTags at hr
    split at hr
    · cases hr
      rfl
    · simp only [] at hr
      split at hr
      · cases hr
        rfl
      · split at hr
        · cases hr
          rfl
        · split at hr
          · cases hr
          · cases hr
            rfl

/-- The message a goroutine sends for a result with a nil error is not an error. -/
theorem messageOf_of_nil {α : Type} (data : α → Message) (r : Ret α) (h : r.2 = none) :
    messageOf data r = data r.1 := by
  unfold messageOf
  rw [h]

/-- The collection loop completes, without error, when six messages or more
arrive and none of them is an error. -/
theorem collectLoop_completes :
    ∀ (msgs : List Message) (res : AllResult) (completed : Nat),
      (∀ m ∈ msgs, ∀ e, m ≠ Message.err e) → 6 ≤ completed + msgs.length → res.err = none →
      ∃ r, collectLoop msgs res completed = some r ∧ r.err = none := by
  intro msgs
  induction msgs with
  | nil =>
    intro res completed _ hlen herr
    have h6 : ¬ completed < 6 := by
      simp only [List.length_nil, Nat.add_zero] at hlen
      omega
    exact ⟨res, by unfold collectLoop; rw [if_neg h6], herr⟩
  | cons m ms ih =>
    intro res completed hno hlen herr
    have hms : ∀ x ∈ ms, ∀ e, x ≠ Message.err e := fun x hx => hno x (List.mem_cons_of_mem _ hx)
    have hl : 6 ≤ (completed + 1) + ms.length := by
      simp only [List.length_cons] at hlen
      omega
    unfold collectLoop
    by_cases h6 : completed < 6
    · rw [if_pos h6]
      cases m with
      | commits v => exact ih _ _ hms hl herr
      | branches v => exact ih _ _ hms hl herr
      | tags v => exact ih _ _ hms hl herr
      | stashes v => exact ih _ _ hms hl herr
      | remotes v => exact ih _ _ hms hl herr
      | uncommittedChanges v => exact ih _ _ hms hl herr
      | err e => exact absurd rfl (hno _ (List.mem_cons_self _ _) e)
    · rw [if_neg h6]
      exact ⟨res, rfl, herr⟩

/-- The collection loop completes, without error, on the six results, in
whatever order they arrive. -/
theorem collectLoop_six (a : Slice Commit) (b : Slice Branch) (c : Slice Tag)
    (d : Slice Stash) (e : Slice Remote) (f : Slice FileChange)
    (arrival : List Message → List Message) (hperm : ∀ l, (arrival l).Perm l) :
    ∃ r, collectLoop (arrival [Message.commits a, Message.branches b, Message.tags c,
        Message.stashes d, Message.remotes e, Message.uncommittedChanges f]) emptyResult 0
      = some r ∧ r.err = none := by
  apply collectLoop_completes
  · intro m hm x
    have hm' := (hperm _).mem_iff.mp hm
    simp only [List.mem_cons, List.mem_singleton, List.not_mem_nil, or_false] at hm'
    rcases hm' with h | h | h | h | h | h <;> rw [h] <;> exact Message.noConfusion
  · rw [(hperm _).length_eq]
    simp
  · rfl

/-- The goroutine of `GetAllData` that fetches and collects never takes the
error branch of its collection loop: either a fetch panics, or the loop
completes and the result has a nil error, whatever the order in which the
messages arrive. -/
theorem collectAllData_no_error (E : Env) (s : Service) (limit : Int) (times : Nat → Instant)
    (clock : Nat → Time) (arrival : List Message → List Message)
    (hperm : ∀ l, (arrival l).Perm l) :
    (∃ p, (collectAllData E s limit times clock arrival).1 = Except.error p) ∨
    (∃ res, (collectAllData E s limit times clock arrival).1 = Except.ok (some res) ∧
      res.err = none) := by
  unfold collectAllData fetchAll
  simp only []
  cases hc : (GetCommitsWithOffset E s limit 0 [] false).1 with
  | error p => exact Or.inl ⟨p, rfl⟩
  | ok rc =>
    simp only []
    cases ht : (GetTags E (GetBranches E (GetCommitsWithOffset E s limit 0 [] false).2
        (times 0) (times 1)).2 (times 2) (times 3)).1 with
    | error p => exact Or.inl ⟨p, rfl⟩
    | ok rt =>
      simp only []
      right
      have e1 := (category_fetches_nil_error E s 0 0 clock limit 0 [] false).2.2.2.2.1 rc hc
      have e3 := (category_fetches_nil_error E
        (GetBranches E (GetCommitsWithOffset E s limit 0 [] false).2 (times 0) (times 1)).2
        (times 2) (times 3) clock limit 0 [] false).2.2.2.2.2 rt ht
      have e2 := (category_fetches_nil_error E (GetCommitsWithOffset E s limit 0 [] false).2
        (times 0) (times 1) clock limit 0 [] false).1
      have e4 := fun t => (category_fetches_nil_error E t 0 0 clock limit 0 [] false).2.1
      have e5 := fun t => (category_fetches_nil_error E t (times 4) (times 5) clock limit
        0 [] false).2.2.1
      have e6 := fun t => (category_fetches_nil_error E t 0 0 clock limit 0 [] false).2.2.2.1
      rw [messageOf_of_nil _ _ e1, messageOf_of_nil _ _ e2, messageOf_of_nil _ _ e3,
        messageOf_of_nil _ _ (e4 _), messageOf_of_nil _ _ (e5 _), messageOf_of_nil _ _ (e6 _)]
      obtain ⟨r, h1, h2⟩ := collectLoop_six _ _ _ _ _ _ arrival hperm
      exact ⟨r, by rw [h1], h2⟩

/-- C26: when the log command prints a line of exactly seven fields,
`GetCommitsWithOffset` panics in its goroutine, and when the tag list has a
line of five fields, the fifth not empty, `GetTags` does: in both cases no
result and no error is sent, and the collection loop of `GetAllData` does not
complete. -/
theorem collectAllData_panics :
    (GetCommitsWithOffset (constEnv "a|b|c|d|e|f|g".toList) (NewService []) 50 0 [] false).1
      = Except.error (Panic.indexOutOfRange 7 7) ∧
    (collectAllData (constEnv "a|b|c|d|e|f|g".toList) (NewService []) 50 (fun _ => 0)
      (fun _ => 0) (fun l => l)).1 = Except.error (Panic.indexOutOfRange 7 7) ∧
    (collectAllData (constEnv "v1.0|abc1234|tag|Release|Jane".toList) (NewService []) 50
      (fun _ => 0) (fun _ => 0) (fun l => l)).1 = Except.error (Panic.indexOutOfRange 5 5) := by
  refine ⟨by decide, by decide, by decide⟩

end Gait
